import Mathlib

/-!
# goutils: the lazily populated, lookup-deduplicating cache, and the audit trail

A verification development for `jwtverifier/cache/inmemory/provider.go` and,
further down, for the audit attributes, the audit events publisher, the panic
recovery and correlation id middlewares, `mergeMaps` of `config/aws` and the
commander.

* `gocache` models the expiring map the provider is built on.
* `inmemory.Provider.Get` is the sequential embedding of `Provider.Get`; it
  receives the clock readings it takes and the state of the world the lookup
  function acts on, and returns its result, the new cache, the new world and
  the trace of lookup invocations it made.
* `inmemory.Sys` and `inmemory.step` are the interleaving embedding of the same
  function: one program counter per caller, a shared mutex and a shared cache.

Conventions. `interface{}` and `error` values are `Option`s, `none` being `nil`.
Clock readings are Unix nanoseconds as natural numbers and durations are
integers; the wall clock is taken not to precede the epoch and sums of a
reading and a duration are taken to stay inside the 64-bit range.
-/

namespace gocache

/-- Modelled from the spec: the duration constant `DefaultExpiration` of the
third-party map (`github.com/patrickmn/go-cache`), absent from the sources. -/
def DefaultExpiration : Int := 0

/-- Modelled from the spec: the duration constant `NoExpiration` of the
third-party map, absent from the sources. -/
def NoExpiration : Int := -1

/-- Modelled from the spec: the entry type of the third-party expiring map
(`github.com/patrickmn/go-cache`), whose source is not part of the repository.
It is the spec's `CacheEntry` (`value`, `expiresAt`); `Expiration` is in Unix
nanoseconds and, by the library's convention, `0` marks an entry that never
expires. -/
structure Item (V : Type) where
  Object : Option V
  Expiration : Int
  deriving DecidableEq

/-- Modelled from the spec: the third-party expiring map held in
`Provider.cache`: the default time-to-live fixed at construction, the interval
of the periodic sweep (`none` when no sweeper runs) and the key to entry
mapping. -/
structure Cache (V : Type) where
  defaultExpiration : Int
  janitor : Option Int
  items : String → Option (Item V)

/-- Modelled from the spec: the test the third-party map applies to an entry
when reading and when sweeping, absent from the sources: the entry carries an
expiration and the clock reading is past it ("entries older than their
`expiresAt` are treated as absent by readers"). -/
def Item.expiredAt {V : Type} (item : Item V) (now : Nat) : Bool :=
  decide (item.Expiration > 0) && decide ((now : Int) > item.Expiration)

/-- Modelled from the spec: `cache.New` of the third-party map, absent from the
sources. A default expiration of `0` is replaced by `NoExpiration` (the library
documents that with an expiration below one the entries never expire); a
sweeper runs only for a positive cleanup interval; the map starts empty. -/
def New {V : Type} (defaultExpiration cleanupInterval : Int) : Cache V :=
  { defaultExpiration := if defaultExpiration = 0 then NoExpiration else defaultExpiration
    janitor := if cleanupInterval > 0 then some cleanupInterval else none
    items := fun _ => none }

/-- Modelled from the spec: `Cache.Get` of the third-party map, absent from the
sources. An entry past its expiration is treated as absent even though it is
still physically present; the read changes nothing. `now` is the clock reading
the call takes. -/
def Cache.Get {V : Type} (c : Cache V) (now : Nat) (k : String) : Option V × Bool :=
  match c.items k with
  | none => (none, false)
  | some item => if item.expiredAt now then (none, false) else (item.Object, true)

/-- Modelled from the spec: `Cache.Set` of the third-party map, absent from the
sources. The entry for `k` is replaced by a fresh one expiring at `now + d`;
`DefaultExpiration` selects the map's default and a duration that is not
positive stores an entry that never expires. -/
def Cache.Set {V : Type} (c : Cache V) (now : Nat) (k : String) (x : Option V) (d : Int) :
    Cache V :=
  let d1 := if d = DefaultExpiration then c.defaultExpiration else d
  let e : Int := if d1 > 0 then (now : Int) + d1 else 0
  { c with items := fun k1 => if k1 = k then some ⟨x, e⟩ else c.items k1 }

/-- Modelled from the spec: `Cache.SetDefault` of the third-party map, absent
from the sources: `Set` with the map's default expiration. -/
def Cache.SetDefault {V : Type} (c : Cache V) (now : Nat) (k : String) (x : Option V) :
    Cache V :=
  c.Set now k x DefaultExpiration

/-- Modelled from the spec: `Cache.DeleteExpired` of the third-party map, absent
from the sources: the sweep, which physically removes the entries that readers
already treat as absent. -/
def Cache.DeleteExpired {V : Type} (c : Cache V) (now : Nat) : Cache V :=
  { c with items := fun k =>
      match c.items k with
      | none => none
      | some item => if item.expiredAt now then none else some item }

end gocache

namespace inmemory

open gocache

/-- The lookup capability `func(string) (interface{}, error)`. The function is
externally owned and side-effect bearing: it reads and updates a world state
`σ`, so that its result may differ from one invocation to the next. -/
abbrev Lookup (V E σ : Type) := String → σ → (Option V × Option E) × σ

/-- The struct `Provider`. `lookup` is a func value and may be nil (`none`).
The field `mutex` is state of the interleaving model (`Sys.mutex`); in a
sequential run it is free at every call and free again at every return. -/
structure Provider (V E σ : Type) where
  cache : Cache V
  lookup : Option (Lookup V E σ)

/-- What a call of a Go function with results `(interface{}, error)` yields:
the returned pair, or a run-time panic. -/
inductive Result (V E : Type) where
  | returned (value : Option V) (err : Option E)
  | panicked
  deriving DecidableEq

/-- The three clock readings one call of `Provider.Get` can take: inside the
unguarded `cache.Get` (line 18), inside the `cache.Get` under the mutex
(line 25) and inside `cache.SetDefault` (line 34). -/
structure Clock where
  atCheck : Nat
  atRecheck : Nat
  atStore : Nat

/-- The clock of a call that happens at the single instant `t`. -/
def Clock.instant (t : Nat) : Clock := ⟨t, t, t⟩

/-- The effect of one call of `Provider.Get`: its result, the provider and the
world after it, and the arguments of the lookup invocations it made, in
order. -/
structure Outcome (V E σ : Type) where
  result : Result V E
  provider : Provider V E σ
  world : σ
  invoked : List String

/-- The method `Provider.Get` (provider.go, lines 16 to 36), run without
contention. -/
def Provider.Get {V E σ : Type} (c : Provider V E σ) (clk : Clock) (key : String) (w : σ) :
    Outcome V E σ :=
  -- return straight away
  match c.cache.Get clk.atCheck key with
  | (value, true) => ⟨.returned value none, c, w, []⟩
  | (_, false) =>
    -- c.mutex.Lock(); defer c.mutex.Unlock()
    match c.cache.Get clk.atRecheck key with
    | (value, true) => ⟨.returned value none, c, w, []⟩
    | (_, false) =>
      match c.lookup with
      | none => ⟨.panicked, c, w, []⟩
      | some lookup =>
        match lookup key w with
        | ((_, some err), w1) => ⟨.returned none (some err), c, w1, [key]⟩
        | ((value, none), w1) =>
          ⟨.returned value none,
            { c with cache := c.cache.SetDefault clk.atStore key value }, w1, [key]⟩

/-- The constructor `NewProvider` (provider.go, lines 39 to 45): the provider
and the error it returns, which is always nil. -/
def NewProvider {V E σ : Type} (lookup : Option (Lookup V E σ))
    (expiration cleanupInterval : Int) : Provider V E σ × Option E :=
  ({ cache := New expiration cleanupInterval, lookup := lookup }, none)

/-- One operation of a sequential history on a provider: a call of `Get`
with its clock and key, or a sweep of the map's janitor at a clock reading. -/
inductive Op where
  | get (clk : Clock) (key : String)
  | sweep (now : Nat)

/-- A sequential history run from a provider and a world; yields the provider
and the world after the last operation. -/
def Provider.after {V E σ : Type} (c : Provider V E σ) (w : σ) :
    List Op → Provider V E σ × σ
  | [] => (c, w)
  | .get clk key :: rest =>
    Provider.after (c.Get clk key w).provider (c.Get clk key w).world rest
  | .sweep now :: rest =>
    Provider.after { c with cache := c.cache.DeleteExpired now } w rest

/-! ### The interleaving model

Any number of callers run `Provider.Get` on one provider. Each caller has a
program counter that walks through the statements of the function; an
interleaving is a list of events, each naming the caller that takes its next
step and the clock reading it takes, or a sweep of the map's janitor. The map's
own operations are atomic (the map is thread safe), the mutex is a flag. -/

/-- Where a caller stands inside `Provider.Get`. -/
inductive PC (V E : Type) where
  /-- about to run the unguarded `cache.Get` of line 18 -/
  | check
  /-- at `c.mutex.Lock()`, line 22 -/
  | lock
  /-- holding the mutex, about to run the `cache.Get` of line 25 -/
  | recheck
  /-- holding the mutex, about to invoke `c.lookup(key)`, line 29 -/
  | call
  /-- holding the mutex, the lookup invocation is running -/
  | inLookup
  /-- holding the mutex, about to run `cache.SetDefault(key, value)`, line 34 -/
  | store (value : Option V)
  /-- holding the mutex, result fixed, the deferred `Unlock` of line 23 pending -/
  | unlock (r : Result V E)
  /-- back in the caller with its result -/
  | done (r : Result V E)
  deriving DecidableEq

/-- The caller is between `Lock` and `Unlock`. -/
def PC.holds {V E : Type} : PC V E → Bool
  | .recheck | .call | .inLookup | .store _ | .unlock _ => true
  | .check | .lock | .done _ => false

/-- The caller has returned. -/
def PC.isDone {V E : Type} : PC V E → Bool
  | .done _ => true
  | _ => false

/-- An upper bound on the steps a caller at this point still takes. -/
def PC.rank {V E : Type} : PC V E → Nat
  | .check => 7
  | .lock => 6
  | .recheck => 5
  | .call => 4
  | .inLookup => 3
  | .store _ => 2
  | .unlock _ => 1
  | .done _ => 0

/-- The state shared by `n` callers of `Get` on one provider: the provider
(map and lookup function), its mutex, the world the lookup acts on, the trace
of lookup invocations (caller and argument, oldest first), and for each caller
the key it asked for and its program counter. -/
structure Sys (V E σ : Type) where
  provider : Provider V E σ
  mutex : Bool
  world : σ
  calls : List (Nat × String)
  n : Nat
  key : Nat → String
  pc : Nat → PC V E

/-- Move caller `i` to the program point `p`. -/
def Sys.goto {V E σ : Type} (s : Sys V E σ) (i : Nat) (p : PC V E) : Sys V E σ :=
  { s with pc := fun j => if j = i then p else s.pc j }

/-- Replace the provider's map. -/
def Sys.withCache {V E σ : Type} (s : Sys V E σ) (c : Cache V) : Sys V E σ :=
  { s with provider := { s.provider with cache := c } }

/-- The next statement of caller `i`, executed with clock reading `now`;
`none` when the caller cannot move (it does not exist, it has returned, or it
waits for the mutex). -/
def step {V E σ : Type} (s : Sys V E σ) (i : Nat) (now : Nat) : Option (Sys V E σ) :=
  if i < s.n then
    match s.pc i with
    | .check =>
      match s.provider.cache.Get now (s.key i) with
      | (value, true) => some (s.goto i (.done (.returned value none)))
      | (_, false) => some (s.goto i .lock)
    | .lock =>
      if s.mutex then none else some { s.goto i .recheck with mutex := true }
    | .recheck =>
      match s.provider.cache.Get now (s.key i) with
      | (value, true) => some (s.goto i (.unlock (.returned value none)))
      | (_, false) => some (s.goto i .call)
    | .call =>
      match s.provider.lookup with
      | none => some (s.goto i (.unlock .panicked))
      | some _ => some { s.goto i .inLookup with calls := s.calls ++ [(i, s.key i)] }
    | .inLookup =>
      match s.provider.lookup with
      | none => some (s.goto i (.unlock .panicked))
      | some lookup =>
        match lookup (s.key i) s.world with
        | ((_, some err), w1) =>
          some { s.goto i (.unlock (.returned none (some err))) with world := w1 }
        | ((value, none), w1) => some { s.goto i (.store value) with world := w1 }
    | .store value =>
      some ((s.goto i (.unlock (.returned value none))).withCache
        (s.provider.cache.SetDefault now (s.key i) value))
    | .unlock r => some { s.goto i (.done r) with mutex := false }
    | .done _ => none
  else none

/-- One event of an interleaving. -/
inductive Event where
  /-- caller `i` executes its next statement, with clock reading `now` -/
  | caller (i : Nat) (now : Nat)
  /-- the janitor of the map sweeps, with clock reading `now` -/
  | sweep (now : Nat)

/-- The clock reading of an event. -/
def Event.time : Event → Nat
  | .caller _ now => now
  | .sweep now => now

/-- Fire one event; an event that is not enabled leaves the state as it is. -/
def fire {V E σ : Type} (s : Sys V E σ) : Event → Sys V E σ
  | .caller i now => (step s i now).getD s
  | .sweep now =>
    match s.provider.cache.janitor with
    | none => s
    | some _ => s.withCache (s.provider.cache.DeleteExpired now)

/-- Run an interleaving from a state. -/
def run {V E σ : Type} (s : Sys V E σ) : List Event → Sys V E σ
  | [] => s
  | e :: es => run (fire s e) es

/-- The state in which `n` callers have just called `Get`, caller `i` with key
`key i`, on a provider whose mutex is free. -/
def Sys.init {V E σ : Type} (c : Provider V E σ) (w : σ) (n : Nat) (key : Nat → String) :
    Sys V E σ :=
  { provider := c, mutex := false, world := w, calls := [], n := n, key := key,
    pc := fun _ => .check }

/-- Every one of the `n` callers has returned. -/
def Sys.allDone {V E σ : Type} (s : Sys V E σ) : Bool :=
  (List.range s.n).all fun i => (s.pc i).isDone

/-- An upper bound on the caller steps the system can still take. -/
def Sys.fuel {V E σ : Type} (s : Sys V E σ) : Nat :=
  ∑ i in Finset.range s.n, (s.pc i).rank

/-- The transitions of a caller, as a relation: what `step` does, case by case. -/
inductive Trans {V E σ : Type} (s : Sys V E σ) (i : Nat) (now : Nat) : Sys V E σ → Prop where
  | hit (x : Option V) (hp : s.pc i = .check)
      (hg : s.provider.cache.Get now (s.key i) = (x, true)) :
      Trans s i now (s.goto i (.done (.returned x none)))
  | miss (hp : s.pc i = .check) (hg : (s.provider.cache.Get now (s.key i)).2 = false) :
      Trans s i now (s.goto i .lock)
  | lock (hp : s.pc i = .lock) (hm : s.mutex = false) :
      Trans s i now { s.goto i .recheck with mutex := true }
  | rehit (x : Option V) (hp : s.pc i = .recheck)
      (hg : s.provider.cache.Get now (s.key i) = (x, true)) :
      Trans s i now (s.goto i (.unlock (.returned x none)))
  | remiss (hp : s.pc i = .recheck)
      (hg : (s.provider.cache.Get now (s.key i)).2 = false) :
      Trans s i now (s.goto i .call)
  | callNil (hp : s.pc i = .call) (hf : s.provider.lookup = none) :
      Trans s i now (s.goto i (.unlock .panicked))
  | call (f : Lookup V E σ) (hp : s.pc i = .call) (hf : s.provider.lookup = some f) :
      Trans s i now { s.goto i .inLookup with calls := s.calls ++ [(i, s.key i)] }
  | retNil (hp : s.pc i = .inLookup) (hf : s.provider.lookup = none) :
      Trans s i now (s.goto i (.unlock .panicked))
  | retErr (f : Lookup V E σ) (x : Option V) (e : E) (w1 : σ) (hp : s.pc i = .inLookup)
      (hf : s.provider.lookup = some f) (hr : f (s.key i) s.world = ((x, some e), w1)) :
      Trans s i now { s.goto i (.unlock (.returned none (some e))) with world := w1 }
  | retOk (f : Lookup V E σ) (x : Option V) (w1 : σ) (hp : s.pc i = .inLookup)
      (hf : s.provider.lookup = some f) (hr : f (s.key i) s.world = ((x, none), w1)) :
      Trans s i now { s.goto i (.store x) with world := w1 }
  | store (x : Option V) (hp : s.pc i = .store x) :
      Trans s i now ((s.goto i (.unlock (.returned x none))).withCache
        (s.provider.cache.SetDefault now (s.key i) x))
  | unlock (r : Result V E) (hp : s.pc i = .unlock r) :
      Trans s i now { s.goto i (.done r) with mutex := false }

/-- The mutual-exclusion invariant of the interleaving model: callers that do
not exist never move; at most one caller is between `Lock` and `Unlock`; the
mutex is held exactly when some caller is. -/
structure MutexInv {V E σ : Type} (s : Sys V E σ) : Prop where
  outside : ∀ i, s.n ≤ i → s.pc i = .check
  unique : ∀ i j, (s.pc i).holds = true → (s.pc j).holds = true → i = j
  free : s.mutex = false → ∀ i, (s.pc i).holds = false
  held : s.mutex = true → ∃ i, (s.pc i).holds = true

/-- The map holds for `k` an entry with value `v` that is live at every clock
reading of the set `T`. -/
def Populated {V : Type} (T : Nat → Prop) (v : Option V) (k : String) (c : Cache V) : Prop :=
  ∃ e, c.items k = some ⟨v, e⟩ ∧ ∀ t, T t → (Item.mk v e).expiredAt t = false

/-- The invariant behind deduplication, for callers that all ask for the key
`k`, a lookup `f` that succeeds with `v`, and clock readings in `T`: the trace
holds at most one invocation; the entry for `k` is absent or populated with
`v`; an absent entry with a non-empty trace means the population is under way;
and each caller's program counter agrees with the trace and the map. -/
structure DedupInv {V E σ : Type} (T : Nat → Prop) (f : Lookup V E σ) (v : Option V)
    (k : String) (s : Sys V E σ) : Prop where
  mutexInv : MutexInv s
  keys : ∀ i, s.key i = k
  lookup : s.provider.lookup = some f
  once : s.calls = [] ∨ ∃ i, s.calls = [(i, k)]
  entry : s.provider.cache.items k = none ∨ Populated T v k s.provider.cache
  popCalls : Populated T v k s.provider.cache → s.calls ≠ []
  pending : s.provider.cache.items k = none → s.calls ≠ [] →
    ∃ j, s.pc j = .inLookup ∨ ∃ x, s.pc j = .store x
  atCall : ∀ i, s.pc i = .call → s.calls = []
  atInLookup : ∀ i, s.pc i = .inLookup → s.calls ≠ []
  atStore : ∀ i x, s.pc i = .store x → x = v ∧ s.calls ≠ []
  atUnlock : ∀ i r, s.pc i = .unlock r → r = .returned v none ∧ Populated T v k s.provider.cache
  atDone : ∀ i r, s.pc i = .done r → r = .returned v none ∧ Populated T v k s.provider.cache

/-- What the invariant demands of a program counter, given the trace and the
map. -/
def PCGood {V E : Type} (T : Nat → Prop) (v : Option V) (k : String) (calls : List (Nat × String))
    (c : Cache V) : PC V E → Prop
  | .call => calls = []
  | .inLookup => calls ≠ []
  | .store x => x = v ∧ calls ≠ []
  | .unlock r => r = .returned v none ∧ Populated T v k c
  | .done r => r = .returned v none ∧ Populated T v k c
  | _ => True

/-- The events of one caller running `Get` alone, with the clock readings of
`clk`. -/
def soloEvents (clk : Clock) : List Event :=
  [.caller 0 clk.atCheck, .caller 0 clk.atCheck, .caller 0 clk.atRecheck,
   .caller 0 clk.atRecheck, .caller 0 clk.atRecheck, .caller 0 clk.atStore,
   .caller 0 clk.atStore]

/-! ### Concrete instances

A lookup function that counts its invocations in the world, fails for the key
`"bad"` and otherwise returns the current count; and a provider with a
time-to-live of 100 that holds one entry, for `"x"`, expiring at 100. -/

/-- A lookup function: fails for `"bad"`, otherwise returns the number of
earlier invocations; every invocation increments the world. -/
def exLookup : Lookup Nat String Nat := fun k w =>
  if k = "bad" then ((none, some "boom"), w + 1) else ((some w, none), w + 1)

/-- A provider holding the entry `(1, expiresAt = 100)` for `"x"`. -/
def exProvider : Provider Nat String Nat :=
  { cache := { defaultExpiration := 100, janitor := none,
               items := fun k => if k = "x" then some ⟨some 1, 100⟩ else none }
    lookup := some exLookup }

/-- The provider of Scenario A: built by `NewProvider` with the lookup
`exLookup`, a time-to-live of 100 and a cleanup interval of 10. -/
def exFresh : Provider Nat String Nat :=
  (NewProvider (some exLookup) 100 10 : Provider Nat String Nat × Option String).1

/-- The lookup of Scenario B: always succeeds with `"value"`, counting its
invocations in the world. -/
def exValueLookup : Lookup String String Nat := fun _ w => ((some "value", none), w + 1)

/-- The provider of Scenario B: empty, time-to-live 100, cleanup interval 10. -/
def exShared : Provider String String Nat :=
  (NewProvider (some exValueLookup) 100 10 : Provider String String Nat × Option String).1

/-- An interleaving of three callers of `Get("shared-key")`: callers 0 and 1
miss at the unguarded check, caller 0 takes the mutex, caller 1 waits for it,
caller 2 arrives while the lookup of caller 0 is running, the janitor sweeps,
and callers 1 and 2 find the entry at their re-check. -/
def exInterleaving : List Event :=
  [.caller 0 0, .caller 1 1, .caller 0 2, .caller 1 3, .caller 0 4, .caller 0 5,
   .caller 2 6, .caller 2 7, .caller 0 20, .sweep 21, .caller 0 22, .caller 0 23,
   .caller 1 24, .caller 1 25, .caller 1 26, .caller 1 27,
   .caller 2 30, .caller 2 31, .caller 2 32, .caller 2 33]

end inmemory

namespace inmemory

open gocache

/-- For each key, the value produced by the most recent successful invocation
of the lookup function with that key, if there has been one. -/
abbrev Produced (V : Type) := String → Option (Option V)

/-- Bookkeeping of what the lookup function produced: a call of `Get(key)` in
the world `w` that invoked the lookup function, the lookup returning a value
and a nil error, makes that value the most recent one produced for `key`. -/
def Produced.record {V E σ : Type} (c : Provider V E σ) (key : String) (w : σ)
    (o : Outcome V E σ) (g : Produced V) : Produced V :=
  if o.invoked.isEmpty then g
  else
    match c.lookup with
    | none => g
    | some lookup =>
      match (lookup key w).1 with
      | (value, none) => fun k => if k = key then some value else g k
      | (_, some _) => g

/-- A sequential history run from a provider, a world and the bookkeeping of
produced values; like `Provider.after`, with the bookkeeping carried along. -/
def Provider.afterG {V E σ : Type} (c : Provider V E σ) (w : σ) (g : Produced V) :
    List Op → Provider V E σ × σ × Produced V
  | [] => (c, w, g)
  | .get clk key :: rest =>
    Provider.afterG (c.Get clk key w).provider (c.Get clk key w).world
      (Produced.record c key w (c.Get clk key w) g) rest
  | .sweep now :: rest =>
    Provider.afterG { c with cache := c.cache.DeleteExpired now } w g rest

/-- A provider built by `NewProvider` with expiration 0 and the lookup
`exLookup`. -/
def exZero : Provider Nat String Nat :=
  (NewProvider (some exLookup) 0 10 : Provider Nat String Nat × Option String).1

end inmemory

namespace inmemory

open gocache

/-- The agreement between the map and the bookkeeping: every entry of the map
holds the value most recently produced by the lookup function for its key. -/
def Agrees {V E σ : Type} (c : Provider V E σ) (g : Produced V) : Prop :=
  ∀ k item, c.cache.items k = some item → g k = some item.Object

end inmemory

namespace inmemory

/-- A history on `exFresh`: `Get("x")` at time 0, `Get("y")` at time 10, a sweep
at time 20. -/
def exHistory : List Op :=
  [.get (Clock.instant 0) "x", .get (Clock.instant 10) "y", .sweep 20]

end inmemory

/-! ## The audit trail: attributes, publisher, middlewares

Embedding of `integrationevents/auditlogevent.go`,
`auditeventspublisher/auditeventspublisher.go`,
`httpmiddleware/httpauditmiddleware.go` and
`httpmiddleware/panicrecoverymiddleware.go`.

Conventions. A Go `string` is a `String`, taken to be valid UTF-8. A call that
can panic returns an `Option`, `none` being the panic. The slice a publisher
keeps is a slice header over a heap of backing arrays, so that what `append`
does to memory shared with the publisher is visible; a slice with a single
owner is a `List`. -/

namespace strings

/-- The Unicode tables behind `strings.ToLower` and `strings.TrimSpace`
(`unicode.ToLower`, `unicode.IsSpace`), taken as parameters. -/
structure Unicode where
  toLower : Char → Char
  isSpace : Char → Bool

/-- The pieces of a sequence of characters between the occurrences of `sep`;
there is always at least one piece. -/
def splitChars (sep : Char) : List Char → List (List Char)
  | [] => [[]]
  | c :: cs =>
    if c = sep then [] :: splitChars sep cs
    else
      match splitChars sep cs with
      | [] => [[c]]
      | piece :: rest => (c :: piece) :: rest

/-- The standard library function `strings.Split(s, sep)`, for a separator of
one character: the substrings of `s` between the occurrences of `sep`; a
string without `sep` yields the one-element slice holding `s`. -/
def Split (s : String) (sep : Char) : List String :=
  (splitChars sep s.data).map String.mk

/-- The standard library function `strings.TrimSpace`: `s` without its leading
and trailing white space. -/
def TrimSpace (u : Unicode) (s : String) : String :=
  String.mk ((s.data.dropWhile u.isSpace).reverse.dropWhile u.isSpace).reverse

/-- The standard library function `strings.ToLower`: every character mapped to
its lower case. -/
def ToLower (u : Unicode) (s : String) : String :=
  String.mk (s.data.map u.toLower)

/-- The standard library function `strings.TrimLeft(s, cutset)`, for a cutset
of one character: `s` without its leading occurrences of `cut`. -/
def TrimLeft (s : String) (cut : Char) : String :=
  String.mk (s.data.dropWhile fun c => c = cut)

end strings

namespace goslice

/-- A slice header: the address of the backing array, the length and the
capacity. Slices here start at the first element of their array. -/
structure Slice where
  array : Nat
  len : Nat
  cap : Nat
  deriving DecidableEq

/-- The heap of backing arrays: the array at each address, and the first
address not yet allocated. -/
structure Heap (α : Type) where
  arrays : Nat → List α
  next : Nat

/-- The elements of a slice: the first `len` elements of its array. -/
def Heap.read {α : Type} (h : Heap α) (s : Slice) : List α :=
  (h.arrays s.array).take s.len

/-- A slice header is well formed in a heap: its length is within its
capacity, and unless the capacity is zero (a nil or empty slice) its array has
been allocated and has as many elements as the capacity. -/
def Slice.ok {α : Type} (h : Heap α) (s : Slice) : Prop :=
  s.len ≤ s.cap ∧ (s.cap = 0 ∨ (s.array < h.next ∧ (h.arrays s.array).length = s.cap))

/-- Lay out a list as a new slice with `slack` spare elements of capacity. -/
def Heap.alloc {α : Type} (zero : α) (h : Heap α) (l : List α) (slack : Nat) :
    Heap α × Slice :=
  ({ arrays := fun a => if a = h.next then l ++ List.replicate slack zero else h.arrays a,
     next := h.next + 1 },
   { array := h.next, len := l.length, cap := l.length + slack })

/-- The built-in `append(s, x)`. If the capacity of `s` is large enough the
backing array is re-used and `x` is written behind the last element of `s`;
otherwise a new, sufficiently large array is allocated (its capacity is
`grow`, the growth policy of the runtime, but at least the new length) and
the elements of `s` and `x` are copied into it. -/
def append {α : Type} (grow : Nat → Nat) (zero : α) (h : Heap α) (s : Slice) (x : α) :
    Heap α × Slice :=
  if s.len < s.cap then
    ({ h with arrays := fun a =>
        if a = s.array then (h.arrays s.array).set s.len x else h.arrays a },
     { s with len := s.len + 1 })
  else
    Heap.alloc zero h (h.read s ++ [x]) (max (grow s.cap) (s.len + 1) - (s.len + 1))

end goslice

namespace integrationevents

/-- The attribute keys of `auditlogevent.go`. -/
def AttrKeyUsertId : String := "u.id"

/-- Attribute key `src.name`. -/
def AttrKeySourceName : String := "src.name"

/-- Attribute key `c.id`. -/
def AttrKeyClientId : String := "c.id"

/-- Attribute key `c.tenantid`. -/
def AttrKeyClientTenantId : String := "c.tenantid"

/-- Attribute key `c.ip`. -/
def AttrKeyClientIp : String := "c.ip"

/-- Attribute key `c.referer`. -/
def AttrKeyClientReferer : String := "c.referer"

/-- Attribute key `c.proto`. -/
def AttrKeyClientProto : String := "c.proto"

/-- Attribute key `c.host`. -/
def AttrKeyClientHost : String := "c.host"

/-- Attribute key `c.accept`. -/
def AttrKeyClientAccept : String := "c.accept"

/-- Attribute key `c.acceptencoding`. -/
def AttrKeyClientAcceptEncoding : String := "c.acceptencoding"

/-- Attribute key `c.continent`. -/
def AttrKeyClientContinent : String := "c.continent"

/-- Attribute key `c.country`. -/
def AttrKeyClientCountry : String := "c.country"

/-- Attribute key `c.city`. -/
def AttrKeyClientCity : String := "c.city"

/-- Attribute key `c.lat`. -/
def AttrKeyClientLat : String := "c.lat"

/-- Attribute key `c.long`. -/
def AttrKeyClientLong : String := "c.long"

/-- Attribute key `c.rawua`. -/
def AttrKeyClientRawUserAgent : String := "c.rawua"

/-- The values an attribute takes in this repository (`Value any`): nil (the
zero value), a string, or a parsed UUID of type `U`. -/
inductive Value (U : Type) where
  | null
  | str (s : String)
  | uuid (id : U)
  deriving DecidableEq

/-- The struct `Attribute`. -/
structure Attribute (U : Type) where
  Key : String
  Value : Value U
  deriving DecidableEq

/-- The zero value of `Attribute`. -/
def Attribute.zero {U : Type} : Attribute U := ⟨"", .null⟩

/-- The struct `AuditLogEvent`; `Attributes` is the content of the slice at the
time the event is marshalled, `OccuredOn` a clock reading, `EventType` the
field `Type`. -/
structure AuditLogEvent (U D : Type) where
  OccuredOn : Nat
  EventType : String
  CorrelationId : String
  Attributes : List (Attribute U)
  Data : D

end integrationevents

namespace auditeventspublisher

open goslice integrationevents

/-- The struct `AuditEventsPublisher`: the broker publisher (of an abstract
type `B`), the attribute slice and the source. -/
structure AuditEventsPublisher (B : Type) where
  publisher : B
  attributes : Slice
  source : String

/-- The constructor `NewAuditEventsPublisher` (lines 30 to 36). -/
def NewAuditEventsPublisher {B : Type} (publisher : B) (attributes : Slice) (source : String) :
    AuditEventsPublisher B :=
  { publisher := publisher, attributes := attributes, source := source }

end auditeventspublisher

namespace gocontext

open auditeventspublisher

/-- The keys under which this repository stores values in a `context.Context`.
Keys are compared with their type: the string keys of `correlation` and `log`,
the key of `jwtverifier`, the key of `auditeventspublisher`, and any other. -/
inductive CtxKey where
  | str (s : String)
  | tokenContextKey
  | eventsPublisherContextKey
  | other (n : Nat)
  deriving DecidableEq

/-- A value of a claims map (`any`): a string or something else. -/
inductive ClaimVal where
  | str (s : String)
  | other (n : Nat)
  deriving DecidableEq

/-- A claims map `map[string]any`. -/
abbrev Claims := String → Option ClaimVal

/-- The values stored in a context: a string, a claims map (`none` for a nil
map), an `*AuditEventsPublisher`, or any other value. -/
inductive CtxVal (B : Type) where
  | str (s : String)
  | claims (m : Option Claims)
  | auditPublisher (p : AuditEventsPublisher B)
  | other (n : Nat)

/-- A `context.Context`, as the chain of values stored with `WithValue`, the
innermost first. -/
abbrev Context (B : Type) := List (CtxKey × CtxVal B)

/-- The empty context (`context.Background()`). -/
def Background {B : Type} : Context B := []

/-- The function `context.WithValue`. -/
def WithValue {B : Type} (ctx : Context B) (key : CtxKey) (val : CtxVal B) : Context B :=
  (key, val) :: ctx

/-- The method `Context.Value`: the innermost value stored under `key`. -/
def Value {B : Type} : Context B → CtxKey → Option (CtxVal B)
  | [], _ => none
  | (k, v) :: rest, key => if k = key then some v else Value rest key

end gocontext

namespace correlation

open gocontext

/-- Context key `CorrelationIdKey`. -/
def CorrelationIdKey : String := "correlation-id"

/-- Context key `ClientCorrelationIdKey`. -/
def ClientCorrelationIdKey : String := "client-correlation-id"

/-- The function `correlation.NewContext` (lines 15 to 17). -/
def NewContext {B : Type} (ctx : Context B) (correlationId : String) : Context B :=
  WithValue ctx (.str CorrelationIdKey) (.str correlationId)

/-- The function `correlation.FromContext` (lines 21 to 28); `generated` is
what `shortid.Generate` returns if it is called. -/
def FromContext {B : Type} (ctx : Context B) (generated : String) : String :=
  match Value ctx (.str CorrelationIdKey) with
  | some (.str correlationId) => correlationId
  | _ => generated

/-- The function `NewContextWithClientCorrelationId` (lines 32 to 34). -/
def NewContextWithClientCorrelationId {B : Type} (ctx : Context B)
    (clientCorrelationId : String) : Context B :=
  WithValue ctx (.str ClientCorrelationIdKey) (.str clientCorrelationId)

/-- The function `FromContextWithClientCorrelationId` (lines 38 to 44). -/
def FromContextWithClientCorrelationId {B : Type} (ctx : Context B) : String :=
  match Value ctx (.str ClientCorrelationIdKey) with
  | some (.str correlationId) => correlationId
  | _ => ""

end correlation

namespace jwtverifier

open gocontext

/-- The function `jwtverifier.NewContext` (jwtverifier.go, lines 54 to 56). -/
def NewContext {B : Type} (ctx : Context B) (claims : Option Claims) : Context B :=
  WithValue ctx .tokenContextKey (.claims claims)

/-- The function `ClaimsFromContext` (jwtverifier.go, lines 59 to 65): the
claims map stored in the context, nil (`none`) if there is none. -/
def ClaimsFromContext {B : Type} (ctx : Context B) : Option Claims :=
  match Value ctx .tokenContextKey with
  | some (.claims claims) => claims
  | _ => none

end jwtverifier

namespace auditeventspublisher

open goslice integrationevents gocontext

/-- The struct `brokerclient.BrokerMessage`, with a content of an abstract
type `C` (the JSON bytes). -/
structure BrokerMessage (C : Type) where
  Destination : String
  Headers : List (String × String)
  Content : C

/-- What `Publish` takes from its environment: the clock, the name of the
dynamic type of an event (`%T`), what `shortid.Generate` returns, the growth
policy of `append`, `json.Marshal`, the `Publish` method of the broker
publisher, and two constants that are declared outside the sources. -/
structure PublishEnv (B U D E C : Type) where
  now : Nat
  typeName : D → String
  generated : String
  grow : Nat → Nat
  marshal : AuditLogEvent U D → Except E C
  send : B → BrokerMessage C → Option E
  TopicAudit : String
  HeaderMessageType : String

/-- The function `getEventType` (lines 68 to 78), applied to the name of the
dynamic type of the event. -/
def getEventType (typeName : String) : String :=
  let parts := strings.Split typeName '.'
  let eventType := parts.headD ""
  if parts.length > 1 then parts.getLastD "" else eventType

/-- The function `newBrokerMessage` (lines 80 to 93). -/
def newBrokerMessage {B U D E C : Type} (env : PublishEnv B U D E C)
    (event : AuditLogEvent U D) : Except E (BrokerMessage C) :=
  match env.marshal event with
  | .error err => .error err
  | .ok m =>
    .ok { Destination := env.TopicAudit,
          Headers := [(env.HeaderMessageType, event.EventType)],
          Content := m }

/-- The effect of one call of `Publish`: the error returned, the heap after
the call, the event that was built, and the message handed to the broker
publisher, if the call got that far. -/
structure Published (U D E C : Type) where
  err : Option E
  heap : Heap (Attribute U)
  event : AuditLogEvent U D
  sent : Option (BrokerMessage C)

/-- The method `AuditEventsPublisher.Publish` (lines 38 to 66). -/
def AuditEventsPublisher.Publish {B U D E C : Type} (p : AuditEventsPublisher B)
    (env : PublishEnv B U D E C) (h : Heap (Attribute U)) (ctx : Context B) (event : D) :
    Published U D E C :=
  let eventType := getEventType (env.typeName event)
  -- auditLogEvent.Attributes = append(auditLogEvent.Attributes, ...), on p.attributes
  let appended := goslice.append env.grow Attribute.zero h p.attributes
    { Key := AttrKeySourceName, Value := .str p.source }
  let auditLogEvent : AuditLogEvent U D :=
    { OccuredOn := env.now
      EventType := p.source ++ "." ++ strings.TrimLeft eventType '*'
      CorrelationId := correlation.FromContext ctx env.generated
      Attributes := appended.1.read appended.2
      Data := event }
  match newBrokerMessage env auditLogEvent with
  | .error err => ⟨some err, appended.1, auditLogEvent, none⟩
  | .ok msg =>
    match env.send p.publisher msg with
    | some err => ⟨some err, appended.1, auditLogEvent, some msg⟩
    | none => ⟨none, appended.1, auditLogEvent, some msg⟩

/-- The function `auditeventspublisher.NewContext` (lines 96 to 98). -/
def NewContext {B : Type} (ctx : Context B) (publisher : AuditEventsPublisher B) :
    Context B :=
  WithValue ctx .eventsPublisherContextKey (.auditPublisher publisher)

/-- The function `auditeventspublisher.FromContext` (lines 103 to 109): the
publisher stored in the context, or `none` for the logging stub. -/
def FromContext {B : Type} (ctx : Context B) : Option (AuditEventsPublisher B) :=
  match Value ctx .eventsPublisherContextKey with
  | some (.auditPublisher publisher) => some publisher
  | _ => none

end auditeventspublisher

namespace httpmiddleware

open goslice integrationevents gocontext auditeventspublisher

/-- Claim name `client_id`. -/
def ClaimClientId : String := "client_id"

/-- Claim name `client_tenant_id`. -/
def ClaimClientTenantId : String := "client_tenant_id"

/-- Claim name `sub`. -/
def ClaimSubjectId : String := "sub"

/-- Header name `X-Forwarded-Proto`. -/
def HeaderXForwardedProto : String := "X-Forwarded-Proto"

/-- Header name `X-Forwarded-For`. -/
def HeaderXForwardedFor : String := "X-Forwarded-For"

/-- Header name `X-Forwarded-Host`. -/
def HeaderXForwardedHost : String := "X-Forwarded-Host"

/-- Header name `Accept`. -/
def HeaderAccept : String := "Accept"

/-- Header name `Accept-Encoding`. -/
def HeaderAcceptEncoding : String := "Accept-Encoding"

/-- Header name `User-Agent`. -/
def HeaderUserAgent : String := "User-Agent"

/-- Header name `Referer`. -/
def HeaderReferer : String := "Referer"

/-- Header name `X-Location`. -/
def HeaderXLocation : String := "X-Location"

/-- The variable `relevantHeaders` (lines 30 to 39). -/
def relevantHeaders : List String :=
  [HeaderXForwardedProto, HeaderXForwardedFor, HeaderXForwardedHost, HeaderAccept,
   HeaderAcceptEncoding, HeaderUserAgent, HeaderReferer, HeaderXLocation]

/-- What the middleware takes from outside the repository: `uuid.Parse`, with
UUIDs of an abstract type `U`, and the Unicode tables of package `strings`. -/
structure Lib (U : Type) where
  uuidParse : String → Option U
  unicode : strings.Unicode

/-- A request header `http.Header`, a `map[string][]string`. -/
abbrev Header := String → Option (List String)

/-- What the middlewares use of an `*http.Request`: its header and its
context. -/
structure Request (B : Type) where
  Header : Header
  ctx : Context B

/-- The function `firstOrEmpty` (loggermiddleware.go, lines 65 to 71). -/
def firstOrEmpty (s : List String) : String :=
  match s with
  | first :: _ => first
  | [] => ""

/-- The function `appendLocationAttributes` (lines 147 to 182). `none` is the
panic of the index expression `keyValue[1]` on a slice of length one;
`keyValue[0]` always exists. -/
def appendLocationAttributes {U : Type} (lib : Lib U) (attrs : List (Attribute U))
    (location : String) : Option (List (Attribute U)) :=
  let values := strings.Split location ','
  values.foldlM (fun attrs value =>
    let keyValue := strings.Split value '='
    let key := strings.ToLower lib.unicode (strings.TrimSpace lib.unicode (keyValue.headD ""))
    if key = "continent" then
      (keyValue.get? 1).map fun v =>
        attrs ++ [⟨AttrKeyClientContinent, .str (strings.TrimSpace lib.unicode v)⟩]
    else if key = "country" then
      (keyValue.get? 1).map fun v =>
        attrs ++ [⟨AttrKeyClientCountry, .str (strings.TrimSpace lib.unicode v)⟩]
    else if key = "city" then
      (keyValue.get? 1).map fun v =>
        attrs ++ [⟨AttrKeyClientCity, .str (strings.TrimSpace lib.unicode v)⟩]
    else if key = "lat" then
      (keyValue.get? 1).map fun v =>
        attrs ++ [⟨AttrKeyClientLat, .str (strings.TrimSpace lib.unicode v)⟩]
    else if key = "long" then
      (keyValue.get? 1).map fun v =>
        attrs ++ [⟨AttrKeyClientLong, .str (strings.TrimSpace lib.unicode v)⟩]
    else some attrs) attrs

/-- The function `appendAttribute` (lines 103 to 145); `none` is a panic of
`appendLocationAttributes`. -/
def appendAttribute {U : Type} (lib : Lib U) (attrs : List (Attribute U))
    (key value : String) : Option (List (Attribute U)) :=
  if key = HeaderUserAgent then
    some (attrs ++ [⟨AttrKeyClientRawUserAgent, .str value⟩])
  else if key = HeaderXForwardedFor then
    some (attrs ++ [⟨AttrKeyClientIp, .str value⟩])
  else if key = HeaderXForwardedProto then
    some (attrs ++ [⟨AttrKeyClientProto, .str value⟩])
  else if key = HeaderXForwardedHost then
    some (attrs ++ [⟨AttrKeyClientHost, .str value⟩])
  else if key = HeaderReferer then
    some (attrs ++ [⟨AttrKeyClientReferer, .str value⟩])
  else if key = HeaderAccept then
    some (attrs ++ [⟨AttrKeyClientAccept, .str value⟩])
  else if key = HeaderAcceptEncoding then
    some (attrs ++ [⟨AttrKeyClientAcceptEncoding, .str value⟩])
  else if key = HeaderXLocation then
    appendLocationAttributes lib attrs value
  else some attrs

/-- Lines 55 to 83 of `HttpAuditMiddleware`: the attributes taken from a claims
map that is not nil, appended to `attrs`. -/
def fillClaims {U : Type} (lib : Lib U) (claims : Claims) (attrs : List (Attribute U)) :
    List (Attribute U) :=
  let attrs :=
    match claims ClaimClientId with
    | some (.str clientId) =>
      match lib.uuidParse clientId with
      | some id => attrs ++ [⟨AttrKeyClientId, .uuid id⟩]
      | none => attrs
    | _ => attrs
  let attrs :=
    match claims ClaimClientTenantId with
    | some (.str clientTenantId) =>
      match lib.uuidParse clientTenantId with
      | some id => attrs ++ [⟨AttrKeyClientTenantId, .uuid id⟩]
      | none => attrs
    | _ => attrs
  let attrs :=
    match claims ClaimSubjectId with
    | some (.str subjectId) =>
      match lib.uuidParse subjectId with
      | some id => attrs ++ [⟨AttrKeyUsertId, .uuid id⟩]
      | none => attrs
    | _ => attrs
  attrs

/-- Lines 87 to 91 of `HttpAuditMiddleware`: the loop over `relevantHeaders`;
`none` is a panic of `appendLocationAttributes`. -/
def fillHeaders {U : Type} (lib : Lib U) (header : Header) (attrs : List (Attribute U)) :
    Option (List (Attribute U)) :=
  relevantHeaders.foldlM (fun attrs relevantHeader =>
    match header relevantHeader with
    | some headerValue => appendAttribute lib attrs relevantHeader (firstOrEmpty headerValue)
    | none => some attrs) attrs

/-- What a run of the audit handler leaves: the warnings it logged, and what
the next handler did with the writer, the new request and the heap. -/
structure Served (β : Type) where
  logged : List String
  next : β

/-- The handler built by `HttpAuditMiddleware(publisher, source)(next)`
(lines 43 to 101), run on a writer, a request and a heap. `none` is a panic
before the next handler is reached. The local slice `attrs` is a list while
the handler owns it; it is laid out in the heap when it is handed to the
publisher, `slack` being the spare capacity that the growth policy of `append`
left in it. -/
def HttpAuditMiddleware {B U W β : Type} (lib : Lib U) (publisher : B) (source : String)
    (slack : Nat) (next : W → Request B → Heap (Attribute U) → β) (w : W) (r : Request B)
    (h : Heap (Attribute U)) : Option (Served β) :=
  let attrs : List (Attribute U) := []
  -- Fill claims data
  let reqCtx := r.ctx
  let filled : List (Attribute U) × List String :=
    match jwtverifier.ClaimsFromContext reqCtx with
    | none => (attrs, ["Could not get claims from context"])
    | some claims => (fillClaims lib claims attrs, [])
  -- Fill headers data
  match fillHeaders lib r.Header filled.1 with
  | none => none
  | some attrs =>
    let laid := Heap.alloc Attribute.zero h attrs slack
    let eventsPublisher := NewAuditEventsPublisher publisher laid.2 source
    let newCtx := auditeventspublisher.NewContext r.ctx eventsPublisher
    let newRequest : Request B := { r with ctx := newCtx }
    some ⟨filled.2, next w newRequest laid.1⟩

/-- How a call of a handler ends: it returns, or it panics; `recovered` is what
`recover()` then yields, `none` standing for a nil interface value. -/
inductive Exit (P : Type) where
  | returned
  | panicked (recovered : Option P)
  deriving DecidableEq

/-- An `http.Handler`: its `ServeHTTP`, acting on a world `σ`. -/
abbrev Handler (W R σ P : Type) := W → R → σ → σ × Exit P

/-- A panic responder `func(w http.ResponseWriter, r *http.Request, errorId string)`. -/
abbrev Responder (W R σ P : Type) := W → R → String → σ → σ × Exit P

/-- What the recovery handler takes from its environment: `shortid.Generate`,
and the logging of the error with its stack trace. -/
structure PanicEnv (σ P : Type) where
  generate : σ → String × σ
  logError : P → String → σ → σ

/-- The effect of a run of the recovery handler: the world after it, how it
ended, and the invocations of the panic responder it made (writer, request,
error id), in order. -/
structure Recovered (W R σ P : Type) where
  world : σ
  exit : Exit P
  responded : List (W × R × String)

/-- The handler built by `PanicRecoveryMiddleware(panicResponder)(next)`
(lines 17 to 42). The deferred function runs when `next.ServeHTTP` has returned
or panicked; a panic of the responder inside it propagates. -/
def PanicRecoveryMiddleware {W R σ P : Type} (env : PanicEnv σ P)
    (panicResponder : Option (Responder W R σ P)) (next : Handler W R σ P)
    (w : W) (r : R) (s : σ) : Recovered W R σ P :=
  match next w r s with
  | (s1, .returned) => ⟨s1, .returned, []⟩
  | (s1, .panicked none) => ⟨s1, .returned, []⟩
  | (s1, .panicked (some err)) =>
    let generated := env.generate s1
    let s3 := env.logError err generated.1 generated.2
    match panicResponder with
    | none => ⟨s3, .returned, []⟩
    | some respond =>
      let ran := respond w r generated.1 s3
      ⟨ran.1, ran.2, [(w, r, generated.1)]⟩

end httpmiddleware

namespace httpmiddleware

open goslice integrationevents gocontext auditeventspublisher

/-- ASCII tables for the examples: lower case of the letters `A` to `Z`, and the
white space characters space, tab, carriage return and line feed. -/
def exUnicode : strings.Unicode := ⟨Char.toLower, Char.isWhitespace⟩

/-- A library for the examples: a stand-in for `uuid.Parse` that accepts the
strings of 36 characters, the UUID being the string itself. -/
def exLib : Lib String :=
  { uuidParse := fun s => if s.length = 36 then some s else none, unicode := exUnicode }

/-- The location header of the test `TestHttpAuditMiddleware`. -/
def exLocation : String := "continent=America,country=USA,city=LA,lat=34.0522 N,long=118.2437 W"

/-- The request header of the first test of `TestHttpAuditMiddleware`. -/
def exHeader : Header := fun name =>
  if name = "Authorization" then some ["Bearer token"]
  else if name = HeaderXForwardedFor then some ["128.4.5.120"]
  else if name = HeaderXForwardedHost then some ["www.test.com"]
  else if name = HeaderXForwardedProto then some ["proto"]
  else if name = HeaderAccept then some ["accept"]
  else if name = HeaderAcceptEncoding then some ["accept encoding"]
  else if name = HeaderUserAgent then some ["user agent"]
  else if name = HeaderReferer then some ["referrer"]
  else if name = HeaderXLocation then some [exLocation]
  else none

/-- The claims of the first test of `TestHttpAuditMiddleware`. -/
def exClaims : Claims := fun name =>
  if name = "client_id" then some (.str "09c1c91a-84bb-4db4-852d-b49670c2a3d3")
  else if name = "sub" then some (.str "5b2c5f0e-8a46-4f0e-9d43-1c2b3a4d5e6f")
  else if name = "client_tenant_id" then some (.str "7d9e0f1a-2b3c-4d5e-8f90-a1b2c3d4e5f6")
  else none

/-- The request of the first test: all relevant headers, claims in the
context. -/
def exRequest : Request Unit :=
  { Header := exHeader, ctx := jwtverifier.NewContext Background (some exClaims) }

/-- The request of the second test: one relevant header, no claims. -/
def exBareRequest : Request Unit :=
  { Header := fun name =>
      if name = "Authorization" then some ["Bearer token"]
      else if name = HeaderXForwardedFor then some ["128.4.5.120"]
      else none
    ctx := Background }

/-- An empty heap. -/
def exHeap : Heap (Attribute String) := { arrays := fun _ => [], next := 0 }

/-- A next handler that hands back the request and the heap it is called
with. -/
def exNext : Unit → Request Unit → Heap (Attribute String) →
    Request Unit × Heap (Attribute String) :=
  fun _ r h => (r, h)

/-- An environment for `Publish` in the examples: marshalling is the identity
and the broker accepts every message. -/
def exPublishEnv : PublishEnv Unit String String String (AuditLogEvent String String) :=
  { now := 0, typeName := fun _ => "*httpmiddleware.testAuditEvent", generated := "id",
    grow := fun n => 2 * n, marshal := fun e => .ok e, send := fun _ _ => none,
    TopicAudit := "audit", HeaderMessageType := "type" }

end httpmiddleware

namespace httpmiddleware

open goslice integrationevents gocontext auditeventspublisher

/-! ### The mappings in the words of the specification

These definitions are written from the specification, not from the code; the
theorems below compare the code with them. -/

/-- The seven relevant headers other than `X-Location`, in the order of
`relevantHeaders`, each with the key of its attribute. -/
def headerKeys : List (String × String) :=
  [("X-Forwarded-Proto", "c.proto"), ("X-Forwarded-For", "c.ip"),
   ("X-Forwarded-Host", "c.host"), ("Accept", "c.accept"),
   ("Accept-Encoding", "c.acceptencoding"), ("User-Agent", "c.rawua"),
   ("Referer", "c.referer")]

/-- Specification of the header attributes: one attribute for each of the seven
headers that is present in the header map, in the order of `relevantHeaders`,
with the header's first value, or the empty string if it has no values. -/
def headerAttributesSpec {U : Type} (header : Header) : List (Attribute U) :=
  headerKeys.filterMap fun entry =>
    (header entry.1).map fun values => ⟨entry.2, .str (values.headD "")⟩

/-- The three claims the middleware reads, in order, each with the key of its
attribute. -/
def claimKeys : List (String × String) :=
  [("client_id", "c.id"), ("client_tenant_id", "c.tenantid"), ("sub", "u.id")]

/-- Specification of the attribute of one claim: present, a string, and
parsing as a UUID. -/
def claimAttributeSpec {U : Type} (lib : Lib U) (claims : Claims) (entry : String × String) :
    Option (Attribute U) :=
  match claims entry.1 with
  | some (.str s) => (lib.uuidParse s).map fun id => ⟨entry.2, .uuid id⟩
  | _ => none

/-- Specification of the claim attributes of a request context: none when the
context carries no claims, else one for each of the three claims that is a
string parsing as a UUID, in the order `c.id`, `c.tenantid`, `u.id`. -/
def claimsAttributesSpec {B U : Type} (lib : Lib U) (ctx : Context B) : List (Attribute U) :=
  match jwtverifier.ClaimsFromContext ctx with
  | none => []
  | some claims => claimKeys.filterMap (claimAttributeSpec lib claims)

/-- The recognised location keys, each with the key of its attribute. -/
def locationKeys : List (String × String) :=
  [("continent", "c.continent"), ("country", "c.country"), ("city", "c.city"),
   ("lat", "c.lat"), ("long", "c.long")]

/-- The key of a location segment: the text before the first `=`,
whitespace-trimmed and lower-cased. -/
def segmentKey {U : Type} (lib : Lib U) (segment : String) : String :=
  strings.ToLower lib.unicode
    (strings.TrimSpace lib.unicode (String.mk (segment.data.takeWhile fun c => c ≠ '=')))

/-- The value of a location segment: the whitespace-trimmed text between the
first and the second `=`, or the end. -/
def segmentValue {U : Type} (lib : Lib U) (segment : String) : String :=
  strings.TrimSpace lib.unicode
    (String.mk (((segment.data.dropWhile fun c => c ≠ '=').drop 1).takeWhile fun c => c ≠ '='))

/-- Specification of the attribute of one location segment: one with a
recognised key. -/
def segmentAttributeSpec {U : Type} (lib : Lib U) (segment : String) : Option (Attribute U) :=
  (locationKeys.lookup (segmentKey lib segment)).map fun key =>
    ⟨key, .str (segmentValue lib segment)⟩

/-- Specification of the location attributes: one attribute, in segment
order, for each comma-separated segment with a recognised key. -/
def locationAttributesSpec {U : Type} (lib : Lib U) (location : String) :
    List (Attribute U) :=
  (strings.Split location ',').filterMap (segmentAttributeSpec lib)

/-- The number `c` of the attribute count: the claims among `client_id`,
`client_tenant_id` and `sub` that are strings parsing as a UUID, zero when the
context carries no claims. -/
def countClaims {B U : Type} (lib : Lib U) (ctx : Context B) : Nat :=
  match jwtverifier.ClaimsFromContext ctx with
  | none => 0
  | some claims =>
    ([ClaimClientId, ClaimClientTenantId, ClaimSubjectId].filter fun name =>
      match claims name with
      | some (.str s) => (lib.uuidParse s).isSome
      | _ => false).length

/-- The number `h` of the attribute count: the relevant headers other than
`X-Location` that are present. -/
def countHeaders (header : Header) : Nat :=
  ([HeaderXForwardedProto, HeaderXForwardedFor, HeaderXForwardedHost, HeaderAccept,
    HeaderAcceptEncoding, HeaderUserAgent, HeaderReferer].filter fun name =>
      (header name).isSome).length

/-- A location segment has a recognised key. -/
def recognised {U : Type} (lib : Lib U) (segment : String) : Bool :=
  (locationKeys.lookup (segmentKey lib segment)).isSome

/-- The number `l` of the attribute count: the pairs of the `X-Location` header
with a recognised key, zero when the header is absent. -/
def countLocation {U : Type} (lib : Lib U) (header : Header) : Nat :=
  match header HeaderXLocation with
  | none => 0
  | some values =>
    ((strings.Split (firstOrEmpty values) ',').filter (recognised lib)).length

end httpmiddleware

namespace httpmiddleware

open integrationevents

/-- What one round of the loop of `appendLocationAttributes` appends for a
segment, in terms of the segment's key; `none` if the round panics. -/
def locationRound {U : Type} (lib : Lib U) (value : String) : Option (List (Attribute U)) :=
  match locationKeys.lookup (segmentKey lib value) with
  | none => some []
  | some key =>
    ((strings.Split value '=').get? 1).map fun v =>
      [⟨key, .str (strings.TrimSpace lib.unicode v)⟩]

end httpmiddleware

namespace auditeventspublisher

open goslice integrationevents gocontext

/-- A heap for the examples: one array of capacity three that holds one
attribute. -/
def exSpareHeap : Heap (Attribute String) :=
  { arrays := fun a => if a = 0 then [⟨"c.ip", .str "128.4.5.120"⟩, Attribute.zero,
      Attribute.zero] else [],
    next := 1 }

/-- The slice of length one and capacity three over the array of
`exSpareHeap`. -/
def exSpareSlice : Slice := { array := 0, len := 1, cap := 3 }

end auditeventspublisher

namespace httpmiddleware

open goslice integrationevents gocontext auditeventspublisher

/-- The warnings the audit handler logs for a request context: one when the
context carries no claims. -/
def claimWarnings {B : Type} (ctx : Context B) : List String :=
  match jwtverifier.ClaimsFromContext ctx with
  | none => ["Could not get claims from context"]
  | some _ => []

/-- The request the audit handler hands to the next handler (lines 93 to 95):
the request with a context that carries a publisher over the attribute
slice. -/
def auditRequest {B : Type} (publisher : B) (source : String) (r : Request B)
    (attributes : Slice) : Request B :=
  { r with
    ctx := auditeventspublisher.NewContext r.ctx
      (NewAuditEventsPublisher publisher attributes source) }

/-- What the audit handler does once the attribute list `attrs` is complete
(lines 93 to 97): it lays the list out, wraps it in a publisher, and calls the
next handler. -/
def handOver {B U W β : Type} (publisher : B) (source : String) (slack : Nat)
    (next : W → Request B → Heap (Attribute U) → β) (w : W) (r : Request B)
    (h : Heap (Attribute U)) (attrs : List (Attribute U)) : β :=
  next w (auditRequest publisher source r (Heap.alloc Attribute.zero h attrs slack).2)
    (Heap.alloc Attribute.zero h attrs slack).1

end httpmiddleware
namespace httpmiddleware

open goslice integrationevents gocontext auditeventspublisher

/-- Specification of the attribute list of the audit handler: the claim
attributes, the attributes of the seven headers, the location attributes. -/
def auditAttributesSpec {B U : Type} (lib : Lib U) (r : Request B) : List (Attribute U) :=
  claimsAttributesSpec lib r.ctx ++ headerAttributesSpec r.Header ++
    match r.Header HeaderXLocation with
    | none => []
    | some values => locationAttributesSpec lib (firstOrEmpty values)

end httpmiddleware

namespace httpmiddleware

/-- An environment for the recovery handler in the examples: the world is a
log of lines, the generated error id is `"e1"`. -/
def exPanicEnv : PanicEnv (List String) String :=
  { generate := fun s => ("e1", s),
    logError := fun err errorId s => s ++ ["panic " ++ err ++ " " ++ errorId] }

/-- A next handler that panics with the value `"boom"`. -/
def exPanickingNext : Handler Unit String (List String) String :=
  fun _ _ s => (s ++ ["next"], .panicked (some "boom"))

/-- A next handler that returns. -/
def exReturningNext : Handler Unit String (List String) String :=
  fun _ _ s => (s ++ ["next"], .returned)

/-- A panic responder that writes a line with the error id and returns. -/
def exResponder : Responder Unit String (List String) String :=
  fun _ r errorId s => (s ++ ["respond " ++ r ++ " " ++ errorId], .returned)

end httpmiddleware

namespace httpmiddleware

/-- A location segment that crashes the request, in the words of the
specification: it contains no `=` and its whitespace-trimmed, lower-cased text
is one of `continent`, `country`, `city`, `lat`, `long`. -/
def crashingSegment {U : Type} (lib : Lib U) (segment : String) : Bool :=
  decide ('=' ∉ segment.data) &&
    decide (strings.ToLower lib.unicode (strings.TrimSpace lib.unicode segment) ∈
      ["continent", "country", "city", "lat", "long"])

end httpmiddleware

namespace httpmiddleware

open gocontext

/-- The constant `CorrelationIdHeader` (correlationidmiddleware.go). -/
def CorrelationIdHeader : String := "X-Correlation-Id"

/-- The constant `ClientCorrelationIdHeader` (correlationidmiddleware.go). -/
def ClientCorrelationIdHeader : String := "X-Client-Correlation-Id"

/-- The standard library method `http.Header.Add`: the value is appended to
the values held under the key, a missing key counting as the empty slice. The
two keys the repository passes are in canonical form already. -/
def Header.Add (h : Header) (key value : String) : Header :=
  fun k => if k = key then some ((h k).getD [] ++ [value]) else h k

/-- The handler built by `CorrelationIdMiddleware(next)` (lines 22 to 48), run
on a response writer, of which `w` is the header map, and a request.
`generated` is what `shortid.Generate` returns if it is called; indexing the
request header with a missing key yields the nil slice. The result is that of
the call `next.ServeHTTP(w, newRequest)`. -/
def CorrelationIdMiddleware {B β : Type} (generated : String)
    (next : Header → Request B → β) (w : Header) (r : Request B) : β :=
  let correlationId := firstOrEmpty ((r.Header CorrelationIdHeader).getD [])
  let correlationId := if correlationId = "" then generated else correlationId
  let newContext := correlation.NewContext r.ctx correlationId
  let w := Header.Add w CorrelationIdHeader correlationId
  -- read the client correlation id
  let clientCorrelationId := firstOrEmpty ((r.Header ClientCorrelationIdHeader).getD [])
  let served : Context B × Header :=
    if clientCorrelationId ≠ "" then
      (correlation.NewContextWithClientCorrelationId newContext clientCorrelationId,
        Header.Add w ClientCorrelationIdHeader clientCorrelationId)
    else (newContext, w)
  let newRequest : Request B := { r with ctx := served.1 }
  next served.2 newRequest

/-- A request carrying both correlation headers, the first with two values. -/
def exCorrelated : Request Unit :=
  { Header := fun name =>
      if name = CorrelationIdHeader then some ["gw-1", "gw-2"]
      else if name = ClientCorrelationIdHeader then some ["client-7"]
      else none
    ctx := Background }

/-- A response header map that already holds a correlation id. -/
def exResponseHeader : Header := fun name =>
  if name = CorrelationIdHeader then some ["earlier"] else none

end httpmiddleware

/-! ## Merging configuration maps, and the commander

Embedding of `mergeMaps` (`config/aws/provider.go`) and of
`commander/commander.go`. A Go map is a reference to a map object: the objects
live in a heap, a map value is a reference into it or nil (`none`), and an
assignment through one reference is seen through every other reference to the
same object. -/

namespace aws

/-- A reference to a map object. -/
abbrev Ref := Nat

/-- A value of type `any` held in a configuration map: a string, a nested map
(a map value, `none` being the nil map) or something else. -/
inductive Val where
  | str (s : String)
  | map (m : Option Ref)
  | other (n : Nat)
  deriving DecidableEq

/-- The map objects `map[string]any`: the content of each, key to value. -/
abbrev Heap := Ref → String → Option Val

/-- The content of a map value; the nil map has no keys. -/
def content (h : Heap) (m : Option Ref) : String → Option Val :=
  match m with
  | none => fun _ => none
  | some r => h r

/-- The assignment `m[key] = value` on a map that is not nil: the object `m`
refers to maps `key` to `value`; every other key and every other object is
untouched. -/
def Heap.assign (h : Heap) (m : Ref) (key : String) (value : Val) : Heap :=
  fun r => if r = m then fun k => if k = key then some value else h r k else h r

/-- The function `mergeMaps` (lines 233 to 237). `order` is the sequence in
which the `range` clause walks the keys of `source`; a key produces an
iteration only if the map holds it when it is reached, with the value held
then. `none` is the run-time panic of an assignment to an entry of a nil
map. -/
def mergeMaps (h : Heap) (target source : Option Ref) (order : List String) : Option Heap :=
  order.foldlM (fun h sourceKey =>
    match content h source sourceKey with
    | none => some h
    | some sourceValue =>
      match target with
      | none => none
      | some target => some (Heap.assign h target sourceKey sourceValue)) h

/-- Four map objects: a configuration (object 0) holding a scalar and the
nested map 2; secrets (object 1) holding the nested map 3 and a scalar; the
nested maps 2 (two keys) and 3 (one key). -/
def exMaps : Heap := fun r k =>
  if r = 0 then
    if k = "name" then some (.str "svc") else if k = "db" then some (.map (some 2)) else none
  else if r = 1 then
    if k = "db" then some (.map (some 3)) else if k = "token" then some (.str "t") else none
  else if r = 2 then
    if k = "host" then some (.str "h") else if k = "port" then some (.str "1") else none
  else if r = 3 then
    if k = "host" then some (.str "s") else none
  else none

end aws

namespace commander

/-- A reference to a map object. -/
abbrev Ref := Nat

/-- An `error` value: one built by `fmt.Errorf`, identified by its message, or
any other. -/
inductive Error (E : Type) where
  | errorf (message : String)
  | other (e : E)
  deriving DecidableEq

/-- What a call of a Go function with results `(any, error)` yields: the
returned pair, or a run-time panic. -/
inductive Result (R E : Type) where
  | returned (value : Option R) (err : Option (Error E))
  | panicked
  deriving DecidableEq

/-- A value of the interface `Command` that is not nil: what its method `Key`
returns, and the rest of the command. -/
structure Command (C : Type) where
  Key : String
  body : C
  deriving DecidableEq

/-- A value of the interface `Handler`: its method `HandleIt`, which acts on a
world `σ`; `X` is the type of contexts. A handler whose method cannot be called
(a nil interface value) is one that panics. -/
abbrev Handler (X C R E σ : Type) := X → Command C → σ → Result R E × σ

/-- The map objects `map[string]Handler`: the content of each, and the next
reference that `make` hands out. -/
structure Heap (X C R E σ : Type) where
  maps : Ref → String → Option (Handler X C R E σ)
  next : Ref

/-- The struct `Commander`; `none` is the nil map. -/
structure Commander where
  handlers : Option Ref
  deriving DecidableEq

/-- The zero value `Commander{}`. -/
def Commander.zero : Commander := { handlers := none }

/-- The expression `make(map[string]Handler)`: a fresh, empty map object. -/
def Heap.make {X C R E σ : Type} (h : Heap X C R E σ) : Heap X C R E σ × Ref :=
  ({ maps := fun r => if r = h.next then fun _ => none else h.maps r, next := h.next + 1 },
    h.next)

/-- The assignment `m[key] = handler` on a map that is not nil. -/
def Heap.assign {X C R E σ : Type} (h : Heap X C R E σ) (m : Ref) (key : String)
    (handler : Handler X C R E σ) : Heap X C R E σ :=
  { h with maps := fun r =>
      if r = m then fun k => if k = key then some handler else h.maps r k else h.maps r }

/-- The index expression `m[key]` with its `ok`: reading a nil map finds
nothing. -/
def Heap.index {X C R E σ : Type} (h : Heap X C R E σ) (m : Option Ref) (key : String) :
    Option (Handler X C R E σ) :=
  match m with
  | none => none
  | some r => h.maps r key

/-- The method `Commander.WithHandler` (lines 22 to 30). The receiver is a
copy of the struct: the map object is allocated when the copy holds the nil
map, and shared with the caller's commander otherwise. -/
def Commander.WithHandler {X C R E σ : Type} (h : Heap X C R E σ) (commander : Commander)
    (handler : Handler X C R E σ) (zeroCommand : Command C) : Heap X C R E σ × Commander :=
  let made : Heap X C R E σ × Ref :=
    match commander.handlers with
    | none => h.make
    | some handlers => (h, handlers)
  (made.1.assign made.2 zeroCommand.Key handler, { handlers := some made.2 })

/-- The effect of one call of `Commander.Execute`: its result, the world after
it, the handlers whose `HandleIt` it called, in order, and the errors it
logged. -/
structure Executed (X C R E σ : Type) where
  result : Result R E
  world : σ
  invoked : List (Handler X C R E σ)
  logged : List (Error E)

/-- The method `Commander.Execute` (lines 32 to 43), for a context that is not
nil; the logger taken from the context records the error. -/
def Commander.Execute {X C R E σ : Type} (h : Heap X C R E σ) (commander : Commander)
    (ctx : X) (command : Command C) (w : σ) : Executed X C R E σ :=
  match h.index commander.handlers command.Key with
  | some handler =>
    { result := (handler ctx command w).1, world := (handler ctx command w).2,
      invoked := [handler], logged := [] }
  | none =>
    let err : Error E := .errorf
      ("Commander encountered a command for which no handler was configured: " ++ command.Key)
    { result := .returned none (some err), world := w, invoked := [], logged := [err] }

/-- A chain of `WithHandler` calls, each on the commander the one before
returned: `commander.WithHandler(h1, c1).WithHandler(h2, c2)...`. -/
def Commander.chain {X C R E σ : Type} (h : Heap X C R E σ) (commander : Commander) :
    List (Handler X C R E σ × Command C) → Heap X C R E σ × Commander
  | [] => (h, commander)
  | (handler, zeroCommand) :: rest =>
    Commander.chain (commander.WithHandler h handler zeroCommand).1
      (commander.WithHandler h handler zeroCommand).2 rest

/-- The handler most recently registered under `key` by a chain of
registrations, in the words of the specification: that of the last
registration whose command has that key, if there is one. -/
def mostRecent {X C R E σ : Type} (regs : List (Handler X C R E σ × Command C))
    (key : String) : Option (Handler X C R E σ) :=
  (regs.reverse.find? fun reg => reg.2.Key = key).map fun reg => reg.1

/-- A heap without map objects in use. -/
def exHandlers : Heap Unit Nat Nat String Nat := { maps := fun _ _ => none, next := 0 }

/-- A handler that returns the body of the command plus `n` and counts its
invocations in the world. -/
def exAdd (n : Nat) : Handler Unit Nat Nat String Nat :=
  fun _ command w => (.returned (some (command.body + n)) none, w + 1)

/-- A handler that fails. -/
def exFail : Handler Unit Nat Nat String Nat :=
  fun _ _ w => (.returned none (some (.other "failed")), w + 10)

/-- Three registrations: `add` twice, `del` once. -/
def exRegs : List (Handler Unit Nat Nat String Nat × Command Nat) :=
  [(exAdd 1, ⟨"add", 0⟩), (exFail, ⟨"del", 0⟩), (exAdd 2, ⟨"add", 0⟩)]

end commander

namespace httpmiddleware

/-- The correlation id of a request, in the words of the specification: the
first value of its `X-Correlation-Id` header when that value is not the empty
string, and the newly generated short id otherwise (no header, no value, or an
empty first value). -/
def correlationIdSpec (generated : String) (header : Header) : String :=
  match header "X-Correlation-Id" with
  | some (first :: _) => if first = "" then generated else first
  | _ => generated

/-- The client correlation id of a request, in the words of the
specification: the first value of its `X-Client-Correlation-Id` header, if
there is one and it is not the empty string. -/
def clientCorrelationIdSpec (header : Header) : Option String :=
  match header "X-Client-Correlation-Id" with
  | some (first :: _) => if first = "" then none else some first
  | _ => none

end httpmiddleware

namespace httpmiddleware

open goslice integrationevents gocontext auditeventspublisher

/-- The claims a request context carries, in the words of the specification:
the claims map of the innermost value stored under the claims key of
`jwtverifier`, if that value is a claims map and is not nil; a context without
such a value carries no claims at all. -/
def carriedClaims {B : Type} (ctx : Context B) : Option Claims :=
  match ctx.find? fun entry => decide (entry.1 = CtxKey.tokenContextKey) with
  | some (_, .claims (some claims)) => some claims
  | _ => none

/-- Specification of the attribute list the audit handler hands on, written
without the functions of the repository: one attribute for each of the claims
`client_id`, `client_tenant_id` and `sub` that the context carries as a string
parsing as a UUID, then the attributes of the seven headers, then the location
attributes of the first `X-Location` value. -/
def handedAttributesSpec {B U : Type} (lib : Lib U) (r : Request B) : List (Attribute U) :=
  (match carriedClaims r.ctx with
    | none => []
    | some claims => claimKeys.filterMap (claimAttributeSpec lib claims)) ++
  headerAttributesSpec r.Header ++
    match r.Header "X-Location" with
    | none => []
    | some values => locationAttributesSpec lib (values.headD "")

/-- The header map holds an `X-Location` header whose first value has a
segment that crashes the request. -/
def locationCrashes {U : Type} (lib : Lib U) (header : Header) : Bool :=
  match header "X-Location" with
  | none => false
  | some values => (strings.Split (values.headD "") ',').any (crashingSegment lib)

/-- A request without claims in its context whose `X-Location` header is
`lat`. -/
def exCrashRequest : Request Unit :=
  { Header := fun name => if name = "X-Location" then some ["lat"] else none
    ctx := Background }

end httpmiddleware

/-! ## Facts about the map -/

namespace gocache

variable {V : Type}

/-- A read of a key without entry misses. -/
theorem Cache.Get_of_none (c : Cache V) (now : Nat) (k : String) (h : c.items k = none) :
    c.Get now k = (none, false) := by
  simp [Cache.Get, h]

/-- A read of a live entry returns its value. -/
theorem Cache.Get_of_live (c : Cache V) (now : Nat) (k : String) (item : Item V)
    (h : c.items k = some item) (hv : item.expiredAt now = false) :
    c.Get now k = (item.Object, true) := by
  simp [Cache.Get, h, hv]

/-- A read of an expired entry misses. -/
theorem Cache.Get_of_expired (c : Cache V) (now : Nat) (k : String) (item : Item V)
    (h : c.items k = some item) (hv : item.expiredAt now = true) :
    c.Get now k = (none, false) := by
  simp [Cache.Get, h, hv]

/-- A read that misses returns the pair `(nil, false)`. -/
theorem Cache.Get_miss_eq (c : Cache V) (now : Nat) (k : String)
    (h : (c.Get now k).2 = false) : c.Get now k = (none, false) := by
  unfold Cache.Get at h ⊢
  cases hi : c.items k with
  | none => rfl
  | some item =>
    simp only [hi] at h ⊢
    by_cases hx : item.expiredAt now = true
    · simp [hx]
    · simp [hx] at h

/-- A read that hits found a live entry and returns its value. -/
theorem Cache.Get_hit_inv (c : Cache V) (now : Nat) (k : String)
    (h : (c.Get now k).2 = true) :
    ∃ item, c.items k = some item ∧ item.expiredAt now = false ∧
      c.Get now k = (item.Object, true) := by
  unfold Cache.Get at h ⊢
  cases hi : c.items k with
  | none => simp [hi] at h
  | some item =>
    simp only [hi] at h ⊢
    by_cases hx : item.expiredAt now = true
    · simp [hx] at h
    · exact ⟨item, rfl, by simpa using hx, by simp [hx]⟩

/-- A read that misses found no entry, or an expired one. -/
theorem Cache.Get_miss_inv (c : Cache V) (now : Nat) (k : String)
    (h : (c.Get now k).2 = false) :
    c.items k = none ∨ ∃ item, c.items k = some item ∧ item.expiredAt now = true := by
  cases hi : c.items k with
  | none => exact Or.inl rfl
  | some item =>
    refine Or.inr ⟨item, rfl, ?_⟩
    by_cases hx : item.expiredAt now = true
    · exact hx
    · rw [Cache.Get_of_live c now k item hi (by simpa using hx)] at h
      simp at h

/-- An expired entry stays expired at every later clock reading. -/
theorem Item.expiredAt_mono (item : Item V) (t t1 : Nat) (h : t ≤ t1)
    (hx : item.expiredAt t = true) : item.expiredAt t1 = true := by
  simp only [Item.expiredAt, Bool.and_eq_true, decide_eq_true_eq] at hx ⊢
  refine ⟨hx.1, ?_⟩
  have : (t : Int) ≤ (t1 : Int) := by exact_mod_cast h
  omega

/-- A key that misses at one clock reading misses at every later one. -/
theorem Cache.Get_miss_mono (c : Cache V) (t t1 : Nat) (k : String) (h : t ≤ t1)
    (hm : (c.Get t k).2 = false) : (c.Get t1 k).2 = false := by
  rcases Cache.Get_miss_inv c t k hm with h0 | ⟨item, hi, hx⟩
  · rw [Cache.Get_of_none c t1 k h0]
  · rw [Cache.Get_of_expired c t1 k item hi (Item.expiredAt_mono item t t1 h hx)]

end gocache

/-! ## Facts about the sequential `Get` -/

namespace inmemory

open gocache

variable {V E σ : Type}

/-- The entry `SetDefault` writes when the default time-to-live is positive. -/
theorem SetDefault_items (c : Cache V) (now : Nat) (k : String) (x : Option V)
    (h : 0 < c.defaultExpiration) :
    (c.SetDefault now k x).items k = some ⟨x, (now : Int) + c.defaultExpiration⟩ := by
  simp [Cache.SetDefault, Cache.Set, DefaultExpiration, h]

/-- An entry stored with a positive time-to-live is live up to its expiration. -/
theorem expiredAt_false_of_le (x : Option V) (e : Int) (t : Nat) (h : (t : Int) ≤ e) :
    (Item.mk x e).expiredAt t = false := by
  simp only [Item.expiredAt, Bool.and_eq_false_imp, decide_eq_true_eq, decide_eq_false_iff_not]
  intro _
  omega

/-- An entry with a positive expiration is expired at every later reading. -/
theorem expiredAt_true_of_lt (x : Option V) (e : Int) (t : Nat) (h0 : 0 < e)
    (h : e < (t : Int)) : (Item.mk x e).expiredAt t = true := by
  simp only [Item.expiredAt, Bool.and_eq_true, decide_eq_true_eq]
  exact ⟨h0, h⟩

/-- `Get` when the unguarded check hits (lines 18 to 20). -/
theorem Provider.Get_of_hit (c : Provider V E σ) (clk : Clock) (k : String) (w : σ)
    (x : Option V) (h : c.cache.Get clk.atCheck k = (x, true)) :
    c.Get clk k w = ⟨.returned x none, c, w, []⟩ := by
  simp [Provider.Get, h]

/-- `Get` when the unguarded check misses and the re-check hits (lines 25 to 27). -/
theorem Provider.Get_of_rehit (c : Provider V E σ) (clk : Clock) (k : String) (w : σ)
    (x : Option V) (h : (c.cache.Get clk.atCheck k).2 = false)
    (h2 : c.cache.Get clk.atRecheck k = (x, true)) :
    c.Get clk k w = ⟨.returned x none, c, w, []⟩ := by
  simp [Provider.Get, Cache.Get_miss_eq _ _ _ h, h2]

/-- `Get` when both reads miss and the lookup func value is nil: the call at line 29 panics. -/
theorem Provider.Get_of_miss_nil (c : Provider V E σ) (clk : Clock) (k : String) (w : σ)
    (h : (c.cache.Get clk.atCheck k).2 = false) (h2 : (c.cache.Get clk.atRecheck k).2 = false)
    (hf : c.lookup = none) :
    c.Get clk k w = ⟨.panicked, c, w, []⟩ := by
  simp [Provider.Get, Cache.Get_miss_eq _ _ _ h, Cache.Get_miss_eq _ _ _ h2, hf]

/-- `Get` when both reads miss and the lookup fails (lines 30 to 32). -/
theorem Provider.Get_of_miss_err (c : Provider V E σ) (clk : Clock) (k : String) (w : σ)
    (f : Lookup V E σ) (x : Option V) (e : E) (w1 : σ)
    (h : (c.cache.Get clk.atCheck k).2 = false) (h2 : (c.cache.Get clk.atRecheck k).2 = false)
    (hf : c.lookup = some f) (hr : f k w = ((x, some e), w1)) :
    c.Get clk k w = ⟨.returned none (some e), c, w1, [k]⟩ := by
  simp [Provider.Get, Cache.Get_miss_eq _ _ _ h, Cache.Get_miss_eq _ _ _ h2, hf, hr]

/-- `Get` when both reads miss and the lookup succeeds (lines 34 and 35). -/
theorem Provider.Get_of_miss_ok (c : Provider V E σ) (clk : Clock) (k : String) (w : σ)
    (f : Lookup V E σ) (x : Option V) (w1 : σ)
    (h : (c.cache.Get clk.atCheck k).2 = false) (h2 : (c.cache.Get clk.atRecheck k).2 = false)
    (hf : c.lookup = some f) (hr : f k w = ((x, none), w1)) :
    c.Get clk k w = ⟨.returned x none,
      { c with cache := c.cache.SetDefault clk.atStore k x }, w1, [k]⟩ := by
  simp [Provider.Get, Cache.Get_miss_eq _ _ _ h, Cache.Get_miss_eq _ _ _ h2, hf, hr]

/-- The five ways a call of `Get` can go. -/
theorem Provider.Get_cases (c : Provider V E σ) (clk : Clock) (k : String) (w : σ) :
    (∃ x, c.cache.Get clk.atCheck k = (x, true) ∧
        c.Get clk k w = ⟨.returned x none, c, w, []⟩) ∨
    ((c.cache.Get clk.atCheck k).2 = false ∧ ∃ x, c.cache.Get clk.atRecheck k = (x, true) ∧
        c.Get clk k w = ⟨.returned x none, c, w, []⟩) ∨
    ((c.cache.Get clk.atCheck k).2 = false ∧ (c.cache.Get clk.atRecheck k).2 = false ∧
      ((c.lookup = none ∧ c.Get clk k w = ⟨.panicked, c, w, []⟩) ∨
       (∃ f x e w1, c.lookup = some f ∧ f k w = ((x, some e), w1) ∧
          c.Get clk k w = ⟨.returned none (some e), c, w1, [k]⟩) ∨
       (∃ f x w1, c.lookup = some f ∧ f k w = ((x, none), w1) ∧
          c.Get clk k w = ⟨.returned x none,
            { c with cache := c.cache.SetDefault clk.atStore k x }, w1, [k]⟩))) := by
  rcases h1 : c.cache.Get clk.atCheck k with ⟨x, _ | _⟩
  · have h1m : (c.cache.Get clk.atCheck k).2 = false := by rw [h1]
    rw [← h1]
    rcases h2 : c.cache.Get clk.atRecheck k with ⟨y, _ | _⟩
    · have h2m : (c.cache.Get clk.atRecheck k).2 = false := by rw [h2]
      rw [← h2]
      refine Or.inr (Or.inr ⟨h1m, h2m, ?_⟩)
      cases hf : c.lookup with
      | none => exact Or.inl ⟨rfl, Provider.Get_of_miss_nil c clk k w h1m h2m hf⟩
      | some f =>
        rcases hr : f k w with ⟨⟨z, _ | e⟩, w1⟩
        · exact Or.inr (Or.inr ⟨f, z, w1, rfl, hr, by
            rw [Provider.Get_of_miss_ok c clk k w f z w1 h1m h2m hf hr, hf]⟩)
        · exact Or.inr (Or.inl ⟨f, z, e, w1, rfl, hr,
            Provider.Get_of_miss_err c clk k w f z e w1 h1m h2m hf hr⟩)
    · exact Or.inr (Or.inl ⟨h1m, y, rfl, Provider.Get_of_rehit c clk k w y h1m h2⟩)
  · exact Or.inl ⟨x, rfl, Provider.Get_of_hit c clk k w x h1⟩

/-- What `Get` does when both of its reads miss and a lookup function is
present: one invocation, whose result is returned. -/
theorem Provider.Get_of_miss (c : Provider V E σ) (f : Lookup V E σ) (clk : Clock)
    (k : String) (w : σ) (hf : c.lookup = some f)
    (h1 : (c.cache.Get clk.atCheck k).2 = false)
    (h2 : (c.cache.Get clk.atRecheck k).2 = false) :
    (c.Get clk k w).invoked = [k] ∧ (c.Get clk k w).world = (f k w).2 ∧
      (∀ x, (f k w).1 = (x, none) → (c.Get clk k w).result = .returned x none) ∧
      (∀ x e, (f k w).1 = (x, some e) →
        (c.Get clk k w).result = .returned none (some e)) := by
  rcases hr : f k w with ⟨⟨x, _ | e⟩, w1⟩
  · rw [Provider.Get_of_miss_ok c clk k w f x w1 h1 h2 hf hr]
    refine ⟨rfl, rfl, ?_, ?_⟩
    · intro y hy
      simp only [Prod.mk.injEq] at hy
      rw [hy.1]
    · intro y e hy
      simp at hy
  · rw [Provider.Get_of_miss_err c clk k w f x e w1 h1 h2 hf hr]
    refine ⟨rfl, rfl, ?_, ?_⟩
    · intro y hy
      simp at hy
    · intro y e1 hy
      simp only [Prod.mk.injEq, Option.some.injEq] at hy
      rw [hy.2]

/-- `Get` never changes the lookup function or the default time-to-live. -/
theorem Provider.Get_config (c : Provider V E σ) (clk : Clock) (k : String) (w : σ) :
    (c.Get clk k w).provider.lookup = c.lookup ∧
      (c.Get clk k w).provider.cache.defaultExpiration = c.cache.defaultExpiration := by
  unfold Provider.Get
  split
  · exact ⟨rfl, rfl⟩
  · split
    · exact ⟨rfl, rfl⟩
    · split
      · exact ⟨rfl, rfl⟩
      · split <;> exact ⟨rfl, rfl⟩

/-- A history never changes the lookup function or the default time-to-live. -/
theorem Provider.after_config (hist : List Op) (c : Provider V E σ) (w : σ) :
    (c.after w hist).1.lookup = c.lookup ∧
      (c.after w hist).1.cache.defaultExpiration = c.cache.defaultExpiration := by
  induction hist generalizing c w with
  | nil => exact ⟨rfl, rfl⟩
  | cons op rest ih =>
    cases op with
    | get clk key =>
      have h := ih (c.Get clk key w).provider (c.Get clk key w).world
      have h0 := Provider.Get_config c clk key w
      simp only [Provider.after]
      exact ⟨h.1.trans h0.1, h.2.trans h0.2⟩
    | sweep now =>
      have h := ih { c with cache := c.cache.DeleteExpired now } w
      simp only [Provider.after]
      exact ⟨h.1, h.2⟩

/-- The provider built by `NewProvider` with a positive expiration, after any
history, still has that expiration as its default and the same lookup. -/
theorem NewProvider_after_config (lookup : Option (Lookup V E σ)) (ttl ci : Int)
    (hist : List Op) (w : σ) (httl : 0 < ttl) :
    (((NewProvider lookup ttl ci : Provider V E σ × Option E).1).after w hist).1.lookup = lookup ∧
      (((NewProvider lookup ttl ci : Provider V E σ × Option E).1).after w hist
        ).1.cache.defaultExpiration = ttl := by
  have h := Provider.after_config hist (NewProvider lookup ttl ci : Provider V E σ × Option E).1 w
  refine ⟨h.1, h.2.trans ?_⟩
  have : ttl ≠ 0 := by omega
  simp [NewProvider, New, this]

/-- The entry a successful population leaves behind, for a provider built by
`NewProvider` with a positive expiration and run through any history. -/
theorem population_entry (f : Lookup V E σ) (ttl ci : Int) (hist : List Op)
    (w0 : σ) (c : Provider V E σ) (clk : Clock) (k : String) (w : σ) (v : Option V) (w1 : σ)
    (httl : 0 < ttl)
    (hc : c = ((NewProvider (some f) ttl ci).1.after w0 hist).1)
    (hmiss : (c.cache.Get clk.atCheck k).2 = false)
    (hmiss2 : (c.cache.Get clk.atRecheck k).2 = false)
    (hok : f k w = ((v, none), w1)) :
    (c.Get clk k w).provider.cache.items k = some ⟨v, (clk.atStore : Int) + ttl⟩ := by
  have hcfg := NewProvider_after_config (some f) ttl ci hist w0 httl
  rw [← hc] at hcfg
  have hd : 0 < c.cache.defaultExpiration := by rw [hcfg.2]; exact httl
  rw [Provider.Get_of_miss_ok c clk k w f v w1 hmiss hmiss2 hcfg.1 hok]
  show (c.cache.SetDefault clk.atStore k v).items k = _
  rw [SetDefault_items c.cache clk.atStore k v hd, hcfg.2]

end inmemory

/-! ## The contract of `Get`, one caller at a time -/

namespace inmemory

open gocache

variable {V E σ : Type}

/-- C1 (hit correctness). For every provider state, key `k` and clock, if the
map holds for `k` an entry `(v, expiresAt)` that is not expired at the reading
of the unguarded check, then `Get(k)` returns `(v, nil)`, invokes the lookup
function zero times and leaves the world of the lookup untouched. -/
theorem hit_correctness (c : Provider V E σ) (clk : Clock) (k : String) (w : σ)
    (v : Option V) (expiresAt : Int)
    (hentry : c.cache.items k = some ⟨v, expiresAt⟩)
    (hlive : (Item.mk v expiresAt).expiredAt clk.atCheck = false) :
    (c.Get clk k w).result = .returned v none ∧ (c.Get clk k w).invoked = [] ∧
      (c.Get clk k w).world = w := by
  have h := Cache.Get_of_live c.cache clk.atCheck k ⟨v, expiresAt⟩ hentry hlive
  rw [Provider.Get_of_hit c clk k w v h]
  exact ⟨rfl, rfl, rfl⟩

/-- Witness of C1: the entry `(1, 100)` for `"x"` read at time 50. -/
theorem hit_correctness_witness :
    exProvider.cache.items "x" = some ⟨some 1, 100⟩ ∧
    (Item.mk (some 1) 100).expiredAt (Clock.instant 50).atCheck = false ∧
    ((exProvider.Get (Clock.instant 50) "x" 0).result = .returned (some 1) none ∧
      (exProvider.Get (Clock.instant 50) "x" 0).invoked = [] ∧
      (exProvider.Get (Clock.instant 50) "x" 0).world = 0) :=
  ⟨rfl, rfl, hit_correctness exProvider (Clock.instant 50) "x" 0 (some 1) 100 rfl rfl⟩

/-- C2 (miss correctness). For every provider with lookup function `f`, every
key `k` for which the map holds no entry, every clock and world, `Get(k)`
invokes the lookup function exactly once, with argument `k`, in the world it
was called in, and returns that invocation's result: `(value, nil)` when the
lookup returned a nil error, `(nil, err)` when it returned the error `err`. -/
theorem miss_correctness (c : Provider V E σ) (f : Lookup V E σ) (clk : Clock)
    (k : String) (w : σ) (hf : c.lookup = some f) (hnone : c.cache.items k = none) :
    (c.Get clk k w).invoked = [k] ∧ (c.Get clk k w).world = (f k w).2 ∧
      (∀ x, (f k w).1 = (x, none) → (c.Get clk k w).result = .returned x none) ∧
      (∀ x e, (f k w).1 = (x, some e) →
        (c.Get clk k w).result = .returned none (some e)) := by
  have h1 : (c.cache.Get clk.atCheck k).2 = false := by rw [Cache.Get_of_none _ _ _ hnone]
  have h2 : (c.cache.Get clk.atRecheck k).2 = false := by rw [Cache.Get_of_none _ _ _ hnone]
  exact Provider.Get_of_miss c f clk k w hf h1 h2

/-- Witness of C2: the key `"y"`, never seen by `exProvider`. -/
theorem miss_correctness_witness :
    exProvider.lookup = some exLookup ∧ exProvider.cache.items "y" = none ∧
    ((exProvider.Get (Clock.instant 50) "y" 7).invoked = ["y"] ∧
      (exProvider.Get (Clock.instant 50) "y" 7).world = (exLookup "y" 7).2 ∧
      (∀ x, (exLookup "y" 7).1 = (x, none) →
        (exProvider.Get (Clock.instant 50) "y" 7).result = .returned x none) ∧
      (∀ x e, (exLookup "y" 7).1 = (x, some e) →
        (exProvider.Get (Clock.instant 50) "y" 7).result = .returned none (some e))) :=
  ⟨rfl, rfl, miss_correctness exProvider exLookup (Clock.instant 50) "y" 7 rfl rfl⟩

/-- C3 (population stores with the instance's fixed TTL). Let `c` be the
provider built by `NewProvider` with lookup `f` and expiration `ttl > 0`, after
any history of `Get` calls and sweeps. If `Get(k)` misses at both of its reads
and `f k` succeeds with `v`, then afterwards the map holds for `k` the entry
`(v, t + ttl)`, `t` being the clock reading of the store, and every `Get(k)`
whose first read is at a time `t'` with `t' ≤ t + ttl` returns `(v, nil)` with no
lookup invocation and no change of state. -/
theorem population_uses_fixed_ttl (f : Lookup V E σ) (ttl ci : Int) (hist : List Op)
    (w0 : σ) (c : Provider V E σ) (clk : Clock) (k : String) (w : σ) (v : Option V) (w1 : σ)
    (httl : 0 < ttl)
    (hc : c = ((NewProvider (some f) ttl ci).1.after w0 hist).1)
    (hmiss : (c.cache.Get clk.atCheck k).2 = false)
    (hmiss2 : (c.cache.Get clk.atRecheck k).2 = false)
    (hok : f k w = ((v, none), w1)) :
    (c.Get clk k w).provider.cache.items k = some ⟨v, (clk.atStore : Int) + ttl⟩ ∧
      ∀ (clk1 : Clock) (w2 : σ), (clk1.atCheck : Int) ≤ (clk.atStore : Int) + ttl →
        ((c.Get clk k w).provider.Get clk1 k w2).result = .returned v none ∧
        ((c.Get clk k w).provider.Get clk1 k w2).invoked = [] ∧
        ((c.Get clk k w).provider.Get clk1 k w2).world = w2 ∧
        ((c.Get clk k w).provider.Get clk1 k w2).provider = (c.Get clk k w).provider := by
  have hitem := population_entry f ttl ci hist w0 c clk k w v w1 httl hc hmiss hmiss2 hok
  refine ⟨hitem, ?_⟩
  intro clk1 w2 hle
  have hlive := expiredAt_false_of_le v ((clk.atStore : Int) + ttl) clk1.atCheck hle
  have hget := Cache.Get_of_live _ clk1.atCheck k _ hitem hlive
  rw [Provider.Get_of_hit _ clk1 k w2 v hget]
  exact ⟨rfl, rfl, rfl, rfl⟩

/-- Witness of C3 (Scenario A): time-to-live 100, `Get("x")` at time 0
populates with the value 0 and stores the expiration 100; `Get("x")` at time 50
returns 0 with no lookup. -/
theorem population_uses_fixed_ttl_witness :
    (exFresh.Get (Clock.instant 0) "x" 0).provider.cache.items "x" = some ⟨some 0, 100⟩ ∧
    ((exFresh.Get (Clock.instant 0) "x" 0).provider.Get (Clock.instant 50) "x" 1).result =
      .returned (some 0) none ∧
    ((exFresh.Get (Clock.instant 0) "x" 0).provider.Get (Clock.instant 50) "x" 1).invoked = [] :=
  have h := population_uses_fixed_ttl exLookup 100 10 [] 0 exFresh (Clock.instant 0) "x" 0
    (some 0) 1 (by decide) rfl rfl rfl rfl
  ⟨h.1, (h.2 (Clock.instant 50) 1 (by decide)).1, (h.2 (Clock.instant 50) 1 (by decide)).2.1⟩

/-- C4 (expiration). Let `c` be the provider built by `NewProvider` with lookup
`f` and expiration `ttl > 0`, after any history, and let `Get(k)` populate `k`
with `v`, the store reading the clock at `t`. Let `c2` be any later state of the
provider in which the entry for `k` is still the one that population stored, or
has been swept. Then a `Get(k)` on `c2` whose reads are at times after `t + ttl`
invokes the lookup function once, with `k`, and returns that invocation's
result, value or error; the stale value is returned only if the lookup
produces it again. -/
theorem expiration_triggers_fresh_lookup (f : Lookup V E σ) (ttl ci : Int) (hist : List Op)
    (w0 : σ) (c : Provider V E σ) (clk : Clock) (k : String) (w : σ) (v : Option V) (w1 : σ)
    (c2 : Provider V E σ) (clk2 : Clock) (w2 : σ)
    (httl : 0 < ttl)
    (hc : c = ((NewProvider (some f) ttl ci).1.after w0 hist).1)
    (hmiss : (c.cache.Get clk.atCheck k).2 = false)
    (hmiss2 : (c.cache.Get clk.atRecheck k).2 = false)
    (hok : f k w = ((v, none), w1))
    (hf2 : c2.lookup = some f)
    (hc2 : c2.cache.items k = (c.Get clk k w).provider.cache.items k ∨ c2.cache.items k = none)
    (hlate : (clk.atStore : Int) + ttl < (clk2.atCheck : Int))
    (hmono : clk2.atCheck ≤ clk2.atRecheck) :
    (c2.Get clk2 k w2).invoked = [k] ∧ (c2.Get clk2 k w2).world = (f k w2).2 ∧
      (∀ x, (f k w2).1 = (x, none) → (c2.Get clk2 k w2).result = .returned x none) ∧
      (∀ x e, (f k w2).1 = (x, some e) →
        (c2.Get clk2 k w2).result = .returned none (some e)) := by
  have hpop := population_entry f ttl ci hist w0 c clk k w v w1 httl hc hmiss hmiss2 hok
  have h1 : (c2.cache.Get clk2.atCheck k).2 = false := by
    rcases hc2 with h | h
    · rw [hpop] at h
      have hx := expiredAt_true_of_lt v ((clk.atStore : Int) + ttl) clk2.atCheck (by omega) hlate
      rw [Cache.Get_of_expired c2.cache clk2.atCheck k _ h hx]
    · rw [Cache.Get_of_none _ _ _ h]
  have h2 := Cache.Get_miss_mono c2.cache clk2.atCheck clk2.atRecheck k hmono h1
  exact Provider.Get_of_miss c2 f clk2 k w2 hf2 h1 h2

/-- Witness of C4 (Scenario A): after the population at time 0 with
time-to-live 100, `Get("x")` at time 150 invokes the lookup again and returns
its new value 1. -/
theorem expiration_triggers_fresh_lookup_witness :
    ((exFresh.Get (Clock.instant 0) "x" 0).provider.Get (Clock.instant 150) "x" 1).invoked =
      ["x"] ∧
    ((exFresh.Get (Clock.instant 0) "x" 0).provider.Get (Clock.instant 150) "x" 1).result =
      .returned (some 1) none :=
  have h := expiration_triggers_fresh_lookup exLookup 100 10 [] 0 exFresh (Clock.instant 0) "x" 0
    (some 0) 1 (exFresh.Get (Clock.instant 0) "x" 0).provider (Clock.instant 150) 1
    (by decide) rfl rfl rfl rfl rfl (Or.inl rfl) (by decide) (by decide)
  ⟨h.1, h.2.2.1 (some 1) rfl⟩

/-- C5 (failure atomicity). For every provider state, key and clock, if the
lookup function returns an error for `k` in the world `Get(k)` is called in,
then, whether or not the call gets as far as invoking it, the provider after
the call is the provider before it: no entry is added, an expired entry is left
as it was, all other keys are untouched. -/
theorem failure_atomicity (c : Provider V E σ) (f : Lookup V E σ) (clk : Clock) (k : String)
    (w : σ) (e : E) (hf : c.lookup = some f) (herr : (f k w).1.2 = some e) :
    (c.Get clk k w).provider = c ∧
      ∀ j, (c.Get clk k w).provider.cache.items j = c.cache.items j := by
  have key : (c.Get clk k w).provider = c := by
    rcases Provider.Get_cases c clk k w with ⟨x, _, h⟩ | ⟨_, x, _, h⟩ |
      ⟨_, _, ⟨_, h⟩ | ⟨g, x, e1, w1, _, _, h⟩ | ⟨g, x, w1, hg, hr, h⟩⟩
    · rw [h]
    · rw [h]
    · rw [h]
    · rw [h]
    · rw [hf] at hg
      cases hg
      rw [hr] at herr
      simp at herr
  exact ⟨key, fun j => by rw [key]⟩

/-- Witness of C5 (Scenario C): the failing lookup of `"bad"` leaves
`exProvider` as it was. -/
theorem failure_atomicity_witness :
    (exLookup "bad" 0).1.2 = some "boom" ∧
    (exProvider.Get (Clock.instant 0) "bad" 0).invoked = ["bad"] ∧
    (exProvider.Get (Clock.instant 0) "bad" 0).provider = exProvider :=
  ⟨rfl, rfl,
    (failure_atomicity exProvider exLookup (Clock.instant 0) "bad" 0 "boom" rfl rfl).1⟩

/-- C6 (failure non-poisoning). For every provider with lookup `f` and key `k`
with no live entry, if `Get(k)` fails because `f k` returned an error, then the
`Get(k)` that follows (its clock not behind the first one's) invokes the lookup
function again, in the world the first invocation left, and returns the second
invocation's result: two invocations for the two calls, no cached failure and
no stale value. -/
theorem failure_non_poisoning (c : Provider V E σ) (f : Lookup V E σ) (clk clk2 : Clock)
    (k : String) (w : σ) (x : Option V) (e : E) (w1 : σ)
    (hf : c.lookup = some f)
    (hmiss : (c.cache.Get clk.atCheck k).2 = false)
    (hmono : clk.atCheck ≤ clk.atRecheck)
    (hnext : clk.atCheck ≤ clk2.atCheck) (hmono2 : clk2.atCheck ≤ clk2.atRecheck)
    (herr : f k w = ((x, some e), w1)) :
    (c.Get clk k w).result = .returned none (some e) ∧ (c.Get clk k w).invoked = [k] ∧
      (c.Get clk k w).world = w1 ∧
      (((c.Get clk k w).provider.Get clk2 k (c.Get clk k w).world).invoked = [k] ∧
       ((c.Get clk k w).provider.Get clk2 k (c.Get clk k w).world).world = (f k w1).2 ∧
       (∀ y, (f k w1).1 = (y, none) →
          ((c.Get clk k w).provider.Get clk2 k (c.Get clk k w).world).result =
            .returned y none) ∧
       (∀ y e2, (f k w1).1 = (y, some e2) →
          ((c.Get clk k w).provider.Get clk2 k (c.Get clk k w).world).result =
            .returned none (some e2))) := by
  have hmiss2 := Cache.Get_miss_mono c.cache _ _ k hmono hmiss
  rw [Provider.Get_of_miss_err c clk k w f x e w1 hmiss hmiss2 hf herr]
  refine ⟨rfl, rfl, rfl, ?_⟩
  have h3 := Cache.Get_miss_mono c.cache _ _ k hnext hmiss
  have h4 := Cache.Get_miss_mono c.cache _ _ k hmono2 h3
  exact Provider.Get_of_miss c f clk2 k w1 hf h3 h4

/-- Witness of C6 (Scenario C): two calls of `Get("bad")` in a row, two
lookup invocations, the second in the world the first one left. -/
theorem failure_non_poisoning_witness :
    (exProvider.Get (Clock.instant 0) "bad" 0).result = .returned none (some "boom") ∧
    (exProvider.Get (Clock.instant 0) "bad" 0).invoked = ["bad"] ∧
    ((exProvider.Get (Clock.instant 0) "bad" 0).provider.Get (Clock.instant 0) "bad"
      (exProvider.Get (Clock.instant 0) "bad" 0).world).invoked = ["bad"] ∧
    ((exProvider.Get (Clock.instant 0) "bad" 0).provider.Get (Clock.instant 0) "bad"
      (exProvider.Get (Clock.instant 0) "bad" 0).world).world = 2 :=
  have h := failure_non_poisoning exProvider exLookup (Clock.instant 0) (Clock.instant 0) "bad" 0
    none "boom" 1 rfl rfl (by decide) (by decide) (by decide) rfl
  ⟨h.1, h.2.1, h.2.2.2.1, h.2.2.2.2.1⟩

/-- C7 (Get fails exactly when the lookup fails, and verbatim). For every
provider with lookup `f`, key `k`, world and clock that does not run backwards
between the two reads: `Get(k)` returns the value `x` with the non-nil error `e`
if and only if the map holds no live entry for `k`, `f k` returns the error `e`,
and `x` is nil. -/
theorem get_fails_iff_lookup_fails (c : Provider V E σ) (f : Lookup V E σ) (clk : Clock)
    (k : String) (w : σ) (x : Option V) (e : E)
    (hf : c.lookup = some f) (hmono : clk.atCheck ≤ clk.atRecheck) :
    (c.Get clk k w).result = .returned x (some e) ↔
      ((c.cache.Get clk.atCheck k).2 = false ∧ (f k w).1.2 = some e ∧ x = none) := by
  constructor
  · intro hres
    rcases Provider.Get_cases c clk k w with ⟨y, _, h⟩ | ⟨_, y, _, h⟩ |
      ⟨h1, _, ⟨_, h⟩ | ⟨g, y, e1, w1, hg, hr, h⟩ | ⟨g, y, w1, _, _, h⟩⟩
    · rw [h] at hres
      simp at hres
    · rw [h] at hres
      simp at hres
    · rw [h] at hres
      simp at hres
    · rw [hf] at hg
      cases hg
      rw [h] at hres
      simp only [Result.returned.injEq, Option.some.injEq] at hres
      refine ⟨h1, ?_, hres.1.symm⟩
      rw [hr, ← hres.2]
    · rw [h] at hres
      simp at hres
  · rintro ⟨h1, herr, hx⟩
    have h2 := Cache.Get_miss_mono c.cache _ _ k hmono h1
    rcases hr : f k w with ⟨⟨y, e1⟩, w1⟩
    rw [hr] at herr
    simp only at herr
    subst herr
    rw [Provider.Get_of_miss_err c clk k w f y e w1 h1 h2 hf hr, hx]

/-- Witness of C7 (Scenario C): `Get("bad")` returns `(nil, "boom")`, the
error of the lookup. -/
theorem get_fails_iff_lookup_fails_witness :
    (exProvider.Get (Clock.instant 0) "bad" 0).result = .returned none (some "boom") :=
  (get_fails_iff_lookup_fails exProvider exLookup (Clock.instant 0) "bad" 0 none "boom" rfl
    (by decide)).2 ⟨rfl, rfl, rfl⟩

/-- C10 (no sliding expiration on read). For every provider state, clock and
key `k` with an entry `(v, expiresAt)` live at the unguarded check, `Get(k)`
leaves the provider as it was; in particular the entry and its `expiresAt` are
the same after the call as before it. And for every call of `Get` on that
provider, with any clock, key and world, an entry that differs after the call
is the entry of the call's own key, and the call was a successful population:
it invoked the lookup and returned a value with a nil error. -/
theorem no_sliding_expiration (c : Provider V E σ) (clk : Clock) (k : String) (w : σ)
    (v : Option V) (expiresAt : Int)
    (hentry : c.cache.items k = some ⟨v, expiresAt⟩)
    (hlive : (Item.mk v expiresAt).expiredAt clk.atCheck = false) :
    (c.Get clk k w).provider = c ∧
      (c.Get clk k w).provider.cache.items k = some ⟨v, expiresAt⟩ ∧
      ∀ (clk1 : Clock) (k1 : String) (w2 : σ) (j : String),
        (c.Get clk1 k1 w2).provider.cache.items j ≠ c.cache.items j →
          j = k1 ∧ (c.Get clk1 k1 w2).invoked = [k1] ∧
            ∃ y, (c.Get clk1 k1 w2).result = .returned y none := by
  have h := Cache.Get_of_live c.cache clk.atCheck k ⟨v, expiresAt⟩ hentry hlive
  rw [Provider.Get_of_hit c clk k w v h]
  refine ⟨rfl, hentry, ?_⟩
  intro clk1 k1 w2 j hne
  rcases Provider.Get_cases c clk1 k1 w2 with ⟨y, _, h⟩ | ⟨_, y, _, h⟩ |
    ⟨_, _, ⟨_, h⟩ | ⟨g, y, e1, w1, _, _, h⟩ | ⟨g, y, w1, _, _, h⟩⟩
  · rw [h] at hne; exact absurd rfl hne
  · rw [h] at hne; exact absurd rfl hne
  · rw [h] at hne; exact absurd rfl hne
  · rw [h] at hne; exact absurd rfl hne
  · rw [h] at hne ⊢
    refine ⟨?_, rfl, y, rfl⟩
    by_contra hjk
    apply hne
    simp [Cache.SetDefault, Cache.Set, hjk]

/-- Witness of C10: reading the live entry `(1, 100)` of `"x"` at time 50
leaves `exProvider` and the entry as they were. -/
theorem no_sliding_expiration_witness :
    (exProvider.Get (Clock.instant 50) "x" 0).provider = exProvider ∧
    (exProvider.Get (Clock.instant 50) "x" 0).provider.cache.items "x" =
      some ⟨some 1, 100⟩ :=
  have h := no_sliding_expiration exProvider (Clock.instant 50) "x" 0 (some 1) 100 rfl rfl
  ⟨h.1, h.2.1⟩

end inmemory

/-! ## The interleaving model: steps, mutual exclusion, progress -/

namespace inmemory

open gocache

variable {V E σ : Type}

/-- Every step of `step` is one of the transitions of `Trans`. -/
theorem step_trans (s s1 : Sys V E σ) (i now : Nat) (h : step s i now = some s1) :
    i < s.n ∧ Trans s i now s1 := by
  unfold step at h
  by_cases hi : i < s.n
  swap
  · rw [if_neg hi] at h
    cases h
  rw [if_pos hi] at h
  refine ⟨hi, ?_⟩
  split at h
  · rename_i hp
    split at h
    · rename_i x hg
      cases h
      exact .hit x hp hg
    · rename_i x hg
      cases h
      exact .miss hp (by rw [hg])
  · rename_i hp
    by_cases hm : s.mutex = true
    · rw [if_pos hm] at h
      cases h
    · rw [if_neg hm] at h
      cases h
      exact .lock hp (by simpa using hm)
  · rename_i hp
    split at h
    · rename_i x hg
      cases h
      exact .rehit x hp hg
    · rename_i x hg
      cases h
      exact .remiss hp (by rw [hg])
  · rename_i hp
    split at h
    · rename_i hf
      cases h
      exact .callNil hp hf
    · rename_i f hf
      cases h
      exact .call f hp hf
  · rename_i hp
    split at h
    · rename_i hf
      cases h
      exact .retNil hp hf
    · rename_i f hf
      split at h
      · rename_i x e w1 hr
        cases h
        exact .retErr f x e w1 hp hf hr
      · rename_i x w1 hr
        cases h
        exact .retOk f x w1 hp hf hr
  · rename_i x hp
    cases h
    exact .store x hp
  · rename_i r hp
    cases h
    exact .unlock r hp
  · cases h

/-- The program counters after `goto`. -/
theorem Sys.goto_pc (s : Sys V E σ) (i : Nat) (p : PC V E) (j : Nat) :
    (s.goto i p).pc j = if j = i then p else s.pc j := rfl

/-- What a step does to the mutex and to the program counters: the caller
stays outside the critical section, enters it through a free mutex, moves
inside it, or leaves it and frees the mutex. Nothing else moves. -/
theorem step_shape (s s1 : Sys V E σ) (i now : Nat) (h : step s i now = some s1) :
    i < s.n ∧ s1.n = s.n ∧ s1.key = s.key ∧ s1.provider.lookup = s.provider.lookup ∧
    (∀ j, j ≠ i → s1.pc j = s.pc j) ∧
    (((s.pc i).holds = false ∧ (s1.pc i).holds = false ∧ s1.mutex = s.mutex) ∨
     ((s.pc i).holds = false ∧ (s1.pc i).holds = true ∧ s.mutex = false ∧ s1.mutex = true) ∨
     ((s.pc i).holds = true ∧ (s1.pc i).holds = true ∧ s1.mutex = s.mutex) ∨
     ((s.pc i).holds = true ∧ (s1.pc i).holds = false ∧ s1.mutex = false)) := by
  obtain ⟨hi, ht⟩ := step_trans s s1 i now h
  refine ⟨hi, ?_⟩
  cases ht <;> simp_all [Sys.goto, Sys.withCache, PC.holds]

/-- A step changes neither the number of callers, nor their keys, nor the
lookup function, nor the default time-to-live. -/
theorem step_frame (s s1 : Sys V E σ) (i now : Nat) (h : step s i now = some s1) :
    s1.n = s.n ∧ s1.key = s.key ∧ s1.provider.lookup = s.provider.lookup ∧
      s1.provider.cache.defaultExpiration = s.provider.cache.defaultExpiration ∧
      s1.provider.cache.janitor = s.provider.cache.janitor := by
  obtain ⟨_, ht⟩ := step_trans s s1 i now h
  cases ht <;> simp [Sys.goto, Sys.withCache, Cache.SetDefault, Cache.Set]

/-- An event changes neither the callers, nor their keys, nor the configuration. -/
theorem fire_frame (s : Sys V E σ) (ev : Event) :
    (fire s ev).n = s.n ∧ (fire s ev).key = s.key ∧
      (fire s ev).provider.lookup = s.provider.lookup ∧
      (fire s ev).provider.cache.defaultExpiration = s.provider.cache.defaultExpiration ∧
      (fire s ev).provider.cache.janitor = s.provider.cache.janitor := by
  cases ev with
  | caller i now =>
    cases h : step s i now with
    | none => simp [fire, h]
    | some s1 => simpa [fire, h] using step_frame s s1 i now h
  | sweep now =>
    simp only [fire]
    split <;> simp [Sys.withCache, Cache.DeleteExpired]

/-- An interleaving changes neither the callers, nor their keys, nor the configuration. -/
theorem run_frame (evs : List Event) (s : Sys V E σ) :
    (run s evs).n = s.n ∧ (run s evs).key = s.key ∧
      (run s evs).provider.lookup = s.provider.lookup ∧
      (run s evs).provider.cache.defaultExpiration = s.provider.cache.defaultExpiration ∧
      (run s evs).provider.cache.janitor = s.provider.cache.janitor := by
  induction evs generalizing s with
  | nil => exact ⟨rfl, rfl, rfl, rfl, rfl⟩
  | cons ev rest ih =>
    have h1 := ih (fire s ev)
    have h2 := fire_frame s ev
    simp only [run]
    exact ⟨h1.1.trans h2.1, h1.2.1.trans h2.2.1, h1.2.2.1.trans h2.2.2.1,
      h1.2.2.2.1.trans h2.2.2.2.1, h1.2.2.2.2.trans h2.2.2.2.2⟩

/-- A step that lengthens the trace of lookup invocations is the invocation of
line 29, taken by a caller that stands between `Lock` and `Unlock`. -/
theorem step_calls (s s1 : Sys V E σ) (i now : Nat) (h : step s i now = some s1)
    (hc : s1.calls ≠ s.calls) :
    s.pc i = .call ∧ s1.pc i = .inLookup ∧ s1.calls = s.calls ++ [(i, s.key i)] := by
  obtain ⟨_, ht⟩ := step_trans s s1 i now h
  cases ht <;> simp_all [Sys.goto, Sys.withCache]

/-- Running two interleavings one after the other. -/
theorem run_append (a b : List Event) (s : Sys V E σ) :
    run s (a ++ b) = run (run s a) b := by
  induction a generalizing s with
  | nil => rfl
  | cons ev rest ih => exact ih (fire s ev)

/-- The mutual-exclusion invariant holds initially. -/
theorem mutexInv_init (c : Provider V E σ) (w : σ) (n : Nat) (key : Nat → String) :
    MutexInv (Sys.init c w n key) where
  outside := fun _ _ => rfl
  unique := fun i _ hi _ => by simp [Sys.init, PC.holds] at hi
  free := fun _ _ => rfl
  held := fun h => by simp [Sys.init] at h

/-- The mutual-exclusion invariant is kept by every caller step. -/
theorem mutexInv_step (s s1 : Sys V E σ) (i now : Nat) (h : step s i now = some s1)
    (inv : MutexInv s) : MutexInv s1 := by
  obtain ⟨hi, _, _, _, hpc, hcase⟩ := step_shape s s1 i now h
  have hold : ∀ j, j ≠ i → (s1.pc j).holds = (s.pc j).holds := fun j hj => by rw [hpc j hj]
  refine ⟨?_, ?_, ?_, ?_⟩
  · intro j hj
    have hji : j ≠ i := by omega
    rw [hpc j hji]
    exact inv.outside j (by omega)
  · intro a b ha hb
    by_cases hai : a = i <;> by_cases hbi : b = i
    · rw [hai, hbi]
    · subst hai
      rw [hold b hbi] at hb
      rcases hcase with ⟨_, h2, _⟩ | ⟨_, _, hm, _⟩ | ⟨h1, _, _⟩ | ⟨_, h2, _⟩
      · rw [h2] at ha; cases ha
      · rw [inv.free hm b] at hb; cases hb
      · exact inv.unique a b h1 hb
      · rw [h2] at ha; cases ha
    · subst hbi
      rw [hold a hai] at ha
      rcases hcase with ⟨_, h2, _⟩ | ⟨_, _, hm, _⟩ | ⟨h1, _, _⟩ | ⟨_, h2, _⟩
      · rw [h2] at hb; cases hb
      · rw [inv.free hm a] at ha; cases ha
      · exact inv.unique a b ha h1
      · rw [h2] at hb; cases hb
    · rw [hold a hai] at ha
      rw [hold b hbi] at hb
      exact inv.unique a b ha hb
  · intro hm j
    by_cases hji : j = i
    · subst hji
      rcases hcase with ⟨_, h2, _⟩ | ⟨_, _, _, hm1⟩ | ⟨h1, _, hm1⟩ | ⟨_, h2, _⟩
      · exact h2
      · rw [hm1] at hm; cases hm
      · rw [hm1] at hm
        rw [inv.free hm j] at h1; cases h1
      · exact h2
    · rw [hold j hji]
      rcases hcase with ⟨_, _, hm1⟩ | ⟨_, _, _, hm1⟩ | ⟨h1, _, hm1⟩ | ⟨h1, _, _⟩
      · exact inv.free (hm1 ▸ hm) j
      · rw [hm1] at hm; cases hm
      · exact inv.free (hm1 ▸ hm) j
      · cases hx : (s.pc j).holds with
        | false => rfl
        | true => exact absurd (inv.unique j i hx h1) hji
  · intro hm
    rcases hcase with ⟨h1, _, hm1⟩ | ⟨_, h2, _, _⟩ | ⟨_, h2, _⟩ | ⟨_, _, hm1⟩
    · obtain ⟨j, hj⟩ := inv.held (hm1 ▸ hm)
      have hji : j ≠ i := by
        rintro rfl
        rw [h1] at hj; cases hj
      exact ⟨j, by rw [hold j hji]; exact hj⟩
    · exact ⟨i, h2⟩
    · exact ⟨i, h2⟩
    · rw [hm1] at hm; cases hm

/-- The mutual-exclusion invariant is kept by every event. -/
theorem mutexInv_fire (s : Sys V E σ) (ev : Event) (inv : MutexInv s) : MutexInv (fire s ev) := by
  cases ev with
  | caller i now =>
    cases h : step s i now with
    | none => simpa [inmemory.fire, h] using inv
    | some s1 => simpa [inmemory.fire, h] using mutexInv_step s s1 i now h inv
  | sweep now =>
    simp only [inmemory.fire]
    split
    · exact inv
    · exact ⟨inv.outside, inv.unique, inv.free, inv.held⟩

/-- The mutual-exclusion invariant holds after every interleaving. -/
theorem mutexInv_run (evs : List Event) (s : Sys V E σ) (inv : MutexInv s) :
    MutexInv (run s evs) := by
  induction evs generalizing s with
  | nil => exact inv
  | cons ev rest ih => exact ih (inmemory.fire s ev) (mutexInv_fire s ev inv)

/-- A caller that stands between `Lock` and `Unlock`, or that is at its
unguarded check, or at `Lock` with the mutex free, can take its next step,
whatever the clock reads. -/
theorem step_enabled (s : Sys V E σ) (i now : Nat) (hi : i < s.n)
    (hp : (s.pc i).holds = true ∨ s.pc i = .check ∨ (s.pc i = .lock ∧ s.mutex = false)) :
    (step s i now).isSome = true := by
  unfold step
  rw [if_pos hi]
  rcases hp with hp | hp | ⟨hp, hm⟩
  · cases hpc : s.pc i with
    | check => rw [hpc] at hp; cases hp
    | lock => rw [hpc] at hp; cases hp
    | done r => rw [hpc] at hp; cases hp
    | recheck => simp only; split <;> rfl
    | call => simp only; split <;> rfl
    | inLookup =>
      simp only
      split
      · rfl
      · split <;> rfl
    | store x => rfl
    | unlock r => rfl
  · rw [hp]
    simp only
    split <;> rfl
  · rw [hp]
    simp [hm]

/-- Progress: unless every caller has returned, some caller can take a step,
whatever the clock reads. No state of the model is a deadlock. -/
theorem MutexInv.progress (s : Sys V E σ) (inv : MutexInv s) (hnd : s.allDone = false) :
    ∃ i, i < s.n ∧ ∀ now, (step s i now).isSome = true := by
  cases hm : s.mutex with
  | true =>
    obtain ⟨i, hi⟩ := inv.held hm
    have hin : i < s.n := by
      by_contra hge
      rw [inv.outside i (by omega)] at hi
      cases hi
    exact ⟨i, hin, fun now => step_enabled s i now hin (Or.inl hi)⟩
  | false =>
    have : ∃ i, i < s.n ∧ (s.pc i).isDone = false := by
      by_contra hall
      have : s.allDone = true := by
        simp only [Sys.allDone, List.all_eq_true, List.mem_range]
        intro i hi
        by_contra hx
        exact hall ⟨i, hi, by simpa using hx⟩
      rw [this] at hnd
      cases hnd
    obtain ⟨i, hin, hnotdone⟩ := this
    refine ⟨i, hin, fun now => step_enabled s i now hin ?_⟩
    have hfree := inv.free hm i
    cases hpc : s.pc i with
    | check => exact Or.inr (Or.inl rfl)
    | lock => exact Or.inr (Or.inr ⟨rfl, hm⟩)
    | done r => rw [hpc] at hnotdone; cases hnotdone
    | recheck => rw [hpc] at hfree; cases hfree
    | call => rw [hpc] at hfree; cases hfree
    | inLookup => rw [hpc] at hfree; cases hfree
    | store x => rw [hpc] at hfree; cases hfree
    | unlock r => rw [hpc] at hfree; cases hfree

/-- Every step brings its caller strictly closer to its return. -/
theorem step_rank (s s1 : Sys V E σ) (i now : Nat) (h : step s i now = some s1) :
    (s1.pc i).rank < (s.pc i).rank := by
  obtain ⟨_, ht⟩ := step_trans s s1 i now h
  cases ht <;> simp_all [Sys.goto, Sys.withCache, PC.rank]

/-- Termination: every step strictly decreases the fuel of the system. -/
theorem step_fuel (s s1 : Sys V E σ) (i now : Nat) (h : step s i now = some s1) :
    s1.fuel < s.fuel := by
  obtain ⟨hi, hn, _, _, hpc, _⟩ := step_shape s s1 i now h
  have hr := step_rank s s1 i now h
  unfold Sys.fuel
  rw [hn]
  apply Finset.sum_lt_sum
  · intro j _
    by_cases hji : j = i
    · subst hji; exact le_of_lt hr
    · rw [hpc j hji]
  · exact ⟨i, Finset.mem_range.mpr hi, hr⟩

/-- Every state that satisfies the mutual-exclusion invariant can be driven to
the end: some continuation, all of whose events read the clock at `t0`, lets
every caller return. -/
theorem MutexInv.completion (t0 : Nat) (m : Nat) (s : Sys V E σ) (hm : s.fuel ≤ m)
    (inv : MutexInv s) :
    ∃ more : List Event, (∀ e ∈ more, e.time = t0) ∧ (run s more).allDone = true := by
  induction m generalizing s with
  | zero =>
    cases hd : s.allDone with
    | true => exact ⟨[], by simp, hd⟩
    | false =>
      obtain ⟨i, _, hen⟩ := inv.progress s hd
      obtain ⟨s1, hs1⟩ := Option.isSome_iff_exists.mp (hen t0)
      have := step_fuel s s1 i t0 hs1
      omega
  | succ m ih =>
    cases hd : s.allDone with
    | true => exact ⟨[], by simp, hd⟩
    | false =>
      obtain ⟨i, _, hen⟩ := inv.progress s hd
      obtain ⟨s1, hs1⟩ := Option.isSome_iff_exists.mp (hen t0)
      have hlt := step_fuel s s1 i t0 hs1
      obtain ⟨more, hmore, hdone⟩ := ih s1 (by omega) (mutexInv_step s s1 i t0 hs1 inv)
      refine ⟨Event.caller i t0 :: more, ?_, ?_⟩
      · intro e he
        rcases List.mem_cons.mp he with rfl | he
        · rfl
        · exact hmore e he
      · simpa [run, fire, hs1] using hdone

/-- The two embeddings agree: one caller run alone through the interleaving
model ends with the result, the provider, the world and the lookup trace of the
sequential `Get`, and with the mutex free. -/
theorem solo_run_eq_Get (c : Provider V E σ) (clk : Clock) (k : String) (w : σ) :
    (run (Sys.init c w 1 (fun _ => k)) (soloEvents clk)).pc 0 = .done (c.Get clk k w).result ∧
    (run (Sys.init c w 1 (fun _ => k)) (soloEvents clk)).provider = (c.Get clk k w).provider ∧
    (run (Sys.init c w 1 (fun _ => k)) (soloEvents clk)).world = (c.Get clk k w).world ∧
    (run (Sys.init c w 1 (fun _ => k)) (soloEvents clk)).calls =
      (c.Get clk k w).invoked.map (fun a => (0, a)) ∧
    (run (Sys.init c w 1 (fun _ => k)) (soloEvents clk)).mutex = false := by
  rcases Provider.Get_cases c clk k w with ⟨x, hg, h⟩ | ⟨hm, x, hg, h⟩ |
    ⟨hm, hm2, ⟨hf, h⟩ | ⟨g, x, e1, w1, hf, hr, h⟩ | ⟨g, x, w1, hf, hr, h⟩⟩
  · rw [h]
    simp [soloEvents, run, fire, step, Sys.init, Sys.goto, Sys.withCache, hg]
  · rw [h]
    have hm1 := Cache.Get_miss_eq _ _ _ hm
    simp [soloEvents, run, fire, step, Sys.init, Sys.goto, Sys.withCache, hg, hm1]
  · rw [h]
    have hm1 := Cache.Get_miss_eq _ _ _ hm
    have hm3 := Cache.Get_miss_eq _ _ _ hm2
    simp [soloEvents, run, fire, step, Sys.init, Sys.goto, Sys.withCache, hm1, hm3, hf]
  · rw [h]
    have hm1 := Cache.Get_miss_eq _ _ _ hm
    have hm3 := Cache.Get_miss_eq _ _ _ hm2
    simp [soloEvents, run, fire, step, Sys.init, Sys.goto, Sys.withCache, hm1, hm3, hf, hr]
  · rw [h]
    have hm1 := Cache.Get_miss_eq _ _ _ hm
    have hm3 := Cache.Get_miss_eq _ _ _ hm2
    simp [soloEvents, run, fire, step, Sys.init, Sys.goto, Sys.withCache, hm1, hm3, hf, hr]

end inmemory

/-! ## The interleaving model: deduplication -/

namespace inmemory

open gocache

variable {V E σ : Type}

/-- A read that hits, on a map whose entry for `k` is absent or populated with
`v`, returns `v`, and the map is populated. -/
theorem Populated.of_hit (T : Nat → Prop) (v x : Option V) (k : String) (c : Cache V) (now : Nat)
    (hentry : c.items k = none ∨ Populated T v k c) (hg : c.Get now k = (x, true)) :
    x = v ∧ Populated T v k c := by
  obtain ⟨item, hi, _, hget⟩ := Cache.Get_hit_inv c now k (by rw [hg])
  rcases hentry with h0 | hp
  · rw [h0] at hi; cases hi
  · refine ⟨?_, hp⟩
    obtain ⟨e, he, _⟩ := hp
    rw [he] at hi
    cases hi
    rw [hg] at hget
    simp only [Prod.mk.injEq, and_true] at hget
    exact hget

/-- A read that misses at a reading of `T`, on such a map, finds no entry. -/
theorem Populated.of_miss (T : Nat → Prop) (v : Option V) (k : String) (c : Cache V) (now : Nat)
    (hnow : T now) (hentry : c.items k = none ∨ Populated T v k c)
    (hg : (c.Get now k).2 = false) : c.items k = none := by
  rcases hentry with h0 | ⟨e, he, hlive⟩
  · exact h0
  · rw [Cache.Get_of_live c now k _ he (hlive now hnow)] at hg
    cases hg

/-- The store populates the map, when the readings of `T` lie within one
time-to-live of each other. -/
theorem Populated.of_store (T : Nat → Prop) (v : Option V) (k : String) (c : Cache V) (now : Nat)
    (hnow : T now)
    (hT : ∀ t t1, T t → T t1 → 0 < c.defaultExpiration → (t1 : Int) ≤ (t : Int) + c.defaultExpiration) :
    Populated T v k (c.SetDefault now k v) := by
  by_cases hd : 0 < c.defaultExpiration
  · refine ⟨(now : Int) + c.defaultExpiration, SetDefault_items c now k v hd, ?_⟩
    intro t ht
    exact expiredAt_false_of_le v _ t (hT now t hnow ht hd)
  · refine ⟨0, by simp [Cache.SetDefault, Cache.Set, DefaultExpiration, hd], ?_⟩
    intro t _
    simp [Item.expiredAt]

/-- A sweep at a reading of `T` keeps an absent entry absent and a populated
map populated. -/
theorem Populated.of_sweep (T : Nat → Prop) (v : Option V) (k : String) (c : Cache V) (now : Nat)
    (hnow : T now) :
    (c.items k = none → (c.DeleteExpired now).items k = none) ∧
    (Populated T v k c → Populated T v k (c.DeleteExpired now)) := by
  constructor
  · intro h
    simp [Cache.DeleteExpired, h]
  · rintro ⟨e, he, hlive⟩
    exact ⟨e, by simp [Cache.DeleteExpired, he, hlive now hnow], hlive⟩

/-- The invariant is kept by a step that moves one caller to a good program
point and changes neither the trace nor the map. -/
theorem dedupInv_goto (T : Nat → Prop) (f : Lookup V E σ) (v : Option V) (k : String)
    (s s1 : Sys V E σ) (i : Nat) (p : PC V E) (inv : DedupInv T f v k s) (hmi : MutexInv s1)
    (hkey : s1.key = s.key) (hprov : s1.provider = s.provider) (hcalls : s1.calls = s.calls)
    (hpc : ∀ j, s1.pc j = if j = i then p else s.pc j)
    (hpend : (s.pc i = .inLookup ∨ ∃ x, s.pc i = .store x) → (p = .inLookup ∨ ∃ x, p = .store x))
    (hgood : PCGood T v k s.calls s.provider.cache p) : DedupInv T f v k s1 := by
  refine ⟨hmi, ?_, ?_, ?_, ?_, ?_, ?_, ?_, ?_, ?_, ?_, ?_⟩
  · intro j; rw [hkey]; exact inv.keys j
  · rw [hprov]; exact inv.lookup
  · rw [hcalls]; exact inv.once
  · rw [hprov]; exact inv.entry
  · rw [hprov, hcalls]; exact inv.popCalls
  · rw [hprov, hcalls]
    intro h0 hne
    obtain ⟨j, hj⟩ := inv.pending h0 hne
    by_cases hji : j = i
    · subst hji
      exact ⟨j, by rw [hpc j, if_pos rfl]; exact hpend hj⟩
    · exact ⟨j, by rw [hpc j, if_neg hji]; exact hj⟩
  · intro j hj
    rw [hcalls]
    rw [hpc j] at hj
    by_cases hji : j = i
    · rw [if_pos hji] at hj; subst hj; exact hgood
    · rw [if_neg hji] at hj; exact inv.atCall j hj
  · intro j hj
    rw [hcalls]
    rw [hpc j] at hj
    by_cases hji : j = i
    · rw [if_pos hji] at hj; subst hj; exact hgood
    · rw [if_neg hji] at hj; exact inv.atInLookup j hj
  · intro j x hj
    rw [hcalls]
    rw [hpc j] at hj
    by_cases hji : j = i
    · rw [if_pos hji] at hj; subst hj; exact hgood
    · rw [if_neg hji] at hj; exact inv.atStore j x hj
  · intro j r hj
    rw [hprov]
    rw [hpc j] at hj
    by_cases hji : j = i
    · rw [if_pos hji] at hj; subst hj; exact hgood
    · rw [if_neg hji] at hj; exact inv.atUnlock j r hj
  · intro j r hj
    rw [hprov]
    rw [hpc j] at hj
    by_cases hji : j = i
    · rw [if_pos hji] at hj; subst hj; exact hgood
    · rw [if_neg hji] at hj; exact inv.atDone j r hj

/-- The deduplication invariant is kept by every caller step taken at a clock
reading of `T`, provided the lookup always succeeds with `v` and the readings
of `T` lie within one time-to-live of each other. -/
theorem dedupInv_step (T : Nat → Prop) (f : Lookup V E σ) (v : Option V) (k : String)
    (s s1 : Sys V E σ) (i now : Nat)
    (hv : ∀ w1, (f k w1).1 = (v, none))
    (hT : ∀ t t1, T t → T t1 → 0 < s.provider.cache.defaultExpiration →
      (t1 : Int) ≤ (t : Int) + s.provider.cache.defaultExpiration)
    (hnow : T now) (h : step s i now = some s1) (inv : DedupInv T f v k s) :
    DedupInv T f v k s1 := by
  have hmi := mutexInv_step s s1 i now h inv.mutexInv
  obtain ⟨_, ht⟩ := step_trans s s1 i now h
  have hk := inv.keys i
  cases ht with
  | hit x hp hg =>
    rw [hk] at hg
    obtain ⟨hx, hpop⟩ := Populated.of_hit T v x k _ now inv.entry hg
    subst hx
    exact dedupInv_goto T f x k s _ i _ inv hmi rfl rfl rfl (fun j => rfl)
      (by rw [hp]; simp) ⟨rfl, hpop⟩
  | miss hp hg =>
    exact dedupInv_goto T f v k s _ i _ inv hmi rfl rfl rfl (fun j => rfl)
      (by rw [hp]; simp) trivial
  | lock hp hm =>
    exact dedupInv_goto T f v k s _ i _ inv hmi rfl rfl rfl (fun j => rfl)
      (by rw [hp]; simp) trivial
  | rehit x hp hg =>
    rw [hk] at hg
    obtain ⟨hx, hpop⟩ := Populated.of_hit T v x k _ now inv.entry hg
    subst hx
    exact dedupInv_goto T f x k s _ i _ inv hmi rfl rfl rfl (fun j => rfl)
      (by rw [hp]; simp) ⟨rfl, hpop⟩
  | remiss hp hg =>
    rw [hk] at hg
    have h0 := Populated.of_miss T v k _ now hnow inv.entry hg
    have hc : s.calls = [] := by
      by_contra hne
      obtain ⟨j, hj⟩ := inv.pending h0 hne
      have hji : j = i := inv.mutexInv.unique j i
        (by rcases hj with hj | ⟨x, hj⟩ <;> rw [hj] <;> rfl) (by rw [hp]; rfl)
      subst hji
      rw [hp] at hj
      simp at hj
    exact dedupInv_goto T f v k s _ i _ inv hmi rfl rfl rfl (fun j => rfl)
      (by rw [hp]; simp) hc
  | callNil hp hf =>
    rw [inv.lookup] at hf; cases hf
  | call g hp hf =>
    have hc0 : s.calls = [] := inv.atCall i hp
    have hothers : ∀ j, j ≠ i → (s.pc j).holds = false := by
      intro j hji
      cases hx : (s.pc j).holds with
      | false => rfl
      | true => exact absurd (inv.mutexInv.unique j i hx (by rw [hp]; rfl)) hji
    refine ⟨hmi, inv.keys, inv.lookup, Or.inr ⟨i, by simp [Sys.goto, hc0, hk]⟩, inv.entry,
      fun _ => by simp [Sys.goto], fun _ _ => ⟨i, Or.inl (by simp [Sys.goto])⟩, ?_, ?_, ?_, ?_, ?_⟩
    · intro j hj
      by_cases hji : j = i
      · subst hji; simp [Sys.goto] at hj
      · have := hothers j hji
        simp only [Sys.goto, if_neg hji] at hj
        rw [hj] at this; cases this
    · intro j _
      simp [Sys.goto]
    · intro j x hj
      by_cases hji : j = i
      · subst hji; simp [Sys.goto] at hj
      · simp only [Sys.goto, if_neg hji] at hj
        exact ⟨(inv.atStore j x hj).1, by simp⟩
    · intro j r hj
      by_cases hji : j = i
      · subst hji; simp [Sys.goto] at hj
      · simp only [Sys.goto, if_neg hji] at hj
        exact inv.atUnlock j r hj
    · intro j r hj
      by_cases hji : j = i
      · subst hji; simp [Sys.goto] at hj
      · simp only [Sys.goto, if_neg hji] at hj
        exact inv.atDone j r hj
  | retNil hp hf =>
    rw [inv.lookup] at hf; cases hf
  | retErr g x e w1 hp hf hr =>
    rw [inv.lookup] at hf
    cases hf
    have := hv s.world
    rw [hk] at hr
    rw [hr] at this
    simp at this
  | retOk g x w1 hp hf hr =>
    rw [inv.lookup] at hf
    cases hf
    have hx := hv s.world
    rw [hk] at hr
    rw [hr] at hx
    simp only [Prod.mk.injEq, and_true] at hx
    exact dedupInv_goto T f v k s _ i _ inv hmi rfl rfl rfl (fun j => rfl)
      (fun _ => Or.inr ⟨x, rfl⟩) ⟨hx, inv.atInLookup i hp⟩
  | store x hp =>
    obtain ⟨hx, hne⟩ := inv.atStore i x hp
    subst hx
    have hpop : Populated T x k (s.provider.cache.SetDefault now (s.key i) x) := by
      rw [hk]
      exact Populated.of_store T x k _ now hnow hT
    refine ⟨hmi, inv.keys, inv.lookup, inv.once, Or.inr hpop, fun _ => hne, ?_,
      ?_, ?_, ?_, ?_, ?_⟩
    · intro h0
      obtain ⟨e, he, _⟩ := hpop
      simp only [Sys.withCache] at h0
      rw [he] at h0; cases h0
    · intro j hj
      by_cases hji : j = i
      · subst hji; simp [Sys.goto, Sys.withCache] at hj
      · simp only [Sys.goto, Sys.withCache, if_neg hji] at hj
        exact inv.atCall j hj
    · intro j _
      exact hne
    · intro j y hj
      by_cases hji : j = i
      · subst hji; simp [Sys.goto, Sys.withCache] at hj
      · simp only [Sys.goto, Sys.withCache, if_neg hji] at hj
        exact inv.atStore j y hj
    · intro j r hj
      by_cases hji : j = i
      · subst hji
        simp only [Sys.goto, Sys.withCache, if_true, PC.unlock.injEq] at hj
        exact ⟨hj.symm, hpop⟩
      · simp only [Sys.goto, Sys.withCache, if_neg hji] at hj
        exact ⟨(inv.atUnlock j r hj).1, hpop⟩
    · intro j r hj
      by_cases hji : j = i
      · subst hji; simp [Sys.goto, Sys.withCache] at hj
      · simp only [Sys.goto, Sys.withCache, if_neg hji] at hj
        exact ⟨(inv.atDone j r hj).1, hpop⟩
  | unlock r hp =>
    exact dedupInv_goto T f v k s _ i _ inv hmi rfl rfl rfl (fun j => rfl)
      (by rw [hp]; simp) (inv.atUnlock i r hp)

/-- The deduplication invariant holds initially, when the map has no entry for `k`. -/
theorem dedupInv_init (T : Nat → Prop) (f : Lookup V E σ) (v : Option V) (k : String)
    (c : Provider V E σ) (w : σ) (n : Nat) (hf : c.lookup = some f)
    (hnone : c.cache.items k = none) : DedupInv T f v k (Sys.init c w n (fun _ => k)) where
  mutexInv := mutexInv_init c w n _
  keys := fun _ => rfl
  lookup := hf
  once := Or.inl rfl
  entry := Or.inl hnone
  popCalls := fun ⟨e, he, _⟩ => by
    simp only [Sys.init] at he
    rw [hnone] at he; cases he
  pending := fun _ h => absurd rfl h
  atCall := fun _ _ => rfl
  atInLookup := fun i h => by simp [Sys.init] at h
  atStore := fun i x h => by simp [Sys.init] at h
  atUnlock := fun i r h => by simp [Sys.init] at h
  atDone := fun i r h => by simp [Sys.init] at h

/-- The deduplication invariant is kept by every event that reads the clock inside `T`. -/
theorem dedupInv_fire (T : Nat → Prop) (f : Lookup V E σ) (v : Option V) (k : String)
    (s : Sys V E σ) (ev : Event)
    (hv : ∀ w1, (f k w1).1 = (v, none))
    (hT : ∀ t t1, T t → T t1 → 0 < s.provider.cache.defaultExpiration →
      (t1 : Int) ≤ (t : Int) + s.provider.cache.defaultExpiration)
    (hnow : T ev.time) (inv : DedupInv T f v k s) : DedupInv T f v k (fire s ev) := by
  cases ev with
  | caller i now =>
    cases h : step s i now with
    | none => simpa [fire, h] using inv
    | some s1 => simpa [fire, h] using dedupInv_step T f v k s s1 i now hv hT hnow h inv
  | sweep now =>
    simp only [fire]
    split
    · exact inv
    · have hsw := Populated.of_sweep T v k s.provider.cache now hnow
      have hentry : (s.provider.cache.DeleteExpired now).items k = none ∨
          Populated T v k (s.provider.cache.DeleteExpired now) :=
        inv.entry.imp hsw.1 hsw.2
      refine ⟨⟨inv.mutexInv.outside, inv.mutexInv.unique, inv.mutexInv.free,
        inv.mutexInv.held⟩, inv.keys, inv.lookup, inv.once, hentry, ?_, ?_, inv.atCall,
        inv.atInLookup, inv.atStore, ?_, ?_⟩
      · intro hp1
        rcases inv.entry with h0 | hp
        · obtain ⟨e, he, _⟩ := hp1
          have h1 := hsw.1 h0
          simp only [Sys.withCache] at he
          rw [h1] at he; cases he
        · exact inv.popCalls hp
      · intro h0 hne
        rcases inv.entry with h1 | hp
        · exact inv.pending h1 hne
        · obtain ⟨e, he, _⟩ := hsw.2 hp
          simp only [Sys.withCache] at h0
          rw [he] at h0; cases h0
      · intro j r hj
        exact ⟨(inv.atUnlock j r hj).1, hsw.2 (inv.atUnlock j r hj).2⟩
      · intro j r hj
        exact ⟨(inv.atDone j r hj).1, hsw.2 (inv.atDone j r hj).2⟩

/-- The deduplication invariant holds after every interleaving that reads the clock inside `T`. -/
theorem dedupInv_run (T : Nat → Prop) (f : Lookup V E σ) (v : Option V) (k : String)
    (d : Int) (evs : List Event) (s : Sys V E σ)
    (hv : ∀ w1, (f k w1).1 = (v, none))
    (hd : s.provider.cache.defaultExpiration = d)
    (hT : ∀ t t1, T t → T t1 → 0 < d → (t1 : Int) ≤ (t : Int) + d)
    (hev : ∀ ev ∈ evs, T ev.time) (inv : DedupInv T f v k s) :
    DedupInv T f v k (run s evs) := by
  induction evs generalizing s with
  | nil => exact inv
  | cons ev rest ih =>
    have hd1 : (fire s ev).provider.cache.defaultExpiration = d :=
      (fire_frame s ev).2.2.2.1.trans hd
    exact ih (fire s ev) hd1 (fun e he => hev e (List.mem_cons_of_mem ev he))
      (dedupInv_fire T f v k s ev hv (by rw [hd]; exact hT)
        (hev ev (List.mem_cons_self ev rest)) inv)

end inmemory

/-! ## The contract of `Get` under contention -/

namespace inmemory

open gocache

variable {V E σ : Type}

/-- C8 (deduplication under contention). Let `n ≥ 1` callers call `Get(k)` at
once on a provider whose map holds no entry for `k` and whose lookup `f`
succeeds with `v` whenever it is invoked for `k`. Let `evs` be any interleaving
of caller steps and sweeps whose clock readings all lie in one window
`[t0, t0 + ttl]` (the time-to-live does not elapse; no condition when entries
never expire). Then in the state reached: (1) the lookup function has been
invoked at most once; (2) every caller that has returned has returned
`(v, nil)`; (3) if all `n` callers have returned, the lookup function has been
invoked exactly once, with `k`, and all `n` calls returned `(v, nil)`; (4) if
not all callers have returned, some caller can take a step, whatever the clock
reads; (5) every step strictly decreases the fuel, which (6) starts at `7 * n`,
so that an interleaving has at most `7 * n` caller steps; (7) the interleaving
can be continued inside the window to one in which all `n` callers have
returned. -/
theorem dedup_under_contention (c : Provider V E σ) (f : Lookup V E σ) (v : Option V)
    (k : String) (w : σ) (n : Nat) (t0 : Nat) (evs : List Event)
    (hn : 1 ≤ n) (hf : c.lookup = some f) (hnone : c.cache.items k = none)
    (hv : ∀ w1, (f k w1).1 = (v, none))
    (hwin : ∀ e ∈ evs, t0 ≤ e.time ∧ (0 < c.cache.defaultExpiration →
      (e.time : Int) ≤ (t0 : Int) + c.cache.defaultExpiration)) :
    (run (Sys.init c w n (fun _ => k)) evs).calls.length ≤ 1 ∧
    (∀ i r, (run (Sys.init c w n (fun _ => k)) evs).pc i = .done r →
      r = .returned v none) ∧
    ((run (Sys.init c w n (fun _ => k)) evs).allDone = true →
      (∃ i, (run (Sys.init c w n (fun _ => k)) evs).calls = [(i, k)]) ∧
      ∀ i, i < n →
        (run (Sys.init c w n (fun _ => k)) evs).pc i = .done (.returned v none)) ∧
    ((run (Sys.init c w n (fun _ => k)) evs).allDone = false →
      ∃ i, i < n ∧ ∀ now, (step (run (Sys.init c w n (fun _ => k)) evs) i now).isSome = true) ∧
    (∀ i now s1, step (run (Sys.init c w n (fun _ => k)) evs) i now = some s1 →
      s1.fuel < (run (Sys.init c w n (fun _ => k)) evs).fuel) ∧
    (Sys.init c w n (fun _ => k)).fuel = 7 * n ∧
    (∃ more : List Event, (∀ e ∈ more, e.time = t0) ∧
      (run (Sys.init c w n (fun _ => k)) (evs ++ more)).allDone = true) := by
  let T : Nat → Prop := fun t => t0 ≤ t ∧ (0 < c.cache.defaultExpiration →
      (t : Int) ≤ (t0 : Int) + c.cache.defaultExpiration)
  have hT : ∀ t t1, T t → T t1 → 0 < c.cache.defaultExpiration →
      (t1 : Int) ≤ (t : Int) + c.cache.defaultExpiration := by
    intro t t1 ht ht1 hd
    have h1 := ht1.2 hd
    have h2 : (t0 : Int) ≤ (t : Int) := by exact_mod_cast ht.1
    omega
  have inv : DedupInv T f v k (run (Sys.init c w n (fun _ => k)) evs) :=
    dedupInv_run T f v k c.cache.defaultExpiration evs _ hv rfl hT hwin
      (dedupInv_init T f v k c w n hf hnone)
  have hN : (run (Sys.init c w n (fun _ => k)) evs).n = n := (run_frame evs _).1
  have hdone : ∀ i r, (run (Sys.init c w n (fun _ => k)) evs).pc i = .done r →
      r = .returned v none := fun i r h => (inv.atDone i r h).1
  refine ⟨?_, hdone, ?_, ?_, ?_, ?_, ?_⟩
  · rcases inv.once with h | ⟨i, h⟩ <;> rw [h] <;> simp
  · intro hall
    have hpc : ∀ i, i < n →
        (run (Sys.init c w n (fun _ => k)) evs).pc i = .done (.returned v none) := by
      intro i hi
      have hd : ((run (Sys.init c w n (fun _ => k)) evs).pc i).isDone = true := by
        simp only [Sys.allDone, List.all_eq_true, List.mem_range, hN] at hall
        exact hall i hi
      cases hp : (run (Sys.init c w n (fun _ => k)) evs).pc i with
      | done r => rw [hdone i r hp]
      | check => rw [hp] at hd; cases hd
      | lock => rw [hp] at hd; cases hd
      | recheck => rw [hp] at hd; cases hd
      | call => rw [hp] at hd; cases hd
      | inLookup => rw [hp] at hd; cases hd
      | store x => rw [hp] at hd; cases hd
      | unlock r => rw [hp] at hd; cases hd
    refine ⟨?_, hpc⟩
    have hpop := (inv.atDone 0 _ (hpc 0 (by omega))).2
    rcases inv.once with h | h
    · exact absurd h (inv.popCalls hpop)
    · exact h
  · intro hnd
    obtain ⟨i, hi, hen⟩ := inv.mutexInv.progress _ hnd
    exact ⟨i, by rw [← hN]; exact hi, hen⟩
  · intro i now s1 h
    exact step_fuel _ s1 i now h
  · simp [Sys.fuel, Sys.init, PC.rank, mul_comm]
  · obtain ⟨more, hmore, hd⟩ := MutexInv.completion t0 _ _ (le_refl _) inv.mutexInv
    exact ⟨more, hmore, by rw [run_append]; exact hd⟩

/-- Witness of C8 (Scenario B, with three callers): in the interleaving
`exInterleaving` all three callers return `"value"` and the lookup function is
invoked once. -/
theorem dedup_under_contention_witness :
    (run (Sys.init exShared 0 3 (fun _ => "shared-key")) exInterleaving).allDone = true ∧
    (∃ i, (run (Sys.init exShared 0 3 (fun _ => "shared-key")) exInterleaving).calls =
      [(i, "shared-key")]) ∧
    ∀ i, i < 3 → (run (Sys.init exShared 0 3 (fun _ => "shared-key")) exInterleaving).pc i =
      .done (.returned (some "value") none) :=
  have h := dedup_under_contention exShared exValueLookup (some "value") "shared-key" 0 3 0
    exInterleaving (by decide) rfl rfl (fun _ => rfl) (by decide)
  ⟨by decide, h.2.2.1 (by decide)⟩

/-- C9 (at most one population in flight). In the interleaving model, from the
state in which any number `n` of callers have called `Get`, each with its own
key, on any provider, and after any interleaving `evs` of caller steps and
sweeps: (1) at most one caller stands between `Lock` and `Unlock`; (2) every
step that invokes the lookup function is taken by a caller that stands there,
hence by that one caller, and records that caller and its key; (3) at most one
lookup invocation is in flight, whatever the keys, hence at most one per key. -/
theorem at_most_one_population_in_flight (c : Provider V E σ) (w : σ) (n : Nat)
    (key : Nat → String) (evs : List Event) :
    (∀ i j, ((run (Sys.init c w n key) evs).pc i).holds = true →
        ((run (Sys.init c w n key) evs).pc j).holds = true → i = j) ∧
    (∀ i now s1, step (run (Sys.init c w n key) evs) i now = some s1 →
        s1.calls ≠ (run (Sys.init c w n key) evs).calls →
        ((run (Sys.init c w n key) evs).pc i).holds = true ∧
        (∀ j, ((run (Sys.init c w n key) evs).pc j).holds = true → j = i) ∧
        s1.calls = (run (Sys.init c w n key) evs).calls ++ [(i, key i)]) ∧
    (∀ i j, (run (Sys.init c w n key) evs).pc i = .inLookup →
        (run (Sys.init c w n key) evs).pc j = .inLookup → i = j) := by
  have inv := mutexInv_run evs _ (mutexInv_init c w n key)
  have hkey : (run (Sys.init c w n key) evs).key = key := (run_frame evs _).2.1
  refine ⟨inv.unique, ?_, ?_⟩
  · intro i now s1 hstep hne
    obtain ⟨hp, _, hcalls⟩ := step_calls _ s1 i now hstep hne
    have hh : ((run (Sys.init c w n key) evs).pc i).holds = true := by rw [hp]; rfl
    refine ⟨hh, fun j hj => inv.unique j i hj hh, ?_⟩
    rw [hcalls, hkey]
  · intro i j hi hj
    exact inv.unique i j (by rw [hi]; rfl) (by rw [hj]; rfl)

end inmemory

namespace inmemory

open gocache

/-- Contention is real in the model: after the first eight events of
`exInterleaving` caller 0 is inside the lookup with the mutex held, callers 1
and 2 stand at `Lock` and cannot move, and the lookup has been invoked once. -/
theorem exInterleaving_contention :
    (run (Sys.init exShared 0 3 (fun _ => "shared-key")) (exInterleaving.take 8)).pc 0 =
      .inLookup ∧
    (run (Sys.init exShared 0 3 (fun _ => "shared-key")) (exInterleaving.take 8)).mutex = true ∧
    (step (run (Sys.init exShared 0 3 (fun _ => "shared-key")) (exInterleaving.take 8))
      1 8).isSome = false ∧
    (step (run (Sys.init exShared 0 3 (fun _ => "shared-key")) (exInterleaving.take 8))
      2 8).isSome = false ∧
    (run (Sys.init exShared 0 3 (fun _ => "shared-key")) (exInterleaving.take 8)).calls =
      [(0, "shared-key")] := by
  decide

/-- The window is needed: with a time-to-live of 100, a second caller that
arrives at time 500, after the entry stored at time 2 has expired, makes the
lookup run a second time. -/
theorem expired_entry_is_looked_up_again :
    (run (Sys.init exShared 0 2 (fun _ => "shared-key"))
      [.caller 0 0, .caller 0 0, .caller 0 1, .caller 0 1, .caller 0 1, .caller 0 2,
       .caller 0 2, .caller 1 500, .caller 1 500, .caller 1 500, .caller 1 500,
       .caller 1 500, .caller 1 500, .caller 1 500]).calls =
      [(0, "shared-key"), (1, "shared-key")] := by
  decide

end inmemory

/-! ## Construction, and what the cache returns over a history -/

namespace inmemory

open gocache

variable {V E σ : Type}

/-- Counterexample to C11: `NewProvider` called with a nil lookup function, an
expiration of 100 and a cleanup interval of 10 returns a nil error. -/
theorem newProvider_nil_lookup_counterexample :
    (NewProvider (none : Option (Lookup Nat String Nat)) 100 10 :
      Provider Nat String Nat × Option String).2 = none := rfl

/-- C11, as amended. `NewProvider` does not validate its lookup argument: for
every expiration and cleanup interval, `NewProvider(nil, ...)` returns a nil
error and a provider whose lookup is nil and whose map is empty; the missing
function surfaces only at the first `Get`, which misses and panics at the call
of the nil function, leaving the provider as it was. -/
theorem newProvider_accepts_nil_lookup (expiration cleanupInterval : Int) (clk : Clock)
    (k : String) (w : σ) :
    (NewProvider (none : Option (Lookup V E σ)) expiration cleanupInterval :
      Provider V E σ × Option E).2 = none ∧
    (NewProvider (none : Option (Lookup V E σ)) expiration cleanupInterval :
      Provider V E σ × Option E).1.lookup = none ∧
    ((NewProvider (none : Option (Lookup V E σ)) expiration cleanupInterval :
      Provider V E σ × Option E).1.Get clk k w).result = .panicked ∧
    ((NewProvider (none : Option (Lookup V E σ)) expiration cleanupInterval :
      Provider V E σ × Option E).1.Get clk k w).provider =
      (NewProvider (none : Option (Lookup V E σ)) expiration cleanupInterval :
        Provider V E σ × Option E).1 := by
  refine ⟨rfl, rfl, ?_, ?_⟩ <;>
    rw [Provider.Get_of_miss_nil _ clk k w (by rfl) (by rfl) rfl]

/-- Counterexample to C12: `NewProvider` called with a lookup function and a
cleanup interval of 0 returns a nil error. -/
theorem newProvider_zero_cleanup_counterexample :
    (NewProvider (some exLookup) 100 0 : Provider Nat String Nat × Option String).2 = none :=
  rfl

/-- C12, as amended. `NewProvider` does not validate its cleanup interval: for
every lookup function, every expiration and every cleanup interval that is not
positive it returns a nil error and a provider with that lookup, whose map is
built without a janitor. -/
theorem newProvider_accepts_any_cleanup (f : Lookup V E σ) (expiration cleanupInterval : Int)
    (hci : cleanupInterval ≤ 0) :
    (NewProvider (some f) expiration cleanupInterval : Provider V E σ × Option E).2 = none ∧
    (NewProvider (some f) expiration cleanupInterval : Provider V E σ × Option E).1.lookup =
      some f ∧
    (NewProvider (some f) expiration cleanupInterval :
      Provider V E σ × Option E).1.cache.janitor = none := by
  refine ⟨rfl, rfl, ?_⟩
  have : ¬ cleanupInterval > 0 := by omega
  simp [NewProvider, New, this]

/-- Witness of C12 as amended: a cleanup interval of 0. -/
theorem newProvider_accepts_any_cleanup_witness :
    (NewProvider (some exLookup) 100 0 : Provider Nat String Nat × Option String).2 = none ∧
    (NewProvider (some exLookup) 100 0 : Provider Nat String Nat × Option String).1.lookup =
      some exLookup ∧
    (NewProvider (some exLookup) 100 0 :
      Provider Nat String Nat × Option String).1.cache.janitor = none :=
  newProvider_accepts_any_cleanup exLookup 100 0 (by decide)

end inmemory

namespace inmemory

open gocache

variable {V E σ : Type}

/-- The entry `SetDefault` writes when the default time-to-live is not
positive: one that never expires. -/
theorem SetDefault_items_forever (c : Cache V) (now : Nat) (k : String) (x : Option V)
    (h : c.defaultExpiration ≤ 0) :
    (c.SetDefault now k x).items k = some ⟨x, 0⟩ := by
  have h1 : ¬ 0 < c.defaultExpiration := by omega
  simp [Cache.SetDefault, Cache.Set, DefaultExpiration, h1]

/-- Counterexample to C13: on the provider built by `NewProvider` with
expiration 0, `Get("x")` at time 0 populates with the value 0, and `Get("x")` at
time 1000 invokes no lookup and returns the cached 0, where a fresh lookup
would have produced 1. -/
theorem ttl_zero_counterexample :
    (exZero.Get (Clock.instant 0) "x" 0).invoked = ["x"] ∧
    (exZero.Get (Clock.instant 0) "x" 0).result = .returned (some 0) none ∧
    ((exZero.Get (Clock.instant 0) "x" 0).provider.Get (Clock.instant 1000) "x" 1).invoked =
      [] ∧
    ((exZero.Get (Clock.instant 0) "x" 0).provider.Get (Clock.instant 1000) "x" 1).result =
      .returned (some 0) none ∧
    (exLookup "x" 1).1 = (some 1, none) := by
  decide

/-- C13, as amended. For a provider built by `NewProvider` with expiration 0,
after any history: if `Get(k)` misses at both of its reads and the lookup
succeeds with `v`, the map holds for `k` the entry `(v, 0)`, which never
expires, and every later `Get(k)` on it, at whatever clock readings, returns
`(v, nil)` with no lookup invocation and no change of state. -/
theorem ttl_zero_never_expires (f : Lookup V E σ) (ci : Int) (hist : List Op)
    (w0 : σ) (c : Provider V E σ) (clk : Clock) (k : String) (w : σ) (v : Option V) (w1 : σ)
    (hc : c = ((NewProvider (some f) 0 ci).1.after w0 hist).1)
    (hmiss : (c.cache.Get clk.atCheck k).2 = false)
    (hmiss2 : (c.cache.Get clk.atRecheck k).2 = false)
    (hok : f k w = ((v, none), w1)) :
    (c.Get clk k w).provider.cache.items k = some ⟨v, 0⟩ ∧
      ∀ (clk1 : Clock) (w2 : σ),
        ((c.Get clk k w).provider.Get clk1 k w2).result = .returned v none ∧
        ((c.Get clk k w).provider.Get clk1 k w2).invoked = [] ∧
        ((c.Get clk k w).provider.Get clk1 k w2).world = w2 ∧
        ((c.Get clk k w).provider.Get clk1 k w2).provider = (c.Get clk k w).provider := by
  have hcfg := Provider.after_config hist
    (NewProvider (some f) 0 ci : Provider V E σ × Option E).1 w0
  rw [← hc] at hcfg
  have hd : c.cache.defaultExpiration ≤ 0 := by
    rw [hcfg.2]
    simp [NewProvider, New, NoExpiration]
  have hl : c.lookup = some f := hcfg.1
  rw [Provider.Get_of_miss_ok c clk k w f v w1 hmiss hmiss2 hl hok]
  have hitem : (c.cache.SetDefault clk.atStore k v).items k = some ⟨v, 0⟩ :=
    SetDefault_items_forever c.cache clk.atStore k v hd
  refine ⟨hitem, ?_⟩
  intro clk1 w2
  have hlive : (Item.mk v 0).expiredAt clk1.atCheck = false := by simp [Item.expiredAt]
  have hget := Cache.Get_of_live _ clk1.atCheck k _ hitem hlive
  rw [Provider.Get_of_hit _ clk1 k w2 v hget]
  exact ⟨rfl, rfl, rfl, rfl⟩

/-- Witness of C13 as amended: the provider `exZero`, populated at time 0 and
read at time 1000. -/
theorem ttl_zero_never_expires_witness :
    (exZero.Get (Clock.instant 0) "x" 0).provider.cache.items "x" = some ⟨some 0, 0⟩ ∧
    ((exZero.Get (Clock.instant 0) "x" 0).provider.Get (Clock.instant 1000) "x" 1).result =
      .returned (some 0) none ∧
    ((exZero.Get (Clock.instant 0) "x" 0).provider.Get (Clock.instant 1000) "x" 1).invoked =
      [] :=
  have h := ttl_zero_never_expires exLookup 10 [] 0 exZero (Clock.instant 0) "x" 0 (some 0) 1
    rfl rfl rfl rfl
  ⟨h.1, (h.2 (Clock.instant 1000) 1).1, (h.2 (Clock.instant 1000) 1).2.1⟩

end inmemory
namespace inmemory

open gocache

variable {V E σ : Type}

/-- The bookkeeping does not change what a history does to the provider and
the world. -/
theorem Provider.afterG_after (hist : List Op) (c : Provider V E σ) (w : σ) (g : Produced V) :
    ((c.afterG w g hist).1, (c.afterG w g hist).2.1) = c.after w hist := by
  induction hist generalizing c w g with
  | nil => rfl
  | cons op rest ih =>
    cases op with
    | get clk key => exact ih _ _ _
    | sweep now => exact ih _ _ _

/-- One call of `Get` keeps the map and the bookkeeping in agreement, and a
value it returns with a nil error is the one the bookkeeping then holds for the
key of the call. -/
theorem agrees_get (c : Provider V E σ) (g : Produced V) (clk : Clock) (k : String) (w : σ)
    (hag : Agrees c g) :
    Agrees (c.Get clk k w).provider (Produced.record c k w (c.Get clk k w) g) ∧
      ∀ v, (c.Get clk k w).result = .returned v none →
        Produced.record c k w (c.Get clk k w) g k = some v := by
  rcases Provider.Get_cases c clk k w with ⟨x, hg, h⟩ | ⟨_, x, hg, h⟩ |
    ⟨_, _, ⟨hf, h⟩ | ⟨f, x, e1, w1, hf, hr, h⟩ | ⟨f, x, w1, hf, hr, h⟩⟩
  · rw [h]
    refine ⟨hag, ?_⟩
    intro v hv
    obtain ⟨item, hi, _, hget⟩ := Cache.Get_hit_inv c.cache clk.atCheck k (by rw [hg])
    rw [hg] at hget
    simp only [Result.returned.injEq, and_true] at hv
    simp only [Prod.mk.injEq, and_true] at hget
    simp only [Produced.record, List.isEmpty_nil, if_true]
    rw [hag k item hi, ← hget, hv]
  · rw [h]
    refine ⟨hag, ?_⟩
    intro v hv
    obtain ⟨item, hi, _, hget⟩ := Cache.Get_hit_inv c.cache clk.atRecheck k (by rw [hg])
    rw [hg] at hget
    simp only [Result.returned.injEq, and_true] at hv
    simp only [Prod.mk.injEq, and_true] at hget
    simp only [Produced.record, List.isEmpty_nil, if_true]
    rw [hag k item hi, ← hget, hv]
  · rw [h]
    refine ⟨hag, ?_⟩
    intro v hv
    cases hv
  · rw [h]
    have hrec : Produced.record c k w ⟨.returned none (some e1), c, w1, [k]⟩ g = g := by
      simp [Produced.record, hf, hr]
    rw [hrec]
    refine ⟨hag, ?_⟩
    intro v hv
    simp at hv
  · rw [h]
    have hrec : Produced.record c k w ⟨.returned x none,
        { c with cache := c.cache.SetDefault clk.atStore k x }, w1, [k]⟩ g =
        fun j => if j = k then some x else g j := by
      simp [Produced.record, hf, hr]
    rw [hrec]
    constructor
    · intro j item hj
      by_cases hjk : j = k
      · subst hjk
        simp only [Cache.SetDefault, Cache.Set, if_true, Option.some.injEq] at hj
        simp [← hj]
      · simp only [Cache.SetDefault, Cache.Set, if_neg hjk] at hj
        simp only [if_neg hjk]
        exact hag j item hj
    · intro v hv
      simp only [Result.returned.injEq, and_true] at hv
      simp [hv]

/-- A sweep keeps the map and the bookkeeping in agreement. -/
theorem agrees_sweep (c : Provider V E σ) (g : Produced V) (now : Nat) (hag : Agrees c g) :
    Agrees { c with cache := c.cache.DeleteExpired now } g := by
  intro k item hk
  simp only [Cache.DeleteExpired] at hk
  cases hi : c.cache.items k with
  | none => simp [hi] at hk
  | some item0 =>
    rw [hi] at hk
    by_cases hx : item0.expiredAt now = true
    · simp [hx] at hk
    · simp only [hx] at hk
      cases hk
      exact hag k _ hi

/-- Every history keeps the map and the bookkeeping in agreement. -/
theorem agrees_afterG (hist : List Op) (c : Provider V E σ) (w : σ) (g : Produced V)
    (hag : Agrees c g) : Agrees (c.afterG w g hist).1 (c.afterG w g hist).2.2 := by
  induction hist generalizing c w g with
  | nil => exact hag
  | cons op rest ih =>
    cases op with
    | get clk key => exact ih _ _ _ (agrees_get c g clk key w hag).1
    | sweep now => exact ih _ _ _ (agrees_sweep c g now hag)

/-- C14 (value provenance). Take the provider built by `NewProvider`, whose map
is empty, run any finite sequential history of `Get` calls and sweeps on it,
with the bookkeeping of what the lookup function produced, and let `Get(k)` be
the next call. If it returns a value `v` with a nil error, then `v` is the
value most recently produced for the key `k` by a successful lookup invocation,
made during this call or an earlier call of the history; in particular it is
never a value produced for another key only, and never one the lookup function
did not return. -/
theorem value_provenance (lookup : Option (Lookup V E σ)) (expiration ci : Int)
    (hist : List Op) (w0 : σ) (c : Provider V E σ) (w : σ) (g : Produced V) (clk : Clock)
    (k : String) (v : Option V)
    (hrun : (NewProvider lookup expiration ci).1.afterG w0 (fun _ => none) hist = (c, w, g))
    (hret : (c.Get clk k w).result = .returned v none) :
    Produced.record c k w (c.Get clk k w) g k = some v := by
  have h0 : Agrees (NewProvider lookup expiration ci : Provider V E σ × Option E).1
      (fun _ => none) := by
    intro j item hj
    simp [NewProvider, New] at hj
  have h1 := agrees_afterG hist _ w0 _ h0
  rw [hrun] at h1
  exact (agrees_get c g clk k w h1).2 v hret

end inmemory
namespace inmemory

open gocache

/-- Witness of C14: after `exHistory` on the provider of Scenario A, `Get("x")`
at time 50 returns the value 0, which the lookup produced for `"x"` in the
first call of the history (the lookup produced 1 for `"y"`). -/
theorem value_provenance_witness :
    (((NewProvider (some exLookup) 100 10 : Provider Nat String Nat × Option String).1.afterG 0
      (fun _ => none) exHistory).1.Get (Clock.instant 50) "x"
      ((NewProvider (some exLookup) 100 10 : Provider Nat String Nat × Option String).1.afterG 0
        (fun _ => none) exHistory).2.1).result = .returned (some 0) none ∧
    Produced.record
      ((NewProvider (some exLookup) 100 10 : Provider Nat String Nat × Option String).1.afterG 0
        (fun _ => none) exHistory).1 "x"
      ((NewProvider (some exLookup) 100 10 : Provider Nat String Nat × Option String).1.afterG 0
        (fun _ => none) exHistory).2.1
      (((NewProvider (some exLookup) 100 10 : Provider Nat String Nat × Option String).1.afterG 0
        (fun _ => none) exHistory).1.Get (Clock.instant 50) "x"
        ((NewProvider (some exLookup) 100 10 : Provider Nat String Nat × Option String).1.afterG
          0 (fun _ => none) exHistory).2.1)
      ((NewProvider (some exLookup) 100 10 : Provider Nat String Nat × Option String).1.afterG 0
        (fun _ => none) exHistory).2.2 "x" = some (some 0) :=
  ⟨rfl, value_provenance (some exLookup) 100 10 exHistory 0 _ _ _ (Clock.instant 50) "x" (some 0)
    rfl rfl⟩

end inmemory

/-! ## Facts about splitting and about loops that append -/

namespace strings

/-- Splitting always yields at least one piece. -/
theorem splitChars_ne_nil (sep : Char) (l : List Char) : splitChars sep l ≠ [] := by
  cases l with
  | nil => simp [splitChars]
  | cons c cs =>
    simp only [splitChars]
    split
    · simp
    · split <;> simp

/-- The first piece is the text before the first separator. -/
theorem splitChars_head (sep : Char) (l : List Char) :
    (splitChars sep l).head? = some (l.takeWhile fun c => c ≠ sep) := by
  induction l with
  | nil => simp [splitChars]
  | cons c cs ih =>
    simp only [splitChars]
    by_cases hc : c = sep
    · simp [hc]
    · rw [if_neg hc]
      cases hs : splitChars sep cs with
      | nil => exact absurd hs (splitChars_ne_nil sep cs)
      | cons piece rest =>
        rw [hs] at ih
        simp only [List.head?_cons, Option.some.injEq] at ih
        simp [hc, ih]

/-- Without a separator there is no second piece. -/
theorem splitChars_second_none (sep : Char) (l : List Char) (h : sep ∉ l) :
    (splitChars sep l).get? 1 = none := by
  induction l with
  | nil => simp [splitChars]
  | cons c cs ih =>
    simp only [List.mem_cons, not_or] at h
    have hc : ¬ c = sep := fun e => h.1 e.symm
    simp only [splitChars, if_neg hc]
    cases hs : splitChars sep cs with
    | nil => exact absurd hs (splitChars_ne_nil sep cs)
    | cons piece rest =>
      have := ih h.2
      rw [hs] at this
      simpa using this

/-- With a separator, the second piece is the text between the first and the
second separator, or the end. -/
theorem splitChars_second_some (sep : Char) (l : List Char) (h : sep ∈ l) :
    (splitChars sep l).get? 1 =
      some (((l.dropWhile fun c => c ≠ sep).drop 1).takeWhile fun c => c ≠ sep) := by
  induction l with
  | nil => simp at h
  | cons c cs ih =>
    by_cases hc : c = sep
    · simp only [splitChars, if_pos hc]
      have := splitChars_head sep cs
      simp [hc, List.get?_cons_succ, this]
      cases hs : splitChars sep cs with
      | nil => exact absurd hs (splitChars_ne_nil sep cs)
      | cons piece rest =>
        rw [hs] at this
        simpa using this
    · have hmem : sep ∈ cs := by
        rcases List.mem_cons.mp h with e | e
        · exact absurd e.symm hc
        · exact e
      simp only [splitChars, if_neg hc]
      cases hs : splitChars sep cs with
      | nil => exact absurd hs (splitChars_ne_nil sep cs)
      | cons piece rest =>
        have := ih hmem
        rw [hs] at this
        simpa [hc] using this

/-- The first element of `Split`. -/
theorem Split_headD (s : String) (sep : Char) :
    (Split s sep).headD "" = String.mk (s.data.takeWhile fun c => c ≠ sep) := by
  have h := splitChars_head sep s.data
  unfold Split
  cases hs : splitChars sep s.data with
  | nil => exact absurd hs (splitChars_ne_nil sep s.data)
  | cons piece rest =>
    rw [hs] at h
    simp only [List.head?_cons, Option.some.injEq] at h
    simp [h]

/-- The element of index one of `Split`, when the separator occurs. -/
theorem Split_second_some (s : String) (sep : Char) (h : sep ∈ s.data) :
    (Split s sep).get? 1 =
      some (String.mk (((s.data.dropWhile fun c => c ≠ sep).drop 1).takeWhile
        fun c => c ≠ sep)) := by
  unfold Split
  rw [List.get?_eq_getElem?, List.getElem?_map, ← List.get?_eq_getElem?,
    splitChars_second_some sep s.data h]
  rfl

/-- `Split` has no element of index one when the separator does not occur. -/
theorem Split_second_none (s : String) (sep : Char) (h : sep ∉ s.data) :
    (Split s sep).get? 1 = none := by
  unfold Split
  rw [List.get?_eq_getElem?, List.getElem?_map, ← List.get?_eq_getElem?,
    splitChars_second_none sep s.data h]
  rfl

end strings

namespace httpmiddleware

/-- A loop whose every step appends to the accumulator a list that depends on
the element only, or panics, commutes with a prefix of the accumulator. -/
theorem foldlM_front {α β : Type} (step : List β → α → Option (List β))
    (G : α → Option (List β))
    (hstep : ∀ acc x, step acc x = (G x).map fun l => acc ++ l)
    (l : List α) (acc : List β) :
    l.foldlM step acc = (l.foldlM step []).map fun rest => acc ++ rest := by
  induction l generalizing acc with
  | nil => simp
  | cons x xs ih =>
    simp only [List.foldlM_cons, hstep]
    cases hg : G x with
    | none => simp
    | some g =>
      simp only [Option.map_some', Option.some_bind, Option.bind_eq_bind, List.nil_append]
      rw [ih (acc ++ g), ih g]
      cases xs.foldlM step [] with
      | none => rfl
      | some rest => simp [List.append_assoc]

/-- A loop whose every step appends to the accumulator at most one element, an
element that depends on the element of the list only, computes a `filterMap`. -/
theorem foldlM_filterMap {α β : Type} (step : List β → α → Option (List β))
    (g : α → Option β) (l : List α)
    (hstep : ∀ x ∈ l, ∀ acc, step acc x = some (acc ++ (g x).toList)) (acc : List β) :
    l.foldlM step acc = some (acc ++ l.filterMap g) := by
  induction l generalizing acc with
  | nil => simp
  | cons x xs ih =>
    simp only [List.foldlM_cons]
    rw [hstep x (List.mem_cons_self x xs) acc]
    simp only [Option.some_bind, Option.bind_eq_bind]
    rw [ih (fun y hy => hstep y (List.mem_cons_of_mem x hy))]
    cases hg : g x with
    | none => simp [List.filterMap_cons, hg]
    | some b => simp [List.filterMap_cons, hg]

/-- The number of elements a `filterMap` keeps. -/
theorem length_filterMap_eq {α β : Type} (g : α → Option β) (l : List α) :
    (l.filterMap g).length = (l.filter fun x => (g x).isSome).length := by
  induction l with
  | nil => rfl
  | cons x xs ih =>
    cases hg : g x with
    | none => simp [List.filterMap_cons, List.filter_cons, hg, ih]
    | some b => simp [List.filterMap_cons, List.filter_cons, hg, ih]

end httpmiddleware
/-! ## The location header -/

namespace httpmiddleware

open goslice integrationevents gocontext auditeventspublisher

variable {U : Type}

/-- The loop of `appendLocationAttributes`, round by round. -/
theorem appendLocationAttributes_rounds (lib : Lib U) (attrs : List (Attribute U))
    (location : String) :
    appendLocationAttributes lib attrs location =
      (strings.Split location ',').foldlM
        (fun acc value => (locationRound lib value).map fun l => acc ++ l) attrs := by
  unfold appendLocationAttributes
  simp only
  congr 1
  funext acc value
  have hkey : strings.ToLower lib.unicode (strings.TrimSpace lib.unicode
      ((strings.Split value '=').headD "")) = segmentKey lib value := by
    rw [strings.Split_headD]
    rfl
  rw [hkey]
  unfold locationRound
  by_cases h1 : segmentKey lib value = "continent"
  · simp only [h1, locationKeys, List.lookup, AttrKeyClientContinent, Option.map_map]
    simp
    rfl
  by_cases h2 : segmentKey lib value = "country"
  · simp only [h2, locationKeys, List.lookup, AttrKeyClientCountry, Option.map_map]
    simp
    rfl
  by_cases h3 : segmentKey lib value = "city"
  · simp only [h3, locationKeys, List.lookup, AttrKeyClientCity, Option.map_map]
    simp
    rfl
  by_cases h4 : segmentKey lib value = "lat"
  · simp only [h4, locationKeys, List.lookup, AttrKeyClientLat, Option.map_map]
    simp
    rfl
  by_cases h5 : segmentKey lib value = "long"
  · simp only [h5, locationKeys, List.lookup, AttrKeyClientLong, Option.map_map]
    simp
    rfl
  have hl : locationKeys.lookup (segmentKey lib value) = none := by
    have e1 : (segmentKey lib value == "continent") = false := by simpa using h1
    have e2 : (segmentKey lib value == "country") = false := by simpa using h2
    have e3 : (segmentKey lib value == "city") = false := by simpa using h3
    have e4 : (segmentKey lib value == "lat") = false := by simpa using h4
    have e5 : (segmentKey lib value == "long") = false := by simpa using h5
    simp only [locationKeys, List.lookup, e1, e2, e3, e4, e5]
  simp [h1, h2, h3, h4, h5, hl]

end httpmiddleware
namespace httpmiddleware

open goslice integrationevents gocontext auditeventspublisher

variable {U : Type}

/-- The attributes `appendLocationAttributes` appends do not depend on the
attributes it is given, which it keeps as a prefix. -/
theorem appendLocationAttributes_front (lib : Lib U) (attrs : List (Attribute U))
    (location : String) :
    appendLocationAttributes lib attrs location =
      (appendLocationAttributes lib [] location).map fun rest => attrs ++ rest := by
  rw [appendLocationAttributes_rounds, appendLocationAttributes_rounds]
  exact foldlM_front _ (locationRound lib) (fun _ _ => rfl) _ attrs

/-- A round of the loop on a segment that has no recognised key, or that
contains `=`, appends what the specification says. -/
theorem locationRound_spec (lib : Lib U) (value : String)
    (h : recognised lib value = true → '=' ∈ value.data) :
    locationRound lib value = some (segmentAttributeSpec lib value).toList := by
  unfold locationRound segmentAttributeSpec
  cases hk : locationKeys.lookup (segmentKey lib value) with
  | none => rfl
  | some key =>
    have hr : recognised lib value = true := by simp [recognised, hk]
    rw [strings.Split_second_some value '=' (h hr)]
    rfl

/-- A round of the loop on a segment that has a recognised key and does not
contain `=` panics. -/
theorem locationRound_panic (lib : Lib U) (value : String)
    (hr : recognised lib value = true) (h : '=' ∉ value.data) :
    locationRound lib value = none := by
  unfold locationRound
  cases hk : locationKeys.lookup (segmentKey lib value) with
  | none => simp [recognised, hk] at hr
  | some key =>
    rw [strings.Split_second_none value '=' h]
    rfl

/-- When every segment with a recognised key contains `=`,
`appendLocationAttributes` returns its input followed by the attributes of the
specification. -/
theorem appendLocationAttributes_spec (lib : Lib U) (attrs : List (Attribute U))
    (location : String)
    (h : ∀ segment ∈ strings.Split location ',',
      recognised lib segment = true → '=' ∈ segment.data) :
    appendLocationAttributes lib attrs location =
      some (attrs ++ locationAttributesSpec lib location) := by
  rw [appendLocationAttributes_rounds]
  exact foldlM_filterMap _ (segmentAttributeSpec lib) _
    (fun x hx acc => by rw [locationRound_spec lib x (h x hx)]; rfl) attrs

/-- C17 (X-Location parsing). For every attribute list `attrs` and every
location string all of whose comma-separated segments contain `=`,
`appendLocationAttributes` returns normally, and returns `attrs` followed, in
segment order, by one attribute for each segment whose key (the text before
the first `=`, whitespace-trimmed and lower-cased) is `continent`, `country`,
`city`, `lat` or `long`, with the attribute key `c.continent`, `c.country`,
`c.city`, `c.lat` or `c.long` and the whitespace-trimmed text between the first
and the second `=` (or the end) as value; segments with another key add
nothing. -/
theorem x_location_parsing (lib : Lib U) (attrs : List (Attribute U)) (location : String)
    (h : ∀ segment ∈ strings.Split location ',', '=' ∈ segment.data) :
    appendLocationAttributes lib attrs location =
      some (attrs ++ locationAttributesSpec lib location) :=
  appendLocationAttributes_spec lib attrs location (fun segment hs _ => h segment hs)

/-- Witness of C17: the location header of the test yields the five
attributes America, USA, LA, `34.0522 N` and `118.2437 W`. -/
theorem x_location_parsing_witness :
    appendLocationAttributes exLib [⟨"c.ip", .str "128.4.5.120"⟩] exLocation =
      some [⟨"c.ip", .str "128.4.5.120"⟩, ⟨"c.continent", .str "America"⟩,
        ⟨"c.country", .str "USA"⟩, ⟨"c.city", .str "LA"⟩, ⟨"c.lat", .str "34.0522 N"⟩,
        ⟨"c.long", .str "118.2437 W"⟩] :=
  (x_location_parsing exLib [⟨"c.ip", .str "128.4.5.120"⟩] exLocation (by decide)).trans
    (by decide)

end httpmiddleware

/-! ## The header loop and the claims -/

namespace httpmiddleware

open goslice integrationevents gocontext auditeventspublisher

variable {U : Type}

/-- One round of the loop over `relevantHeaders`, for one of the seven headers
other than `X-Location`: it appends the attribute of the specification, if the
header is present. -/
theorem headerRound_spec (lib : Lib U) (header : Header) (entry : String × String)
    (he : entry ∈ headerKeys) (acc : List (Attribute U)) :
    (match header entry.1 with
      | some headerValue => appendAttribute lib acc entry.1 (firstOrEmpty headerValue)
      | none => some acc) =
      some (acc ++ ((header entry.1).map fun values =>
        (⟨entry.2, .str (values.headD "")⟩ : Attribute U)).toList) := by
  have hfirst : ∀ values : List String, firstOrEmpty values = values.headD "" := by
    intro values
    cases values <;> rfl
  simp only [headerKeys, List.mem_cons, List.mem_singleton, List.not_mem_nil, or_false] at he
  rcases he with rfl | rfl | rfl | rfl | rfl | rfl | rfl <;>
    cases hh : header _ <;>
    simp [appendAttribute, hfirst, HeaderUserAgent, HeaderXForwardedFor, HeaderXForwardedProto,
      HeaderXForwardedHost, HeaderReferer, HeaderAccept, HeaderAcceptEncoding, HeaderXLocation,
      AttrKeyClientRawUserAgent, AttrKeyClientIp, AttrKeyClientProto, AttrKeyClientHost,
      AttrKeyClientReferer, AttrKeyClientAccept, AttrKeyClientAcceptEncoding]

/-- The loop over `relevantHeaders`: the attributes of the seven headers as the
specification has them, then those of the `X-Location` header if it is
present. -/
theorem fillHeaders_spec (lib : Lib U) (header : Header) (attrs : List (Attribute U)) :
    fillHeaders lib header attrs =
      match header HeaderXLocation with
      | none => some (attrs ++ headerAttributesSpec header)
      | some values =>
        appendLocationAttributes lib (attrs ++ headerAttributesSpec header)
          (firstOrEmpty values) := by
  have hsplit : relevantHeaders = headerKeys.map Prod.fst ++ [HeaderXLocation] := rfl
  unfold fillHeaders
  rw [hsplit, List.foldlM_append, List.foldlM_map]
  rw [foldlM_filterMap (fun acc (entry : String × String) =>
      match header entry.1 with
      | some headerValue => appendAttribute lib acc entry.1 (firstOrEmpty headerValue)
      | none => some acc)
    (fun entry => (header entry.1).map fun values =>
      (⟨entry.2, .str (values.headD "")⟩ : Attribute U)) headerKeys
    (fun entry he acc => headerRound_spec lib header entry he acc) attrs]
  simp only [Option.some_bind, Option.bind_eq_bind, List.foldlM_cons, List.foldlM_nil]
  cases hh : header HeaderXLocation with
  | none => simp [headerAttributesSpec]
  | some values =>
    simp [headerAttributesSpec, appendAttribute, HeaderUserAgent, HeaderXForwardedFor,
      HeaderXForwardedProto, HeaderXForwardedHost, HeaderReferer, HeaderAccept,
      HeaderAcceptEncoding, HeaderXLocation]

end httpmiddleware
namespace httpmiddleware

open goslice integrationevents gocontext auditeventspublisher

variable {B U W β : Type}

/-- The attributes the header loop appends do not depend on the attributes it
starts from, which it keeps as a prefix. -/
theorem fillHeaders_front (lib : Lib U) (header : Header) (attrs : List (Attribute U)) :
    fillHeaders lib header attrs =
      (fillHeaders lib header []).map fun rest => attrs ++ rest := by
  rw [fillHeaders_spec, fillHeaders_spec]
  cases header HeaderXLocation with
  | none => simp
  | some values =>
    simp only [List.nil_append]
    rw [appendLocationAttributes_front lib (attrs ++ headerAttributesSpec header),
      appendLocationAttributes_front lib (headerAttributesSpec header)]
    cases appendLocationAttributes lib [] (firstOrEmpty values) with
    | none => rfl
    | some rest => simp [List.append_assoc]

/-- The claims block of the middleware appends the claim attributes of the
specification. -/
theorem fillClaims_spec (lib : Lib U) (claims : Claims) (attrs : List (Attribute U)) :
    fillClaims lib claims attrs = attrs ++ claimKeys.filterMap (claimAttributeSpec lib claims) := by
  have e1 : claims ClaimClientId = claims "client_id" := rfl
  have e2 : claims ClaimClientTenantId = claims "client_tenant_id" := rfl
  have e3 : claims ClaimSubjectId = claims "sub" := rfl
  simp only [fillClaims, claimKeys, List.filterMap_cons, List.filterMap_nil, claimAttributeSpec,
    e1, e2, e3, AttrKeyClientId, AttrKeyClientTenantId, AttrKeyUsertId]
  rcases h1 : claims "client_id" with _ | ⟨s1 | n1⟩ <;>
    rcases h2 : claims "client_tenant_id" with _ | ⟨s2 | n2⟩ <;>
    rcases h3 : claims "sub" with _ | ⟨s3 | n3⟩ <;>
    simp only [Option.map] <;>
    (try cases lib.uuidParse s1) <;> (try cases lib.uuidParse s2) <;>
    (try cases lib.uuidParse s3) <;> simp

end httpmiddleware
/-! ## Slices, and what `Publish` does to them -/

namespace goslice

variable {α : Type}

/-- Writing behind the first `n` elements leaves them as they were. -/
theorem take_set_same (l : List α) (n : Nat) (x : α) : (l.set n x).take n = l.take n := by
  induction l generalizing n with
  | nil => simp
  | cons a l ih =>
    cases n with
    | zero => simp
    | succ n => simp [ih]

/-- Writing the element of index `n` and reading `n + 1` elements. -/
theorem take_set_succ (l : List α) (n : Nat) (x : α) (h : n < l.length) :
    (l.set n x).take (n + 1) = l.take n ++ [x] := by
  induction l generalizing n with
  | nil => simp at h
  | cons a l ih =>
    cases n with
    | zero => simp
    | succ n =>
      simp only [List.length_cons, Nat.add_lt_add_iff_right] at h
      simp [ih n h]

/-- A freshly laid out slice reads as the list it was made from. -/
theorem alloc_read (zero : α) (h : Heap α) (l : List α) (slack : Nat) :
    (Heap.alloc zero h l slack).1.read (Heap.alloc zero h l slack).2 = l := by
  simp [Heap.alloc, Heap.read]

/-- A freshly laid out slice is well formed. -/
theorem alloc_ok (zero : α) (h : Heap α) (l : List α) (slack : Nat) :
    Slice.ok (Heap.alloc zero h l slack).1 (Heap.alloc zero h l slack).2 := by
  simp [Heap.alloc, Slice.ok]

/-- Laying out a new slice leaves every well-formed slice well formed and its
elements as they were. -/
theorem alloc_keeps (zero : α) (h : Heap α) (l : List α) (slack : Nat) (s : Slice)
    (hok : Slice.ok h s) :
    (Heap.alloc zero h l slack).1.read s = h.read s ∧
      Slice.ok (Heap.alloc zero h l slack).1 s := by
  obtain ⟨hle, hcap⟩ := hok
  rcases hcap with h0 | ⟨hlt, hlen⟩
  · have hl0 : s.len = 0 := by omega
    exact ⟨by simp [Heap.read, hl0], hle, Or.inl h0⟩
  · have ha : s.array ≠ h.next := by omega
    refine ⟨by simp [Heap.alloc, Heap.read, ha], hle, Or.inr ⟨?_, ?_⟩⟩
    · simp only [Heap.alloc]; omega
    · simp [Heap.alloc, ha, hlen]

/-- The slice `append` returns reads as the old slice followed by the new
element. -/
theorem append_read (grow : Nat → Nat) (zero : α) (h : Heap α) (s : Slice) (x : α)
    (hok : Slice.ok h s) :
    (append grow zero h s x).1.read (append grow zero h s x).2 = h.read s ++ [x] := by
  unfold append
  by_cases hlt : s.len < s.cap
  · rw [if_pos hlt]
    obtain ⟨_, hcap⟩ := hok
    rcases hcap with h0 | ⟨_, hlen⟩
    · omega
    · simp only [Heap.read, if_true]
      exact take_set_succ _ _ x (by omega)
  · rw [if_neg hlt]
    exact alloc_read zero h _ _

/-- The slice `append` returns is well formed. -/
theorem append_ok (grow : Nat → Nat) (zero : α) (h : Heap α) (s : Slice) (x : α)
    (hok : Slice.ok h s) :
    Slice.ok (append grow zero h s x).1 (append grow zero h s x).2 := by
  unfold append
  by_cases hlt : s.len < s.cap
  · rw [if_pos hlt]
    obtain ⟨_, hcap⟩ := hok
    rcases hcap with h0 | ⟨ha, hlen⟩
    · omega
    · exact ⟨by simp only; omega, Or.inr ⟨ha, by simp [hlen]⟩⟩
  · rw [if_neg hlt]
    exact alloc_ok zero h _ _

/-- `append` leaves the slice it is given as it was: same elements, still well
formed. What it writes lies behind the last element of that slice, or in a new
array. -/
theorem append_keeps (grow : Nat → Nat) (zero : α) (h : Heap α) (s : Slice) (x : α)
    (hok : Slice.ok h s) :
    (append grow zero h s x).1.read s = h.read s ∧ Slice.ok (append grow zero h s x).1 s := by
  unfold append
  by_cases hlt : s.len < s.cap
  · rw [if_pos hlt]
    obtain ⟨hle, hcap⟩ := hok
    rcases hcap with h0 | ⟨ha, hlen⟩
    · omega
    · refine ⟨?_, hle, Or.inr ⟨ha, by simp [hlen]⟩⟩
      simp only [Heap.read, if_true]
      exact take_set_same _ _ x
  · rw [if_neg hlt]
    exact alloc_keeps zero h _ _ s hok

end goslice
namespace auditeventspublisher

open goslice integrationevents gocontext

variable {B U D E C : Type}

/-- The heap `Publish` leaves and the attributes of the event it builds are
those of the `append` of the source attribute to the publisher's slice. -/
theorem Publish_append (p : AuditEventsPublisher B) (env : PublishEnv B U D E C)
    (h : Heap (Attribute U)) (ctx : Context B) (event : D) :
    (p.Publish env h ctx event).heap =
      (goslice.append env.grow Attribute.zero h p.attributes
        ⟨AttrKeySourceName, .str p.source⟩).1 ∧
    (p.Publish env h ctx event).event.Attributes =
      (goslice.append env.grow Attribute.zero h p.attributes
        ⟨AttrKeySourceName, .str p.source⟩).1.read
      (goslice.append env.grow Attribute.zero h p.attributes
        ⟨AttrKeySourceName, .str p.source⟩).2 := by
  unfold AuditEventsPublisher.Publish
  simp only
  split
  · exact ⟨rfl, rfl⟩
  · split <;> exact ⟨rfl, rfl⟩

/-- The event `Publish` builds carries the attributes of the publisher followed
by the source attribute, and the publisher's slice is left as it was. -/
theorem Publish_attributes (p : AuditEventsPublisher B) (env : PublishEnv B U D E C)
    (h : Heap (Attribute U)) (ctx : Context B) (event : D) (hok : Slice.ok h p.attributes) :
    (p.Publish env h ctx event).event.Attributes =
      h.read p.attributes ++ [⟨AttrKeySourceName, .str p.source⟩] ∧
    (p.Publish env h ctx event).heap.read p.attributes = h.read p.attributes ∧
    Slice.ok (p.Publish env h ctx event).heap p.attributes := by
  obtain ⟨hheap, hattrs⟩ := Publish_append p env h ctx event
  rw [hheap, hattrs]
  exact ⟨append_read _ _ h _ _ hok, (append_keeps _ _ h _ _ hok).1,
    (append_keeps _ _ h _ _ hok).2⟩

/-- The message `Publish` hands to the broker publisher is the one built from
the marshalled event, and it is handed over exactly when marshalling
succeeds. -/
theorem Publish_sent (p : AuditEventsPublisher B) (env : PublishEnv B U D E C)
    (h : Heap (Attribute U)) (ctx : Context B) (event : D) :
    (p.Publish env h ctx event).sent =
      match env.marshal (p.Publish env h ctx event).event with
      | .error _ => none
      | .ok content =>
        some ⟨env.TopicAudit,
          [(env.HeaderMessageType, (p.Publish env h ctx event).event.EventType)], content⟩ := by
  unfold AuditEventsPublisher.Publish newBrokerMessage
  simp only
  split
  · rename_i err he
    split at he
    · rename_i e1 hm
      simp only at hm ⊢
      rw [hm]
    · cases he
  · rename_i msg he
    split at he
    · cases he
    · rename_i content hm
      cases he
      split <;> (simp only at hm ⊢; rw [hm])

end auditeventspublisher
namespace auditeventspublisher

open goslice integrationevents gocontext

variable {B U D E C : Type}

/-- C19 (Publish appends the source attribute without accumulating it). Let
a publisher be built by `NewAuditEventsPublisher` with a well-formed attribute
slice that reads as the list `A` in the heap, and with source `s`. For every
event, context and environment: (1) the `AuditLogEvent` built by `Publish` has
the attribute list `A` followed by the single attribute `(src.name, s)`;
(2) the message handed to the broker publisher is the one made of that event,
marshalled, and it is handed over whenever marshalling succeeds; (3) after the
call the publisher's slice still reads as `A`, even when `append` wrote into
its backing array, and its source is `s`; (4) a second `Publish`, in the heap
the first one left, again builds an event with `A` followed by one
`(src.name, s)`. -/
theorem publish_does_not_accumulate (publisher : B) (attributes : Slice) (source : String)
    (env env2 : PublishEnv B U D E C) (h : Heap (Attribute U)) (ctx ctx2 : Context B)
    (event event2 : D) (hok : Slice.ok h attributes) :
    ((NewAuditEventsPublisher publisher attributes source).Publish env h ctx
        event).event.Attributes =
      h.read attributes ++ [⟨AttrKeySourceName, .str source⟩] ∧
    ((NewAuditEventsPublisher publisher attributes source).Publish env h ctx event).sent =
      (match env.marshal ((NewAuditEventsPublisher publisher attributes source).Publish env h
          ctx event).event with
        | .error _ => none
        | .ok content =>
          some ⟨env.TopicAudit,
            [(env.HeaderMessageType,
              ((NewAuditEventsPublisher publisher attributes source).Publish env h ctx
                event).event.EventType)], content⟩) ∧
    ((NewAuditEventsPublisher publisher attributes source).Publish env h ctx
        event).heap.read (NewAuditEventsPublisher publisher attributes source).attributes =
      h.read attributes ∧
    (NewAuditEventsPublisher publisher attributes source).source = source ∧
    ((NewAuditEventsPublisher publisher attributes source).Publish env2
        ((NewAuditEventsPublisher publisher attributes source).Publish env h ctx event).heap
        ctx2 event2).event.Attributes =
      h.read attributes ++ [⟨AttrKeySourceName, .str source⟩] := by
  have h1 := Publish_attributes (NewAuditEventsPublisher publisher attributes source) env h ctx
    event hok
  have h2 := Publish_attributes (NewAuditEventsPublisher publisher attributes source) env2 _
    ctx2 event2 h1.2.2
  refine ⟨h1.1, Publish_sent _ env h ctx event, h1.2.1, rfl, ?_⟩
  rw [h2.1, h1.2.1]
  rfl

/-- Witness of C19: a publisher whose slice has spare capacity, so that
`append` writes the source attribute into the publisher's own backing array;
two calls of `Publish` in a row both send the attribute `c.ip` followed by one
`src.name`. -/
theorem publish_does_not_accumulate_witness :
    ((NewAuditEventsPublisher () exSpareSlice "svc").Publish httpmiddleware.exPublishEnv
        exSpareHeap Background "event").event.Attributes =
      [⟨"c.ip", .str "128.4.5.120"⟩, ⟨"src.name", .str "svc"⟩] ∧
    ((NewAuditEventsPublisher () exSpareSlice "svc").Publish httpmiddleware.exPublishEnv
        ((NewAuditEventsPublisher () exSpareSlice "svc").Publish httpmiddleware.exPublishEnv
          exSpareHeap Background "event").heap Background "event").event.Attributes =
      [⟨"c.ip", .str "128.4.5.120"⟩, ⟨"src.name", .str "svc"⟩] ∧
    ((NewAuditEventsPublisher () exSpareSlice "svc").Publish httpmiddleware.exPublishEnv
        exSpareHeap Background "event").heap.arrays 0 =
      [⟨"c.ip", .str "128.4.5.120"⟩, ⟨"src.name", .str "svc"⟩, Attribute.zero] :=
  have h := publish_does_not_accumulate () exSpareSlice "svc" httpmiddleware.exPublishEnv
    httpmiddleware.exPublishEnv exSpareHeap Background Background "event" "event"
    ⟨by decide, Or.inr ⟨by decide, by decide⟩⟩
  ⟨h.1, h.2.2.2.2, by decide⟩

end auditeventspublisher

/-! ## The audit middleware -/

namespace httpmiddleware

open goslice integrationevents gocontext auditeventspublisher

variable {B U W β : Type}

/-- The publisher stored by the audit handler is the one read back from the
context of the request it hands on. -/
theorem auditRequest_FromContext (publisher : B) (source : String) (r : Request B)
    (attributes : Slice) :
    auditeventspublisher.FromContext (auditRequest publisher source r attributes).ctx =
      some (NewAuditEventsPublisher publisher attributes source) := by
  simp [auditRequest, auditeventspublisher.FromContext, auditeventspublisher.NewContext,
    WithValue, gocontext.Value]

/-- The audit handler, in one equation: the claim attributes of the
specification, then what the header loop yields from the empty list; the
handler panics exactly when the header loop does. -/
theorem HttpAuditMiddleware_eq (lib : Lib U) (publisher : B) (source : String) (slack : Nat)
    (next : W → Request B → Heap (Attribute U) → β) (w : W) (r : Request B)
    (h : Heap (Attribute U)) :
    HttpAuditMiddleware lib publisher source slack next w r h =
      (fillHeaders lib r.Header []).map fun rest =>
        ⟨claimWarnings r.ctx,
          handOver publisher source slack next w r h (claimsAttributesSpec lib r.ctx ++ rest)⟩ := by
  unfold HttpAuditMiddleware claimWarnings claimsAttributesSpec
  simp only
  cases hc : jwtverifier.ClaimsFromContext r.ctx with
  | none =>
    simp only [List.nil_append]
    cases fillHeaders lib r.Header [] with
    | none => rfl
    | some rest => rfl
  | some claims =>
    simp only
    rw [fillClaims_spec, List.nil_append, fillHeaders_front]
    cases fillHeaders lib r.Header [] with
    | none => rfl
    | some rest => rfl

end httpmiddleware
namespace httpmiddleware

open goslice integrationevents gocontext auditeventspublisher

variable {B U W β D E C : Type}

/-- The number of header attributes of the specification is the number of the
seven headers that are present. -/
theorem headerAttributesSpec_length (header : Header) :
    (headerAttributesSpec header : List (Attribute U)).length = countHeaders header := by
  have hnames : [HeaderXForwardedProto, HeaderXForwardedFor, HeaderXForwardedHost, HeaderAccept,
      HeaderAcceptEncoding, HeaderUserAgent, HeaderReferer] = headerKeys.map Prod.fst := rfl
  unfold headerAttributesSpec countHeaders
  rw [length_filterMap_eq, hnames, List.filter_map, List.length_map]
  congr 1
  apply List.filter_congr
  intro entry _
  simp

/-- The number of claim attributes of the specification is the number of the
three claims that are strings parsing as a UUID. -/
theorem claimsAttributesSpec_length (lib : Lib U) (ctx : Context B) :
    (claimsAttributesSpec lib ctx).length = countClaims lib ctx := by
  have hnames : [ClaimClientId, ClaimClientTenantId, ClaimSubjectId] = claimKeys.map Prod.fst :=
    rfl
  unfold claimsAttributesSpec countClaims
  cases jwtverifier.ClaimsFromContext ctx with
  | none => rfl
  | some claims =>
    simp only
    rw [length_filterMap_eq, hnames, List.filter_map, List.length_map]
    congr 1
    apply List.filter_congr
    intro entry _
    simp only [claimAttributeSpec, Function.comp]
    rcases claims entry.1 with _ | ⟨s | n⟩ <;> simp

/-- The number of location attributes of the specification is the number of
segments with a recognised key. -/
theorem locationAttributesSpec_length (lib : Lib U) (location : String) :
    (locationAttributesSpec lib location).length =
      ((strings.Split location ',').filter (recognised lib)).length := by
  unfold locationAttributesSpec
  rw [length_filterMap_eq]
  congr 1
  apply List.filter_congr
  intro segment _
  simp [segmentAttributeSpec, recognised]

/-- The number of attributes of the specification. -/
theorem auditAttributesSpec_length (lib : Lib U) (r : Request B) :
    (auditAttributesSpec lib r).length =
      countClaims lib r.ctx + countHeaders r.Header + countLocation lib r.Header := by
  unfold auditAttributesSpec countLocation
  rw [List.length_append, List.length_append, claimsAttributesSpec_length,
    headerAttributesSpec_length]
  cases r.Header HeaderXLocation with
  | none => rfl
  | some values => simp only [locationAttributesSpec_length]

/-- When every location pair with a recognised key contains `=`, the audit
handler does not panic and hands on the attributes of the specification. -/
theorem HttpAuditMiddleware_spec (lib : Lib U) (publisher : B) (source : String) (slack : Nat)
    (next : W → Request B → Heap (Attribute U) → β) (w : W) (r : Request B)
    (h : Heap (Attribute U))
    (hloc : ∀ values, r.Header HeaderXLocation = some values →
      ∀ segment ∈ strings.Split (firstOrEmpty values) ',',
        recognised lib segment = true → '=' ∈ segment.data) :
    HttpAuditMiddleware lib publisher source slack next w r h =
      some ⟨claimWarnings r.ctx,
        handOver publisher source slack next w r h (auditAttributesSpec lib r)⟩ := by
  rw [HttpAuditMiddleware_eq, fillHeaders_spec]
  unfold auditAttributesSpec
  cases hx : r.Header HeaderXLocation with
  | none => simp
  | some values =>
    simp only
    rw [appendLocationAttributes_spec lib _ _ (hloc values hx)]
    simp [List.append_assoc]

end httpmiddleware
namespace httpmiddleware

open goslice integrationevents gocontext auditeventspublisher

variable {B U W β D E C : Type}

/-- C16 (header-to-attribute mapping). For every request, the header loop of
`HttpAuditMiddleware` appends to the attributes it starts from the header
attributes of the specification and only then turns to `X-Location`; and the
handler hands on the claim attributes, then these header attributes, then the
location attributes. The header attributes are one attribute for each of the
seven headers present in the header map, keyed `c.proto`, `c.ip`, `c.host`,
`c.accept`, `c.acceptencoding`, `c.rawua`, `c.referer`, valued with the header's
first value (the empty string if it has no values), in the order of
`relevantHeaders`; an absent header adds none, so that their number is the
number of headers present. -/
theorem header_to_attribute_mapping (lib : Lib U) (publisher : B) (source : String)
    (slack : Nat) (next : W → Request B → Heap (Attribute U) → β) (w : W) (r : Request B)
    (h : Heap (Attribute U)) (attrs : List (Attribute U)) :
    fillHeaders lib r.Header attrs =
      (match r.Header HeaderXLocation with
        | none => some (attrs ++ headerAttributesSpec r.Header)
        | some values =>
          appendLocationAttributes lib (attrs ++ headerAttributesSpec r.Header)
            (firstOrEmpty values)) ∧
    HttpAuditMiddleware lib publisher source slack next w r h =
      (match r.Header HeaderXLocation with
        | none => some []
        | some values => appendLocationAttributes lib [] (firstOrEmpty values)).map
        (fun location =>
          ⟨claimWarnings r.ctx,
            handOver publisher source slack next w r h
              (claimsAttributesSpec lib r.ctx ++ headerAttributesSpec r.Header ++ location)⟩) ∧
    (headerAttributesSpec r.Header : List (Attribute U)).length = countHeaders r.Header := by
  refine ⟨fillHeaders_spec lib r.Header attrs, ?_, headerAttributesSpec_length r.Header⟩
  rw [HttpAuditMiddleware_eq, fillHeaders_spec]
  cases r.Header HeaderXLocation with
  | none => simp
  | some values =>
    simp only [List.nil_append]
    rw [appendLocationAttributes_front]
    cases appendLocationAttributes lib [] (firstOrEmpty values) with
    | none => rfl
    | some location => simp [List.append_assoc]

/-- C15 (attribute count of the audit event). For every request in which every
`X-Location` pair with a recognised key contains `=`, the handler of
`HttpAuditMiddleware(publisher, source)` does not panic and calls the next
handler with a request whose context carries an `AuditEventsPublisher`; the
event that publisher builds when `Publish` is called carries exactly
`c + h + l + 1` attributes, `c` counting the claims that are strings parsing as
a UUID, `h` the seven headers present, `l` the location pairs with a recognised
key, and 1 the source attribute. -/
theorem audit_attribute_count (lib : Lib U) (publisher : B) (source : String)
    (slack : Nat) (next : W → Request B → Heap (Attribute U) → β) (w : W) (r : Request B)
    (h : Heap (Attribute U)) (env : PublishEnv B U D E C) (ctx : Context B) (event : D)
    (hloc : ∀ values, r.Header HeaderXLocation = some values →
      ∀ segment ∈ strings.Split (firstOrEmpty values) ',',
        recognised lib segment = true → '=' ∈ segment.data) :
    HttpAuditMiddleware lib publisher source slack next w r h =
      some ⟨claimWarnings r.ctx,
        handOver publisher source slack next w r h (auditAttributesSpec lib r)⟩ ∧
    auditeventspublisher.FromContext (auditRequest publisher source r
        (Heap.alloc Attribute.zero h (auditAttributesSpec lib r) slack).2).ctx =
      some (NewAuditEventsPublisher publisher
        (Heap.alloc Attribute.zero h (auditAttributesSpec lib r) slack).2 source) ∧
    ((NewAuditEventsPublisher publisher
        (Heap.alloc Attribute.zero h (auditAttributesSpec lib r) slack).2 source).Publish env
        (Heap.alloc Attribute.zero h (auditAttributesSpec lib r) slack).1 ctx
        event).event.Attributes.length =
      countClaims lib r.ctx + countHeaders r.Header + countLocation lib r.Header + 1 := by
  refine ⟨HttpAuditMiddleware_spec lib publisher source slack next w r h hloc,
    auditRequest_FromContext publisher source r _, ?_⟩
  have hp := Publish_attributes (NewAuditEventsPublisher publisher
    (Heap.alloc Attribute.zero h (auditAttributesSpec lib r) slack).2 source) env
    (Heap.alloc Attribute.zero h (auditAttributesSpec lib r) slack).1 ctx event
    (alloc_ok Attribute.zero h _ slack)
  rw [hp.1]
  simp only [NewAuditEventsPublisher, alloc_read, List.length_append, List.length_singleton,
    auditAttributesSpec_length]

/-- Witness of C15: the first test of `TestHttpAuditMiddleware`, with three
claims, seven headers and five location pairs, yields 16 attributes. -/
theorem audit_attribute_count_witness :
    countClaims exLib exRequest.ctx = 3 ∧ countHeaders exRequest.Header = 7 ∧
    countLocation exLib exRequest.Header = 5 ∧
    (HttpAuditMiddleware exLib () "httpAuditMiddlewareTest" 3 exNext () exRequest
      exHeap).isSome = true ∧
    ((NewAuditEventsPublisher ()
        (Heap.alloc Attribute.zero exHeap (auditAttributesSpec exLib exRequest) 3).2
        "httpAuditMiddlewareTest").Publish exPublishEnv
        (Heap.alloc Attribute.zero exHeap (auditAttributesSpec exLib exRequest) 3).1
        Background "event").event.Attributes.length = 16 :=
  have h := audit_attribute_count exLib () "httpAuditMiddlewareTest" 3 exNext () exRequest
    exHeap exPublishEnv Background "event"
    (fun values hv => by
      have hv2 : values = [exLocation] := by
        have : exRequest.Header HeaderXLocation = some [exLocation] := by decide
        rw [this] at hv
        exact (Option.some.inj hv).symm
      subst hv2
      decide)
  ⟨by decide, by decide, by decide, by rw [h.1]; rfl, h.2.2.trans (by decide)⟩

/-- The second test of `TestHttpAuditMiddleware`: no claims and one relevant
header yield two attributes, `c.ip` and `src.name`, and a warning. -/
theorem audit_attribute_count_bare :
    (HttpAuditMiddleware exLib () "httpAuditMiddlewareTest" 0 exNext () exBareRequest
      exHeap).map (fun served =>
        (served.logged,
          (auditeventspublisher.FromContext served.next.1.ctx).map fun p =>
            (p.Publish exPublishEnv served.next.2 served.next.1.ctx "event").event.Attributes)) =
      some (["Could not get claims from context"],
        some [⟨"c.ip", .str "128.4.5.120"⟩, ⟨"src.name", .str "httpAuditMiddlewareTest"⟩]) := by
  decide

end httpmiddleware

/-! ## The frame of `Get`, and expired entries -/

namespace inmemory

open gocache

variable {V E σ : Type}

/-- The map after `SetDefault` at a key, read at another key. -/
theorem SetDefault_items_other (c : Cache V) (now : Nat) (k k1 : String) (x : Option V)
    (h : k1 ≠ k) : (c.SetDefault now k x).items k1 = c.items k1 := by
  simp [Cache.SetDefault, Cache.Set, h]

/-- C25 (Get touches only its own key). For every provider (whatever its map
holds), every clock, every world and all keys `k` and `k1` with `k1 ≠ k`: the
call `Get(k)`, whichever way it goes (hit, hit at the re-check, panic on a nil
lookup, failed lookup, population), leaves the entry of the map for `k1`, that
is its presence, its value and its `Expiration`, as it was, and every argument
the lookup function was invoked with is `k`. -/
theorem get_touches_only_its_key (c : Provider V E σ) (clk : Clock) (k k1 : String) (w : σ)
    (hk : k1 ≠ k) :
    (c.Get clk k w).provider.cache.items k1 = c.cache.items k1 ∧
      ∀ a ∈ (c.Get clk k w).invoked, a = k := by
  rcases Provider.Get_cases c clk k w with ⟨x, _, h⟩ | ⟨_, x, _, h⟩ |
    ⟨_, _, ⟨_, h⟩ | ⟨f, x, e1, w1, _, _, h⟩ | ⟨f, x, w1, _, _, h⟩⟩ <;> rw [h]
  · exact ⟨rfl, by simp⟩
  · exact ⟨rfl, by simp⟩
  · exact ⟨rfl, by simp⟩
  · exact ⟨rfl, by simp⟩
  · exact ⟨SetDefault_items_other c.cache clk.atStore k k1 x hk, by simp⟩

/-- Witness of C25: on `exProvider` at time 150 the entry for `"x"` has
expired; `Get("y")` populates `"y"`, leaves the (expired) entry for `"x"` in
place and invokes the lookup function with `"y"` only. -/
theorem get_touches_only_its_key_witness :
    (exProvider.Get (Clock.instant 150) "y" 0).provider.cache.items "x" =
        some ⟨some 1, 100⟩ ∧
      (exProvider.Get (Clock.instant 150) "y" 0).invoked = ["y"] ∧
      ∀ a ∈ (exProvider.Get (Clock.instant 150) "y" 0).invoked, a = "y" :=
  ⟨(get_touches_only_its_key exProvider (Clock.instant 150) "y" "x" 0 (by decide)).1,
    by decide,
    (get_touches_only_its_key exProvider (Clock.instant 150) "y" "x" 0 (by decide)).2⟩

/-- A sweep does not change what a read at a later clock reading returns. -/
theorem Cache.Get_DeleteExpired (c : Cache V) (now t : Nat) (k : String) (h : now ≤ t) :
    (c.DeleteExpired now).Get t k = c.Get t k := by
  unfold Cache.Get Cache.DeleteExpired
  cases hi : c.items k with
  | none => simp [hi]
  | some item =>
    by_cases hx : item.expiredAt now = true
    · simp [hi, hx, Item.expiredAt_mono item now t h hx]
    · simp [hi, hx]

/-- Sweeping at `now` and then at a later reading removes what the later sweep
alone removes. -/
theorem Cache.DeleteExpired_DeleteExpired (c : Cache V) (now t : Nat) (h : now ≤ t)
    (k : String) :
    ((c.DeleteExpired now).DeleteExpired t).items k = (c.DeleteExpired t).items k := by
  unfold Cache.DeleteExpired
  cases hi : c.items k with
  | none => simp [hi]
  | some item =>
    by_cases hx : item.expiredAt now = true
    · simp [hi, hx, Item.expiredAt_mono item now t h hx]
    · simp [hi, hx]

/-- C24 (expired entries are observationally absent). For every provider `c`
(its map is the state `S`), every clock reading `now` and key `k`, let the
swept provider be `c` with its map replaced by `DeleteExpired now` of it (the
state `S1`, a cleanup pass at `now`). A call `Get(k)` whose clock readings at
the two reads are not before `now` (in particular a call at the instant `now`)
gives, from `S1` and from `S`: the same result, the same lookup
invocations, the same world after the call, and maps that hold the same
non-expired entries at `now` and at every later reading `t`, that is, maps that
a sweep at `t` makes equal key by key. -/
theorem expired_entries_observationally_absent (c : Provider V E σ) (now : Nat) (clk : Clock)
    (k : String) (w : σ) (h1 : now ≤ clk.atCheck) (h2 : now ≤ clk.atRecheck) :
    (Provider.Get { c with cache := c.cache.DeleteExpired now } clk k w).result =
        (c.Get clk k w).result ∧
      (Provider.Get { c with cache := c.cache.DeleteExpired now } clk k w).invoked =
        (c.Get clk k w).invoked ∧
      (Provider.Get { c with cache := c.cache.DeleteExpired now } clk k w).world =
        (c.Get clk k w).world ∧
      ∀ t, now ≤ t → ∀ k1,
        ((Provider.Get { c with cache := c.cache.DeleteExpired now } clk k w
            ).provider.cache.DeleteExpired t).items k1 =
          ((c.Get clk k w).provider.cache.DeleteExpired t).items k1 := by
  have e1 := Cache.Get_DeleteExpired c.cache now clk.atCheck k h1
  have e2 := Cache.Get_DeleteExpired c.cache now clk.atRecheck k h2
  rcases Provider.Get_cases c clk k w with ⟨x, hg, h⟩ | ⟨hm, x, hg, h⟩ |
    ⟨hm, hm2, ⟨hf, h⟩ | ⟨f, x, e, w1, hf, hr, h⟩ | ⟨f, x, w1, hf, hr, h⟩⟩
  · rw [h, Provider.Get_of_hit { c with cache := c.cache.DeleteExpired now } clk k w x
      (e1.trans hg)]
    exact ⟨rfl, rfl, rfl, fun t ht k1 => Cache.DeleteExpired_DeleteExpired c.cache now t ht k1⟩
  · rw [h, Provider.Get_of_rehit { c with cache := c.cache.DeleteExpired now } clk k w x
      (by rw [e1]; exact hm) (e2.trans hg)]
    exact ⟨rfl, rfl, rfl, fun t ht k1 => Cache.DeleteExpired_DeleteExpired c.cache now t ht k1⟩
  · rw [h, Provider.Get_of_miss_nil { c with cache := c.cache.DeleteExpired now } clk k w
      (by rw [e1]; exact hm) (by rw [e2]; exact hm2) hf]
    exact ⟨rfl, rfl, rfl, fun t ht k1 => Cache.DeleteExpired_DeleteExpired c.cache now t ht k1⟩
  · rw [h, Provider.Get_of_miss_err { c with cache := c.cache.DeleteExpired now } clk k w f x e
      w1 (by rw [e1]; exact hm) (by rw [e2]; exact hm2) hf hr]
    exact ⟨rfl, rfl, rfl, fun t ht k1 => Cache.DeleteExpired_DeleteExpired c.cache now t ht k1⟩
  · rw [h, Provider.Get_of_miss_ok { c with cache := c.cache.DeleteExpired now } clk k w f x w1
      (by rw [e1]; exact hm) (by rw [e2]; exact hm2) hf hr]
    refine ⟨rfl, rfl, rfl, fun t ht k1 => ?_⟩
    have hs := Cache.DeleteExpired_DeleteExpired c.cache now t ht k1
    simp only [Cache.DeleteExpired, Cache.SetDefault, Cache.Set] at hs ⊢
    by_cases hk : k1 = k
    · simp [hk]
    · simpa [hk] using hs

/-- Witness of C24: on `exProvider`, whose entry for `"x"` expired at 100, a
call `Get("x")` at the instant 150 invokes the lookup function and returns its
value, from the swept map as from the unswept one. -/
theorem expired_entries_observationally_absent_witness :
    (Provider.Get { exProvider with cache := exProvider.cache.DeleteExpired 150 }
        (Clock.instant 150) "x" 0).result = .returned (some 0) none ∧
      (exProvider.Get (Clock.instant 150) "x" 0).result = .returned (some 0) none ∧
      (exProvider.cache.DeleteExpired 150).items "x" = none ∧
      exProvider.cache.items "x" = some ⟨some 1, 100⟩ ∧
      (Provider.Get { exProvider with cache := exProvider.cache.DeleteExpired 150 }
        (Clock.instant 150) "x" 0).invoked = (exProvider.Get (Clock.instant 150) "x" 0).invoked :=
  ⟨by decide, by decide, by decide, by decide,
    (expired_entries_observationally_absent exProvider 150 (Clock.instant 150) "x" 0
      (by decide) (by decide)).2.1⟩

end inmemory

/-! ## When the location header crashes the request -/

namespace httpmiddleware

open goslice integrationevents gocontext auditeventspublisher

variable {U : Type}

/-- A loop whose every step appends to the accumulator a list that depends on
the element only, or panics, panics exactly when one of its rounds does. -/
theorem foldlM_eq_none_iff {α β : Type} (step : List β → α → Option (List β))
    (G : α → Option (List β))
    (hstep : ∀ acc x, step acc x = (G x).map fun l => acc ++ l)
    (l : List α) (acc : List β) :
    l.foldlM step acc = none ↔ ∃ x ∈ l, G x = none := by
  induction l generalizing acc with
  | nil => simp
  | cons x xs ih =>
    simp only [List.foldlM_cons, hstep]
    cases hg : G x with
    | none => simp [hg]
    | some g =>
      simp only [Option.map_some', Option.some_bind, Option.bind_eq_bind]
      rw [ih (acc ++ g)]
      simp [hg]

/-- The recognised keys are the five of the specification. -/
theorem lookup_locationKeys_isSome (key : String) :
    (locationKeys.lookup key).isSome = true ↔
      key ∈ ["continent", "country", "city", "lat", "long"] := by
  by_cases h1 : key = "continent"
  · subst h1; decide
  by_cases h2 : key = "country"
  · subst h2; decide
  by_cases h3 : key = "city"
  · subst h3; decide
  by_cases h4 : key = "lat"
  · subst h4; decide
  by_cases h5 : key = "long"
  · subst h5; decide
  have e1 : (key == "continent") = false := by simpa using h1
  have e2 : (key == "country") = false := by simpa using h2
  have e3 : (key == "city") = false := by simpa using h3
  have e4 : (key == "lat") = false := by simpa using h4
  have e5 : (key == "long") = false := by simpa using h5
  simp [locationKeys, List.lookup, e1, e2, e3, e4, e5, h1, h2, h3, h4, h5]

/-- The key of a segment without `=` is the whole segment, trimmed and
lower-cased. -/
theorem segmentKey_of_no_eq (lib : Lib U) (segment : String) (h : '=' ∉ segment.data) :
    segmentKey lib segment =
      strings.ToLower lib.unicode (strings.TrimSpace lib.unicode segment) := by
  unfold segmentKey
  have ht : (segment.data.takeWhile fun c => decide (c ≠ '=')) = segment.data := by
    rw [List.takeWhile_eq_self_iff]
    intro c hc
    have : c ≠ '=' := fun e => h (e ▸ hc)
    simpa using this
  rw [ht]

/-- A round of the loop panics exactly on a crashing segment. -/
theorem locationRound_eq_none_iff (lib : Lib U) (value : String) :
    locationRound lib value = none ↔ crashingSegment lib value = true := by
  unfold crashingSegment
  by_cases he : '=' ∈ value.data
  · rw [locationRound_spec lib value (fun _ => he)]
    simp [he]
  · by_cases hr : recognised lib value = true
    · have hk := (lookup_locationKeys_isSome (segmentKey lib value)).1 hr
      rw [segmentKey_of_no_eq lib value he] at hk
      simp only [locationRound_panic lib value hr he, true_iff, Bool.and_eq_true,
        decide_eq_true_eq]
      exact ⟨he, hk⟩
    · rw [locationRound_spec lib value (fun h => absurd h hr)]
      have hk : ¬ strings.ToLower lib.unicode (strings.TrimSpace lib.unicode value) ∈
          ["continent", "country", "city", "lat", "long"] := by
        intro hm
        rw [← segmentKey_of_no_eq lib value he] at hm
        exact hr ((lookup_locationKeys_isSome (segmentKey lib value)).2 hm)
      simp only [Bool.and_eq_true, decide_eq_true_eq]
      exact ⟨fun h => (by cases h), fun h => absurd h.2 hk⟩

/-- C26 (when a malformed X-Location header crashes the request). For every
attribute list and every location string: (1) `appendLocationAttributes`
panics on the index expression `keyValue[1]` if and only if some
comma-separated segment of the string contains no `=` and its
whitespace-trimmed, lower-cased text is one of `continent`, `country`, `city`,
`lat`, `long`; (2) for every other string it returns normally, and returns the
given attributes followed by the location attributes of the specification;
(3) the empty string is such a string: it returns the given attributes
unchanged. -/
theorem location_crashes_iff (lib : Lib U) (attrs : List (Attribute U)) (location : String) :
    (appendLocationAttributes lib attrs location = none ↔
      ∃ segment ∈ strings.Split location ',', crashingSegment lib segment = true) ∧
    ((¬ ∃ segment ∈ strings.Split location ',', crashingSegment lib segment = true) →
      appendLocationAttributes lib attrs location =
        some (attrs ++ locationAttributesSpec lib location)) ∧
    appendLocationAttributes lib attrs "" = some attrs := by
  have hiff : appendLocationAttributes lib attrs location = none ↔
      ∃ segment ∈ strings.Split location ',', crashingSegment lib segment = true := by
    rw [appendLocationAttributes_rounds,
      foldlM_eq_none_iff _ (locationRound lib) (fun _ _ => rfl)]
    constructor
    · rintro ⟨x, hx, h⟩
      exact ⟨x, hx, (locationRound_eq_none_iff lib x).1 h⟩
    · rintro ⟨x, hx, h⟩
      exact ⟨x, hx, (locationRound_eq_none_iff lib x).2 h⟩
  refine ⟨hiff, ?_, ?_⟩
  · intro hno
    apply appendLocationAttributes_spec
    intro segment hs hr
    by_contra he
    have hp := locationRound_panic lib segment hr he
    exact hno ⟨segment, hs, (locationRound_eq_none_iff lib segment).1 hp⟩
  · have h0 : strings.Split "" ',' = [""] := by decide
    have hk : segmentKey lib "" = "" := by
      simp [segmentKey, strings.ToLower, strings.TrimSpace]
    rw [appendLocationAttributes_rounds, h0]
    have hl : locationRound lib "" = some [] := by
      unfold locationRound
      rw [hk]
      rfl
    simp [List.foldlM_cons, hl]

/-- The panic is real in the model: a header holding just `lat`, and one
padded with blanks and in upper case after a well-formed pair, crash the
request; the empty header, an unrecognised key without `=` and a well-formed
pair do not. -/
theorem location_crash_examples :
    appendLocationAttributes exLib [] "lat" = none ∧
    appendLocationAttributes exLib [] "city=LA, COUNTRY " = none ∧
    appendLocationAttributes exLib [] "" = some [] ∧
    appendLocationAttributes exLib [] "planet" = some [] ∧
    appendLocationAttributes exLib [] "planet,city=LA" = some [⟨"c.city", .str "LA"⟩] := by
  decide

end httpmiddleware

/-! ## Merging configuration maps -/

namespace aws

/-- The loop of `mergeMaps` on a target that is not nil, from any heap in
which the source has the content `c`: it ends, leaves every object other than
the target untouched, leaves the content of the source as it was, and leaves
in the target, for the keys walked, the value of the source where the source
has one. -/
theorem mergeMaps_loop (t : Ref) (source : Option Ref) (c : String → Option Val)
    (order : List String) (h : Heap) (hc : content h source = c) :
    ∃ h1, mergeMaps h (some t) source order = some h1 ∧
      (∀ r, r ≠ t → h1 r = h r) ∧
      content h1 source = c ∧
      ∀ k, h1 t k = if k ∈ order then (match c k with
        | some v => some v
        | none => h t k) else h t k := by
  induction order generalizing h with
  | nil => exact ⟨h, rfl, fun _ _ => rfl, hc, fun k => by simp⟩
  | cons key rest ih =>
    cases hk : c key with
    | none =>
      obtain ⟨h1, hm, hframe, hsrc, hkeys⟩ := ih h hc
      refine ⟨h1, ?_, hframe, hsrc, ?_⟩
      · unfold mergeMaps at hm ⊢
        rw [List.foldlM_cons, hc, hk]
        exact hm
      · intro k
        rw [hkeys k]
        by_cases hkk : k = key
        · subst hkk
          simp [hk]
        · simp [hkk]
    | some v =>
      have hc1 : content (Heap.assign h t key v) source = c := by
        rw [← hc]
        cases source with
        | none => rfl
        | some s =>
          funext k
          simp only [content, Heap.assign]
          by_cases hst : s = t
          · subst hst
            by_cases hkk : k = key
            · subst hkk
              have : h s k = some v := by
                have := congrFun hc k
                simp only [content] at this
                rw [this, hk]
              simp [this]
            · simp [hkk]
          · simp [hst]
      obtain ⟨h1, hm, hframe, hsrc, hkeys⟩ := ih (Heap.assign h t key v) hc1
      refine ⟨h1, ?_, ?_, hsrc, ?_⟩
      · unfold mergeMaps at hm ⊢
        rw [List.foldlM_cons, hc, hk]
        exact hm
      · intro r hr
        rw [hframe r hr]
        simp [Heap.assign, hr]
      · intro k
        rw [hkeys k]
        by_cases hkk : k = key
        · subst hkk
          simp [hk, Heap.assign]
        · simp [hkk, Heap.assign]

/-- On a nil target `mergeMaps` returns, having done nothing, when the source
has no keys, and panics when the source has a key: the first iteration assigns
to an entry of a nil map. -/
theorem mergeMaps_nil_target (h : Heap) (source : Option Ref) (order : List String)
    (horder : ∀ k, k ∈ order ↔ (content h source k).isSome = true) :
    (order = [] → mergeMaps h none source order = some h) ∧
    (order ≠ [] → mergeMaps h none source order = none) := by
  constructor
  · intro he
    rw [he]
    rfl
  · intro hne
    cases order with
    | nil => exact absurd rfl hne
    | cons key rest =>
      have hk := (horder key).1 (List.mem_cons_self key rest)
      cases hv : content h source key with
      | none => rw [hv] at hk; cases hk
      | some v =>
        unfold mergeMaps
        rw [List.foldlM_cons, hv]
        rfl

/-- On a target that is not nil `mergeMaps` returns, whatever the source (nil,
another object, or the target itself), and leaves the top-level, source-biased
merge in the target. -/
theorem mergeMaps_of_target (h : Heap) (t : Ref) (source : Option Ref)
    (order : List String)
    (horder : ∀ k, k ∈ order ↔ (content h source k).isSome = true) :
    ∃ h1, mergeMaps h (some t) source order = some h1 ∧
      (∀ k v, content h source k = some v → h1 t k = some v) ∧
      (∀ k, content h source k = none → h1 t k = h t k) ∧
      (∀ k, (h1 t k).isSome = true ↔
        ((h t k).isSome = true ∨ (content h source k).isSome = true)) ∧
      (∀ r, r ≠ t → h1 r = h r) ∧
      content h1 source = content h source := by
  obtain ⟨h1, hm, hframe, hsrc, hkeys⟩ := mergeMaps_loop t source (content h source) order h rfl
  have hsome : ∀ k v, content h source k = some v → h1 t k = some v := by
    intro k v hv
    have hmem : k ∈ order := (horder k).2 (by rw [hv]; rfl)
    rw [hkeys k, if_pos hmem, hv]
  have hnone : ∀ k, content h source k = none → h1 t k = h t k := by
    intro k hv
    rw [hkeys k, hv]
    simp
  refine ⟨h1, hm, hsome, hnone, ?_, hframe, hsrc⟩
  intro k
  cases hv : content h source k with
  | none => rw [hnone k hv]; simp
  | some v => rw [hsome k v hv]; simp

/-- C21 (mergeMaps is a top-level, source-biased merge). For every heap of map
objects, all map values `target` and `source` (each nil, or a map object; they
may be the same object) and every order in which `range` walks the keys of the
source: the call `mergeMaps(target, source)` returns unless the target is nil
and the source has a key, in which case it panics; and whenever it returns,
afterwards (1) the target maps every key of the source to the value the source
holds for it, a nested map included, as the same map value; (2) it maps every
key that the source does not hold to what the target held for it before, a
missing key staying missing; (3) its key set is the union of the two key sets;
(4) no map object other than the target has changed, so that a nested map held
by the target before, and the nested map of the source that replaces it, have
the content they had: nothing is merged into either; (5) the content of the
source is what it was. -/
theorem mergeMaps_source_biased (h : Heap) (target source : Option Ref)
    (order : List String)
    (horder : ∀ k, k ∈ order ↔ (content h source k).isSome = true) :
    ((target ≠ none ∨ order = []) → ∃ h1, mergeMaps h target source order = some h1) ∧
    ((target = none ∧ order ≠ []) → mergeMaps h target source order = none) ∧
    ∀ h1, mergeMaps h target source order = some h1 →
      (∀ k v, content h source k = some v → content h1 target k = some v) ∧
      (∀ k, content h source k = none → content h1 target k = content h target k) ∧
      (∀ k, (content h1 target k).isSome = true ↔
        ((content h target k).isSome = true ∨ (content h source k).isSome = true)) ∧
      (∀ r, some r ≠ target → h1 r = h r) ∧
      content h1 source = content h source := by
  cases target with
  | none =>
    have hnil := mergeMaps_nil_target h source order horder
    refine ⟨?_, fun hp => hnil.2 hp.2, ?_⟩
    · rintro (hne | he)
      · exact absurd rfl hne
      · exact ⟨h, hnil.1 he⟩
    · intro h1 hm
      by_cases he : order = []
      · have heq : h1 = h := by
          rw [hnil.1 he] at hm
          exact (Option.some.inj hm).symm
        subst heq
        have hempty : ∀ k, content h1 source k = none := by
          intro k
          cases hv : content h1 source k with
          | none => rfl
          | some v =>
            have hmem : k ∈ order := (horder k).2 (by rw [hv]; rfl)
            rw [he] at hmem
            cases hmem
        refine ⟨?_, fun _ _ => rfl, ?_, fun _ _ => rfl, rfl⟩
        · intro k v hv
          rw [hempty k] at hv
          cases hv
        · intro k
          rw [hempty k]
          simp
      · rw [hnil.2 he] at hm
        cases hm
  | some t =>
    obtain ⟨h2, hm2, hsome, hnone, hkeys, hframe, hsrc⟩ :=
      mergeMaps_of_target h t source order horder
    refine ⟨fun _ => ⟨h2, hm2⟩, ?_, ?_⟩
    · rintro ⟨hn, _⟩
      cases hn
    · intro h1 hm
      have heq : h1 = h2 := by
        rw [hm2] at hm
        exact (Option.some.inj hm).symm
      subst heq
      exact ⟨hsome, hnone, hkeys, fun r hr => hframe r (fun e => hr (by rw [e])), hsrc⟩

/-- Witness of C21: the secrets (object 1) merged into the configuration
(object 0) of `exMaps`. The call returns; the configuration keeps `name`, gains
`token`, and under `db` holds the nested map of the secrets (object 3) in place
of its own (object 2); object 3 still has no `port` and object 2 still has its
two keys. -/
theorem mergeMaps_source_biased_witness :
    ∃ h1, mergeMaps exMaps (some 0) (some 1) ["token", "db"] = some h1 ∧
      h1 0 "name" = some (.str "svc") ∧ h1 0 "token" = some (.str "t") ∧
      h1 0 "db" = some (.map (some 3)) ∧ h1 3 "port" = none ∧
      h1 2 "port" = some (.str "1") ∧ h1 1 "name" = none := by
  have horder : ∀ k, k ∈ ["token", "db"] ↔ (content exMaps (some 1) k).isSome = true := by
    intro k
    by_cases h1 : k = "db"
    · subst h1; decide
    by_cases h2 : k = "token"
    · subst h2; decide
    simp [content, exMaps, h1, h2]
  have hall := mergeMaps_source_biased exMaps (some 0) (some 1) ["token", "db"] horder
  obtain ⟨h1, hm⟩ := hall.1 (Or.inl (by decide))
  obtain ⟨hsome, hnone, _, hframe, _⟩ := hall.2.2 h1 hm
  refine ⟨h1, hm, ?_, hsome "token" _ rfl, hsome "db" _ rfl, ?_, ?_, ?_⟩
  · exact (hnone "name" rfl).trans rfl
  · rw [hframe 3 (by decide)]; rfl
  · rw [hframe 2 (by decide)]; rfl
  · rw [hframe 1 (by decide)]; rfl

/-- The panic is real in the model: merging the secrets of `exMaps` into a nil
map panics at the first iteration. -/
theorem mergeMaps_nil_target_example :
    (mergeMaps exMaps none (some 1) ["token", "db"]).isSome = false := by
  decide

end aws

/-! ## The commander -/

namespace commander

variable {X C R E σ : Type}

/-- The handler most recently registered, one registration later. -/
theorem mostRecent_cons (handler : Handler X C R E σ) (zeroCommand : Command C)
    (rest : List (Handler X C R E σ × Command C)) (key : String) :
    mostRecent ((handler, zeroCommand) :: rest) key =
      match mostRecent rest key with
      | some later => some later
      | none => if zeroCommand.Key = key then some handler else none := by
  unfold mostRecent
  rw [List.reverse_cons, List.find?_append]
  cases hf : rest.reverse.find? fun reg => decide (reg.2.Key = key) with
  | some reg => simp
  | none =>
    by_cases hk : zeroCommand.Key = key
    · simp [List.find?_cons, hk]
    · simp [List.find?_cons, hk]

/-- A chain of `WithHandler` calls on a commander that holds a map object: the
commander returned holds the same object, and the object holds under every key
the handler most recently registered under it by the chain, or, if there is
none, what it held. -/
theorem chain_of_some (regs : List (Handler X C R E σ × Command C)) (h : Heap X C R E σ)
    (m : Ref) (key : String) :
    (Commander.chain h { handlers := some m } regs).2 = { handlers := some m } ∧
      (Commander.chain h { handlers := some m } regs).1.maps m key =
        match mostRecent regs key with
        | some handler => some handler
        | none => h.maps m key := by
  induction regs generalizing h with
  | nil => exact ⟨rfl, rfl⟩
  | cons reg rest ih =>
    obtain ⟨handler, zeroCommand⟩ := reg
    have hstep : Commander.chain h { handlers := some m } ((handler, zeroCommand) :: rest) =
        Commander.chain (h.assign m zeroCommand.Key handler) { handlers := some m } rest := rfl
    rw [hstep, mostRecent_cons]
    obtain ⟨h1, h2⟩ := ih (h.assign m zeroCommand.Key handler)
    refine ⟨h1, ?_⟩
    rw [h2]
    cases mostRecent rest key with
    | some later => rfl
    | none =>
      by_cases hk : zeroCommand.Key = key
      · simp [Heap.assign, hk]
      · have hk1 : ¬ key = zeroCommand.Key := fun e => hk e.symm
        simp [Heap.assign, hk, hk1]

/-- What the commander built from the zero value by a chain of `WithHandler`
calls finds under a key: the handler most recently registered under it. -/
theorem index_chain_zero (regs : List (Handler X C R E σ × Command C)) (h : Heap X C R E σ)
    (key : String) :
    (Commander.chain h Commander.zero regs).1.index
        (Commander.chain h Commander.zero regs).2.handlers key = mostRecent regs key := by
  cases regs with
  | nil => rfl
  | cons reg rest =>
    obtain ⟨handler, zeroCommand⟩ := reg
    have hstep : Commander.chain h Commander.zero ((handler, zeroCommand) :: rest) =
        Commander.chain (h.make.1.assign h.next zeroCommand.Key handler)
          { handlers := some h.next } rest := rfl
    obtain ⟨h1, h2⟩ := chain_of_some rest (h.make.1.assign h.next zeroCommand.Key handler)
      h.next key
    rw [hstep, h1]
    show (Commander.chain (h.make.1.assign h.next zeroCommand.Key handler)
      { handlers := some h.next } rest).1.maps h.next key = _
    rw [h2, mostRecent_cons]
    cases mostRecent rest key with
    | some later => rfl
    | none =>
      by_cases hk : zeroCommand.Key = key
      · simp [Heap.assign, Heap.make, hk]
      · have hk1 : ¬ key = zeroCommand.Key := fun e => hk e.symm
        simp [Heap.assign, Heap.make, hk, hk1]

/-- C27 (Commander dispatch). For every heap of map objects, every chain
`regs` of `WithHandler` calls that starts from the zero `Commander` (the empty
chain gives the zero `Commander` itself), every context, command `c` and
world: (1) if the chain registered a handler under `c.Key()`, `Execute(ctx, c)`
on the commander built ends as `HandleIt(ctx, c)` of the most recently
registered such handler ends, with its result and its effect on the world,
calls that handler and no other, and logs nothing; (2) if the chain registered
no handler under `c.Key()`, it calls no handler, leaves the world as it was,
and returns a nil value with the error whose message is `Commander encountered
a command for which no handler was configured: ` followed by `c.Key()`, which
it logs. -/
theorem commander_dispatch (h : Heap X C R E σ) (regs : List (Handler X C R E σ × Command C))
    (ctx : X) (c : Command C) (w : σ) :
    (∀ handler, mostRecent regs c.Key = some handler →
      Commander.Execute (Commander.chain h Commander.zero regs).1
          (Commander.chain h Commander.zero regs).2 ctx c w =
        { result := (handler ctx c w).1, world := (handler ctx c w).2,
          invoked := [handler], logged := [] }) ∧
    (mostRecent regs c.Key = none →
      Commander.Execute (Commander.chain h Commander.zero regs).1
          (Commander.chain h Commander.zero regs).2 ctx c w =
        { result := .returned none (some (.errorf
            ("Commander encountered a command for which no handler was configured: " ++
              c.Key))),
          world := w, invoked := [],
          logged := [.errorf
            ("Commander encountered a command for which no handler was configured: " ++
              c.Key)] }) := by
  have hi := index_chain_zero regs h c.Key
  constructor
  · intro handler hm
    unfold Commander.Execute
    rw [hi, hm]
  · intro hm
    unfold Commander.Execute
    rw [hi, hm]

/-- The commander of C27 on the registrations `exRegs`: `add` is dispatched to
the handler registered last under it, `del` to the failing handler, and `get`,
like every command on the zero `Commander`, to none. -/
theorem commander_dispatch_examples :
    ((Commander.chain exHandlers Commander.zero exRegs).2.Execute
        (Commander.chain exHandlers Commander.zero exRegs).1 () ⟨"add", 5⟩ 0).result =
      .returned (some 7) none ∧
    ((Commander.chain exHandlers Commander.zero exRegs).2.Execute
        (Commander.chain exHandlers Commander.zero exRegs).1 () ⟨"add", 5⟩ 0).world = 1 ∧
    ((Commander.chain exHandlers Commander.zero exRegs).2.Execute
        (Commander.chain exHandlers Commander.zero exRegs).1 () ⟨"del", 5⟩ 0).result =
      .returned none (some (.other "failed")) ∧
    ((Commander.chain exHandlers Commander.zero exRegs).2.Execute
        (Commander.chain exHandlers Commander.zero exRegs).1 () ⟨"get", 5⟩ 0).result =
      .returned none (some (.errorf
        "Commander encountered a command for which no handler was configured: get")) ∧
    ((Commander.zero.Execute exHandlers () ⟨"add", 5⟩ 0 :
        Executed Unit Nat Nat String Nat).result) =
      .returned none (some (.errorf
        "Commander encountered a command for which no handler was configured: add")) := by
  decide

/-- The commanders of a chain share one map object: a registration made on a
later commander of the chain is seen by an earlier one, the zero `Commander`
apart. -/
theorem commander_chain_shares_map :
    ((Commander.zero.WithHandler exHandlers (exAdd 1) ⟨"add", 0⟩).2.Execute
        (Commander.chain exHandlers Commander.zero exRegs).1 () ⟨"del", 5⟩ 0).result =
      .returned none (some (.other "failed")) := by
  decide

end commander

/-! ## The panic recovery middleware -/

namespace httpmiddleware

variable {W R σ P : Type}

/-- C20 (panic responder is invoked iff a panic is recovered), evaluated where
the code departs from it: `PanicRecoveryMiddleware(nil)(next)` with a next
handler that panics with `"boom"`. The panic is recovered and logged with the
generated error id, `ServeHTTP` returns normally, and no responder is invoked:
the guard `panicResponder != nil` skips the call, although a panic was
recovered. -/
theorem panic_responder_skipped_when_nil :
    (exPanickingNext () "req" []).2 = .panicked (some "boom") ∧
    (PanicRecoveryMiddleware exPanicEnv none exPanickingNext () "req" []).responded = [] ∧
    (PanicRecoveryMiddleware exPanicEnv none exPanickingNext () "req" []).exit = .returned ∧
    (PanicRecoveryMiddleware exPanicEnv none exPanickingNext () "req" []).world =
      ["next", "panic boom e1"] := by
  decide

/-- What the recovery handler does, for every next handler, writer, request and
world. With a responder that is not nil: it invokes the responder exactly
once, with the same writer and request and the generated error id, if and only
if `next.ServeHTTP` panics with a value that `recover()` reports as non-nil,
and makes no invocation otherwise; it ends as the responder ends when the
responder is invoked, and returns normally when it is not. With a nil
responder it invokes none and returns normally. The panic of the next handler
itself is never propagated. -/
theorem PanicRecoveryMiddleware_spec (env : PanicEnv σ P) (respond : Responder W R σ P)
    (next : Handler W R σ P) (w : W) (r : R) (s : σ) :
    ((PanicRecoveryMiddleware env (some respond) next w r s).responded =
        [(w, r, (env.generate (next w r s).1).1)] ↔
      ∃ err, (next w r s).2 = .panicked (some err)) ∧
    ((PanicRecoveryMiddleware env (some respond) next w r s).responded = [] ↔
      ¬ ∃ err, (next w r s).2 = .panicked (some err)) ∧
    (∀ err, (next w r s).2 = .panicked (some err) →
      (PanicRecoveryMiddleware env (some respond) next w r s).exit =
        (respond w r (env.generate (next w r s).1).1
          (env.logError err (env.generate (next w r s).1).1
            (env.generate (next w r s).1).2)).2) ∧
    ((¬ ∃ err, (next w r s).2 = .panicked (some err)) →
      (PanicRecoveryMiddleware env (some respond) next w r s).exit = .returned) ∧
    (PanicRecoveryMiddleware env none next w r s).responded = [] ∧
    (PanicRecoveryMiddleware env none next w r s).exit = .returned := by
  unfold PanicRecoveryMiddleware
  rcases hn : next w r s with ⟨s1, _ | _ | err⟩
  · simp
  · simp
  · simp

/-- The recovery handler on three runs: a next handler that panics with
`"boom"` and a responder that returns (the responder is invoked once with the
error id, and the handler returns normally); a next handler that returns (the
responder is not invoked); a responder that itself panics (its panic leaves
the handler). -/
theorem panic_responder_examples :
    (PanicRecoveryMiddleware exPanicEnv (some exResponder) exPanickingNext () "req"
      []).responded = [((), "req", "e1")] ∧
    (PanicRecoveryMiddleware exPanicEnv (some exResponder) exPanickingNext () "req"
      []).exit = .returned ∧
    (PanicRecoveryMiddleware exPanicEnv (some exResponder) exReturningNext () "req"
      []).responded = [] ∧
    (PanicRecoveryMiddleware exPanicEnv
      (some (fun _ _ _ s => (s, .panicked (some "again")))) exPanickingNext () "req"
      []).exit = .panicked (some "again") := by
  decide

end httpmiddleware

/-! ## The correlation ids -/

namespace httpmiddleware

open gocontext

variable {B : Type}

/-- The next handler is called once, with the response header map and the
request that the middleware prepared, whatever the next handler is. -/
theorem CorrelationIdMiddleware_next {β : Type} (generated : String)
    (next : Header → Request B → β) (w : Header) (r : Request B) :
    CorrelationIdMiddleware generated next w r =
      next (CorrelationIdMiddleware generated Prod.mk w r).1
        (CorrelationIdMiddleware generated Prod.mk w r).2 := rfl

/-- The client correlation id is read back from under a correlation id. -/
theorem FromContextWithClientCorrelationId_NewContext (ctx : Context B) (id : String) :
    correlation.FromContextWithClientCorrelationId (correlation.NewContext ctx id) =
      correlation.FromContextWithClientCorrelationId ctx := by
  have hne : (CtxKey.str correlation.CorrelationIdKey) ≠
      CtxKey.str correlation.ClientCorrelationIdKey := by decide
  simp [correlation.FromContextWithClientCorrelationId, correlation.NewContext, WithValue,
    Value, hne]

/-- What the middleware hands to the next handler: the response header map
with the correlation id added and then, if it is not empty, the client
correlation id; and the request with the correlation id stored in its context
and on top of it, if it is not empty, the client correlation id. -/
theorem CorrelationIdMiddleware_out (generated : String) (w : Header) (r : Request B) :
    CorrelationIdMiddleware generated Prod.mk w r =
      if firstOrEmpty ((r.Header ClientCorrelationIdHeader).getD []) = "" then
        (Header.Add w CorrelationIdHeader
            (if firstOrEmpty ((r.Header CorrelationIdHeader).getD []) = "" then generated
              else firstOrEmpty ((r.Header CorrelationIdHeader).getD [])),
          { r with
            ctx := correlation.NewContext r.ctx
              (if firstOrEmpty ((r.Header CorrelationIdHeader).getD []) = "" then generated
                else firstOrEmpty ((r.Header CorrelationIdHeader).getD [])) })
      else
        (Header.Add
            (Header.Add w CorrelationIdHeader
              (if firstOrEmpty ((r.Header CorrelationIdHeader).getD []) = "" then generated
                else firstOrEmpty ((r.Header CorrelationIdHeader).getD [])))
            ClientCorrelationIdHeader
            (firstOrEmpty ((r.Header ClientCorrelationIdHeader).getD [])),
          { r with
            ctx := correlation.NewContextWithClientCorrelationId
              (correlation.NewContext r.ctx
                (if firstOrEmpty ((r.Header CorrelationIdHeader).getD []) = "" then generated
                  else firstOrEmpty ((r.Header CorrelationIdHeader).getD [])))
              (firstOrEmpty ((r.Header ClientCorrelationIdHeader).getD [])) }) := by
  unfold CorrelationIdMiddleware
  by_cases hc : firstOrEmpty ((r.Header ClientCorrelationIdHeader).getD []) = ""
  · simp only [hc, ne_eq, not_true_eq_false, if_false, if_true]
  · simp only [hc, ne_eq, not_false_eq_true, if_false, if_true]

/-- C22 (correlation id consistency). For every request `r` handled by
`CorrelationIdMiddleware`, every response header map `w` and whatever
`shortid.Generate` would return: the next handler is called once, with a
response header map and a request such that (1) the response header map holds
under `X-Correlation-Id` the values it held before followed by one added
value, the correlation id of the specification: the first value of the
`X-Correlation-Id` header of `r` when that value is not the empty string, and
the generated short id otherwise; (2) `correlation.FromContext` reads that
same id from the context of the request handed over, whatever it would
generate itself; (3) the context holds it under the key `correlation-id`. -/
theorem correlation_id_consistency (generated : String) (w : Header) (r : Request B) :
    (∀ (β : Type) (next : Header → Request B → β),
      CorrelationIdMiddleware generated next w r =
        next (CorrelationIdMiddleware generated Prod.mk w r).1
          (CorrelationIdMiddleware generated Prod.mk w r).2) ∧
    (CorrelationIdMiddleware generated Prod.mk w r).1 "X-Correlation-Id" =
      some ((w "X-Correlation-Id").getD [] ++ [correlationIdSpec generated r.Header]) ∧
    (∀ g, correlation.FromContext (CorrelationIdMiddleware generated Prod.mk w r).2.ctx g =
      correlationIdSpec generated r.Header) ∧
    Value (CorrelationIdMiddleware generated Prod.mk w r).2.ctx (.str "correlation-id") =
      some (.str (correlationIdSpec generated r.Header)) := by
  have hcid : (if firstOrEmpty ((r.Header CorrelationIdHeader).getD []) = "" then generated
      else firstOrEmpty ((r.Header CorrelationIdHeader).getD [])) =
      correlationIdSpec generated r.Header := by
    unfold correlationIdSpec
    have hname : CorrelationIdHeader = "X-Correlation-Id" := rfl
    rw [hname]
    rcases r.Header "X-Correlation-Id" with _ | _ | ⟨first, rest⟩ <;> simp [firstOrEmpty]
  have hk : (CtxKey.str "client-correlation-id") ≠ CtxKey.str "correlation-id" := by decide
  have hne : ("X-Correlation-Id" : String) ≠ "X-Client-Correlation-Id" := by decide
  refine ⟨fun β next => rfl, ?_, ?_, ?_⟩
  · rw [CorrelationIdMiddleware_out, hcid]
    split
    · simp [Header.Add, CorrelationIdHeader]
    · simp [Header.Add, CorrelationIdHeader, ClientCorrelationIdHeader, hne]
  · intro g
    rw [CorrelationIdMiddleware_out, hcid]
    split
    · simp [correlation.FromContext, correlation.NewContext, correlation.CorrelationIdKey,
        WithValue, Value]
    · simp [correlation.FromContext, correlation.NewContext,
        correlation.NewContextWithClientCorrelationId, correlation.CorrelationIdKey,
        correlation.ClientCorrelationIdKey, WithValue, Value, hk]
  · rw [CorrelationIdMiddleware_out, hcid]
    split
    · simp [correlation.NewContext, correlation.CorrelationIdKey, WithValue, Value]
    · simp [correlation.NewContext, correlation.NewContextWithClientCorrelationId,
        correlation.CorrelationIdKey, correlation.ClientCorrelationIdKey, WithValue, Value, hk]

/-- Witness of C22: the request `exCorrelated` carries the header
`X-Correlation-Id: gw-1, gw-2`, the response header map already holds the value
`earlier`. The first value `gw-1` is added after it, and is what the next
handler reads from its context. -/
theorem correlation_id_consistency_witness :
    (CorrelationIdMiddleware "generated" Prod.mk exResponseHeader exCorrelated).1
        "X-Correlation-Id" = some ["earlier", "gw-1"] ∧
    correlation.FromContext
        (CorrelationIdMiddleware "generated" Prod.mk exResponseHeader exCorrelated).2.ctx
        "other" = "gw-1" :=
  ⟨(correlation_id_consistency "generated" exResponseHeader exCorrelated).2.1.trans
      (by decide),
    by decide⟩

/-- The middleware of C22 on a request without the header, and on one whose
first value is the empty string: the generated id is added and stored. -/
theorem correlation_id_examples :
    (CorrelationIdMiddleware "generated" Prod.mk exResponseHeader exBareRequest).1
        "X-Correlation-Id" = some ["earlier", "generated"] ∧
    correlation.FromContext
        (CorrelationIdMiddleware "generated" Prod.mk exResponseHeader exBareRequest).2.ctx
        "other" = "generated" ∧
    (CorrelationIdMiddleware "generated" Prod.mk exResponseHeader
        ({ Header := fun name => if name = "X-Correlation-Id" then some ["", "gw-2"] else none,
           ctx := Background } : Request Unit)).1
        "X-Correlation-Id" = some ["earlier", "generated"] := by
  decide

/-- C23 (client correlation id round trip). (1) For every context `ctx` and
string `c`, `FromContextWithClientCorrelationId` reads `c` from
`NewContextWithClientCorrelationId(ctx, c)`. (2) It returns the empty string
for a context that holds no value under the key `client-correlation-id`.
(3) When the request has a first `X-Client-Correlation-Id` value `c` that is
not the empty string, `CorrelationIdMiddleware` hands to the next handler a
context from which `c` is read back, and a response header map that holds
under `X-Client-Correlation-Id` the values it held before followed by `c`.
(4) Otherwise (no header, no value, or an empty first value) the context
handed over holds under `client-correlation-id` what the context of the
request held, and the response header map holds under
`X-Client-Correlation-Id` what it held before. (5) Storing a correlation id
with `NewContext` does not change the client correlation id read back. -/
theorem client_correlation_id_round_trip (ctx : Context B) (c id generated : String)
    (w : Header) (r : Request B) :
    correlation.FromContextWithClientCorrelationId
        (correlation.NewContextWithClientCorrelationId ctx c) = c ∧
    (Value ctx (.str "client-correlation-id") = none →
      correlation.FromContextWithClientCorrelationId ctx = "") ∧
    (∀ first, clientCorrelationIdSpec r.Header = some first →
      correlation.FromContextWithClientCorrelationId
          (CorrelationIdMiddleware generated Prod.mk w r).2.ctx = first ∧
      (CorrelationIdMiddleware generated Prod.mk w r).1 "X-Client-Correlation-Id" =
        some ((w "X-Client-Correlation-Id").getD [] ++ [first])) ∧
    (clientCorrelationIdSpec r.Header = none →
      Value (CorrelationIdMiddleware generated Prod.mk w r).2.ctx
          (.str "client-correlation-id") =
        Value r.ctx (.str "client-correlation-id") ∧
      (CorrelationIdMiddleware generated Prod.mk w r).1 "X-Client-Correlation-Id" =
        w "X-Client-Correlation-Id") ∧
    correlation.FromContextWithClientCorrelationId (correlation.NewContext ctx id) =
      correlation.FromContextWithClientCorrelationId ctx := by
  have hclient : (if firstOrEmpty ((r.Header ClientCorrelationIdHeader).getD []) = "" then none
      else some (firstOrEmpty ((r.Header ClientCorrelationIdHeader).getD []))) =
      clientCorrelationIdSpec r.Header := by
    unfold clientCorrelationIdSpec
    have hname : ClientCorrelationIdHeader = "X-Client-Correlation-Id" := rfl
    rw [hname]
    rcases r.Header "X-Client-Correlation-Id" with _ | _ | ⟨first, rest⟩ <;>
      simp [firstOrEmpty]
  have hk : (CtxKey.str "correlation-id") ≠ CtxKey.str "client-correlation-id" := by decide
  have hne : ("X-Client-Correlation-Id" : String) ≠ "X-Correlation-Id" := by decide
  have hkey : correlation.ClientCorrelationIdKey = "client-correlation-id" := rfl
  refine ⟨?_, ?_, ?_, ?_, FromContextWithClientCorrelationId_NewContext ctx id⟩
  · simp [correlation.FromContextWithClientCorrelationId,
      correlation.NewContextWithClientCorrelationId, WithValue, Value]
  · intro h
    simp [correlation.FromContextWithClientCorrelationId, hkey, h]
  · intro first hc
    rw [← hclient] at hc
    rw [CorrelationIdMiddleware_out]
    by_cases he : firstOrEmpty ((r.Header ClientCorrelationIdHeader).getD []) = ""
    · simp [he] at hc
    · simp only [he, if_false, Option.some.injEq] at hc
      rw [if_neg he, hc]
      constructor
      · simp [correlation.FromContextWithClientCorrelationId,
          correlation.NewContextWithClientCorrelationId, hkey, WithValue, Value]
      · simp [Header.Add, ClientCorrelationIdHeader, CorrelationIdHeader, hne]
  · intro hc
    rw [← hclient] at hc
    rw [CorrelationIdMiddleware_out]
    by_cases he : firstOrEmpty ((r.Header ClientCorrelationIdHeader).getD []) = ""
    · rw [if_pos he]
      constructor
      · simp [correlation.NewContext, correlation.CorrelationIdKey, WithValue, Value, hk]
      · simp [Header.Add, CorrelationIdHeader, hne]
    · simp [he] at hc

/-- Witness of C23: the request `exCorrelated` carries the header
`X-Client-Correlation-Id: client-7`; the id is read back from the context
handed to the next handler and is echoed in the response header map, and it is
read back from a context to which it was added. -/
theorem client_correlation_id_round_trip_witness :
    correlation.FromContextWithClientCorrelationId
        (CorrelationIdMiddleware "generated" Prod.mk exResponseHeader exCorrelated).2.ctx =
      "client-7" ∧
    (CorrelationIdMiddleware "generated" Prod.mk exResponseHeader exCorrelated).1
        "X-Client-Correlation-Id" = some ["client-7"] ∧
    correlation.FromContextWithClientCorrelationId
        (correlation.NewContextWithClientCorrelationId (Background : Context Unit)
          "client-7") = "client-7" :=
  ⟨((client_correlation_id_round_trip (Background : Context Unit) "client-7" "id"
      "generated" exResponseHeader exCorrelated).2.2.1 "client-7" (by decide)).1,
    by decide,
    (client_correlation_id_round_trip (Background : Context Unit) "client-7" "id"
      "generated" exResponseHeader exCorrelated).1⟩

/-- The middleware of C23 on a request without the header: the response
header map is left without the key and the context without a client
correlation id. -/
theorem client_correlation_id_examples :
    correlation.FromContextWithClientCorrelationId
        (CorrelationIdMiddleware "generated" Prod.mk exResponseHeader exBareRequest).2.ctx =
      "" ∧
    (CorrelationIdMiddleware "generated" Prod.mk exResponseHeader exBareRequest).1
        "X-Client-Correlation-Id" = none := by
  decide

end httpmiddleware

/-! ## The claims of the audit handler -/

namespace httpmiddleware

open goslice integrationevents gocontext auditeventspublisher

variable {B U W : Type}

/-- A stored claims map is carried, a nil map is not, and the empty context
carries none. -/
theorem carriedClaims_NewContext (ctx : Context B) (claims : Option Claims) :
    carriedClaims (jwtverifier.NewContext ctx claims) = claims ∧
      carriedClaims (Background : Context B) = none := by
  constructor
  · cases claims <;> rfl
  · rfl

/-- The location loop panics exactly when a segment crashes. -/
theorem appendLocationAttributes_eq_none_iff (lib : Lib U) (attrs : List (Attribute U))
    (location : String) :
    appendLocationAttributes lib attrs location = none ↔
      (strings.Split location ',').any (crashingSegment lib) = true := by
  rw [appendLocationAttributes_rounds,
    foldlM_eq_none_iff _ (locationRound lib) (fun _ _ => rfl), List.any_eq_true]
  constructor
  · rintro ⟨x, hx, h⟩
    exact ⟨x, hx, (locationRound_eq_none_iff lib x).1 h⟩
  · rintro ⟨x, hx, h⟩
    exact ⟨x, hx, (locationRound_eq_none_iff lib x).2 h⟩

/-- Counterexample to C18: the context of `exCrashRequest` carries no claims
and its `X-Location` header is `lat`; the handler panics in the header loop,
so that no publisher is installed and the next handler is not called. -/
theorem claims_without_next_counterexample :
    (jwtverifier.ClaimsFromContext exCrashRequest.ctx).isSome = false ∧
    (HttpAuditMiddleware exLib () "httpAuditMiddlewareTest" 0 exNext () exCrashRequest
      exHeap).isSome = false := by
  decide

/-- C18, as amended (claims-to-attribute mapping). For every request, writer
and heap: (1) the handler of `HttpAuditMiddleware` panics exactly when the
first `X-Location` value has a segment that crashes the header loop, whatever
the context carries: a claim that is missing, not a string or not a UUID
causes no failure. (2) When no segment crashes, the handler calls the next
handler once, with a request that has the headers of the original and whose
context carries an `AuditEventsPublisher` with the given broker publisher and
source; its attributes read `c.id`, `c.tenantid` and `u.id`, in that order and
before all header attributes, exactly for those of the claims `client_id`,
`client_tenant_id` and `sub` that the context carries as strings parsing as a
UUID, each with the parsed UUID as value, followed by the header and location
attributes; a warning is logged exactly when the context carries no claims.
(3) When the context carries no claims at all the attributes are the header
and location attributes alone. (4) The claims a context carries are those
stored with `jwtverifier.NewContext`, a nil map counting as none. -/
theorem claims_to_attribute_mapping (lib : Lib U) (publisher : B) (source : String)
    (slack : Nat) (w : W) (r : Request B) (h : Heap (Attribute U)) :
    (∀ (β : Type) (next : W → Request B → Heap (Attribute U) → β),
      HttpAuditMiddleware lib publisher source slack next w r h = none ↔
        locationCrashes lib r.Header = true) ∧
    (locationCrashes lib r.Header = false →
      ∃ (r1 : Request B) (h1 : Heap (Attribute U)) (p : AuditEventsPublisher B),
        (∀ (β : Type) (next : W → Request B → Heap (Attribute U) → β),
          HttpAuditMiddleware lib publisher source slack next w r h =
            some ⟨if (carriedClaims r.ctx).isSome then []
              else ["Could not get claims from context"], next w r1 h1⟩) ∧
        r1.Header = r.Header ∧
        auditeventspublisher.FromContext r1.ctx = some p ∧
        p.publisher = publisher ∧ p.source = source ∧
        h1.read p.attributes = handedAttributesSpec lib r) ∧
    (carriedClaims r.ctx = none →
      handedAttributesSpec lib r =
        (headerAttributesSpec r.Header ++
          match r.Header "X-Location" with
          | none => []
          | some values => locationAttributesSpec lib (values.headD "") :
          List (Attribute U))) ∧
    (∀ (ctx : Context B) (claims : Option Claims),
      carriedClaims (jwtverifier.NewContext ctx claims) = claims) ∧
    carriedClaims (Background : Context B) = none := by
  have hfirst : ∀ values : List String, firstOrEmpty values = values.headD "" := by
    intro values
    cases values <;> rfl
  have hcarried : ∀ ctx : Context B, jwtverifier.ClaimsFromContext ctx = carriedClaims ctx := by
    intro ctx
    unfold jwtverifier.ClaimsFromContext carriedClaims
    induction ctx with
    | nil => rfl
    | cons entry rest ih =>
      obtain ⟨k, v⟩ := entry
      by_cases hk : k = CtxKey.tokenContextKey
      · subst hk
        simp only [gocontext.Value, List.find?_cons, decide_True, if_true]
        cases v with
        | claims m => cases m <;> rfl
        | str s => rfl
        | auditPublisher p => rfl
        | other n => rfl
      · simp only [gocontext.Value, List.find?_cons, hk, decide_False, if_false]
        exact ih
  have hname : HeaderXLocation = "X-Location" := rfl
  have hcrash : ∀ attrs : List (Attribute U),
      fillHeaders lib r.Header attrs = none ↔ locationCrashes lib r.Header = true := by
    intro attrs
    rw [fillHeaders_spec, hname]
    unfold locationCrashes
    cases r.Header "X-Location" with
    | none => simp
    | some values =>
      simp only
      rw [appendLocationAttributes_eq_none_iff, hfirst]
  have hspec : auditAttributesSpec lib r = handedAttributesSpec lib r := by
    unfold auditAttributesSpec handedAttributesSpec claimsAttributesSpec
    rw [hcarried, hname]
    cases r.Header "X-Location" with
    | none => rfl
    | some values =>
      show _ ++ locationAttributesSpec lib (firstOrEmpty values) =
        _ ++ locationAttributesSpec lib (values.headD "")
      rw [hfirst]
  refine ⟨?_, ?_, ?_, fun ctx claims => (carriedClaims_NewContext ctx claims).1, rfl⟩
  · intro β next
    rw [HttpAuditMiddleware_eq, Option.map_eq_none', hcrash]
  · intro hno
    have hloc : ∀ values, r.Header HeaderXLocation = some values →
        ∀ segment ∈ strings.Split (firstOrEmpty values) ',',
          recognised lib segment = true → '=' ∈ segment.data := by
      intro values hv segment hs hr
      by_contra he
      have hseg := (locationRound_eq_none_iff lib segment).1
        (locationRound_panic lib segment hr he)
      rw [hname] at hv
      have hany : locationCrashes lib r.Header = true := by
        unfold locationCrashes
        rw [hv]
        simp only [List.any_eq_true]
        exact ⟨segment, by rw [← hfirst]; exact hs, hseg⟩
      rw [hno] at hany
      cases hany
    refine ⟨auditRequest publisher source r
        (Heap.alloc Attribute.zero h (handedAttributesSpec lib r) slack).2,
      (Heap.alloc Attribute.zero h (handedAttributesSpec lib r) slack).1,
      NewAuditEventsPublisher publisher
        (Heap.alloc Attribute.zero h (handedAttributesSpec lib r) slack).2 source,
      ?_, rfl, auditRequest_FromContext publisher source r _, rfl, rfl,
      alloc_read Attribute.zero h (handedAttributesSpec lib r) slack⟩
    intro β next
    rw [HttpAuditMiddleware_spec lib publisher source slack next w r h hloc, hspec]
    unfold claimWarnings handOver
    rw [hcarried]
    cases carriedClaims r.ctx <;> rfl
  · intro hnone
    unfold handedAttributesSpec
    rw [hnone]
    rfl

/-- Witness of C18 as amended: the request of the first test, whose context
carries the three claims and whose location header is well formed. The next
handler receives a publisher whose attributes start with `c.id`, `c.tenantid`
and `u.id`, valued with the UUIDs of the claims, before the first header
attribute, and no warning is logged. -/
theorem claims_to_attribute_mapping_witness :
    (∃ (r1 : Request Unit) (h1 : Heap (Attribute String)) (p : AuditEventsPublisher Unit),
      HttpAuditMiddleware exLib () "httpAuditMiddlewareTest" 3 exNext () exRequest exHeap =
        some ⟨[], (r1, h1)⟩ ∧
      auditeventspublisher.FromContext r1.ctx = some p ∧
      (h1.read p.attributes).take 4 =
        [⟨"c.id", .uuid "09c1c91a-84bb-4db4-852d-b49670c2a3d3"⟩,
         ⟨"c.tenantid", .uuid "7d9e0f1a-2b3c-4d5e-8f90-a1b2c3d4e5f6"⟩,
         ⟨"u.id", .uuid "5b2c5f0e-8a46-4f0e-9d43-1c2b3a4d5e6f"⟩,
         ⟨"c.proto", .str "proto"⟩]) ∧
    (HttpAuditMiddleware exLib () "httpAuditMiddlewareTest" 3 exNext () exRequest
      exHeap).map (fun served =>
        (served.logged,
          (auditeventspublisher.FromContext served.next.1.ctx).map fun p =>
            (served.next.2.read p.attributes).take 3)) =
      some ([], some [⟨"c.id", .uuid "09c1c91a-84bb-4db4-852d-b49670c2a3d3"⟩,
        ⟨"c.tenantid", .uuid "7d9e0f1a-2b3c-4d5e-8f90-a1b2c3d4e5f6"⟩,
        ⟨"u.id", .uuid "5b2c5f0e-8a46-4f0e-9d43-1c2b3a4d5e6f"⟩]) := by
  obtain ⟨r1, h1, p, hrun, _, hp, _, _, hread⟩ :=
    (claims_to_attribute_mapping exLib () "httpAuditMiddlewareTest" 3 () exRequest
      exHeap).2.1 (by decide)
  refine ⟨⟨r1, h1, p, ?_, hp, ?_⟩, by decide⟩
  · rw [hrun _ exNext]
    rfl
  · rw [hread]
    decide

/-- The handler on the request of the second test, which carries no claims: a
warning is logged, the publisher handed on has the one header attribute and
no claim attribute. -/
theorem claims_absent_example :
    (HttpAuditMiddleware exLib () "httpAuditMiddlewareTest" 0 exNext () exBareRequest
      exHeap).map (fun served =>
        (served.logged,
          (auditeventspublisher.FromContext served.next.1.ctx).map fun p =>
            served.next.2.read p.attributes)) =
      some (["Could not get claims from context"], some [⟨"c.ip", .str "128.4.5.120"⟩]) := by
  decide

end httpmiddleware
